import Mathlib

/-!
Verification of `wstux::intrusive_ptr`.

A shallow embedding of `src/libs/intrusive/intrusive_ptr.h`.

* The heap is a list of managed objects; the address of an object is its index.
  Every object carries the field `m_ref_counter` injected by `INIT_INTRUSIVE_PTR`
  and a liveness bit that `delete ptr` clears.  Addresses are never reused.
* `m_ref_counter` is an `unsigned int`; its width `w` is a parameter of the
  embedding (`w = 32` on the common platforms) and `++` / `--` are computed
  modulo `2 ^ w`.  In the atomic variant (`INIT_ATOMIC_INTRUSIVE_PTR`) the
  counter is a `std::atomic_size_t`, as wide as a pointer, and each `++` / `--`
  is one atomic read-modify-write; concurrent executions are schedules of whole
  handle operations (`run_threads`).
* Handles (`intrusive_ptr<T>` values) live in a table indexed by a handle id.
  A slot is `some p` while the handle is within its lifetime (`p` is `m_ptr`)
  and `none` once its destructor has run.  Temporaries of the copy-and-swap
  assignments are ordinary entries of that table.
* Touching an object that is not live, or a handle outside its lifetime, is
  undefined behaviour in C++; the embedding returns `none` there.
* The converting copy members (`const intrusive_ptr<U>&`) execute the statements
  of their same-type twins, reading the source through the public `rhs.get()`,
  on the same address; `ctor_copy` and `assign_copy` embed both.  The converting
  move members name the private `rhs.m_ptr` of another specialization; they are
  embedded apart, as `ctor_move_converting` and `assign_move_converting`.
-/

namespace wstux

/-- A raw pointer `T*`: either `NULL` or the address of a heap slot. -/
inductive Ptr where
  | NULL : Ptr
  | addr (a : Nat) : Ptr
  deriving DecidableEq

/-- A managed object: the injected counter and whether it has not been deleted. -/
structure Obj where
  m_ref_counter : Nat
  alive : Bool
  deriving DecidableEq

/-- The heap of managed objects, indexed by address. -/
abbrev Heap := List Obj

/-- Program state: the heap and the table of handles. -/
structure State where
  objs : Heap
  handles : List (Option Ptr)
  deriving DecidableEq

/-- The object `new T` yields: counter zero, live. -/
def Obj.fresh : Obj := { m_ref_counter := 0, alive := true }

/-- Source `intrusive_ptr_add_ref`: `++(ptr->m_ref_counter)`. -/
def intrusive_ptr_add_ref (w : Nat) (m : Heap) (ptr : Nat) : Option Heap :=
  match m[ptr]? with
  | none => none
  | some o =>
    if o.alive then
      some (m.set ptr { o with m_ref_counter := (o.m_ref_counter + 1) % 2 ^ w })
    else none

/-- Source `intrusive_ptr_release`: `if (--ptr->m_ref_counter == 0) delete ptr`. -/
def intrusive_ptr_release (w : Nat) (m : Heap) (ptr : Nat) : Option Heap :=
  match m[ptr]? with
  | none => none
  | some o =>
    if o.alive then
      let c := (o.m_ref_counter + 2 ^ w - 1) % 2 ^ w
      if c = 0 then some (m.set ptr { m_ref_counter := c, alive := false })
      else some (m.set ptr { o with m_ref_counter := c })
    else none

namespace intrusive_ptr

/-- Source `get()`: the value of `m_ptr` of a handle within its lifetime. -/
def get (s : State) (self : Nat) : Option Ptr :=
  (s.handles[self]?).join

/-- Assignment to the member `m_ptr` of handle `self`. -/
def set_m_ptr (s : State) (self : Nat) (p : Ptr) : State :=
  { s with handles := s.handles.set self (some p) }

/-- Source `intrusive_ptr()`: a new handle with `m_ptr(NULL)`. -/
def ctor_default (s : State) : State :=
  { s with handles := s.handles ++ [some Ptr.NULL] }

/-- Source `intrusive_ptr(element_type* ptr)`: `m_ptr(ptr)`, then
`intrusive_ptr_add_ref(m_ptr)` when `m_ptr != NULL`. -/
def ctor_ptr (w : Nat) (s : State) (ptr : Ptr) : Option State :=
  match ptr with
  | Ptr.NULL => some { s with handles := s.handles ++ [some ptr] }
  | Ptr.addr a =>
    (intrusive_ptr_add_ref w s.objs a).map
      (fun m => { objs := m, handles := s.handles ++ [some ptr] })

/-- Source `intrusive_ptr(const intrusive_ptr& rhs)`: `m_ptr(rhs.m_ptr)`, then
`intrusive_ptr_add_ref(m_ptr)` when non-null; and its `intrusive_ptr<U>` twin,
which reads the same pointer through the public `rhs.get()`. -/
def ctor_copy (w : Nat) (s : State) (rhs : Nat) : Option State :=
  match get s rhs with
  | none => none
  | some Ptr.NULL => some { s with handles := s.handles ++ [some Ptr.NULL] }
  | some (Ptr.addr a) =>
    (intrusive_ptr_add_ref w s.objs a).map
      (fun m => { objs := m, handles := s.handles ++ [some (Ptr.addr a)] })

/-- Source `intrusive_ptr(intrusive_ptr&& rhs)`, the move constructor from the
same element type: `m_ptr(rhs.m_ptr)`, then `rhs.m_ptr = NULL`. -/
def ctor_move (s : State) (rhs : Nat) : Option State :=
  match get s rhs with
  | none => none
  | some p => some (set_m_ptr { s with handles := s.handles ++ [some p] } rhs Ptr.NULL)

/-- Result of instantiating a member template for given element types: the
instantiation is ill-formed (the program is rejected by the compiler), or it is
well-formed and behaves as the given operation. -/
inductive Instantiated (α : Type) where
  | ill_formed : Instantiated α
  | well_formed (behaviour : α) : Instantiated α
  deriving DecidableEq

/-- Source `template<typename U> intrusive_ptr(const intrusive_ptr<U>& rhs)`
inside `intrusive_ptr<T>`: `m_ptr(rhs.get())`, then the acquire.  It reads the
source through the public `get()`, so it is well-formed whenever `U*` converts
to `T*` (`convertible`). -/
def ctor_copy_converting (convertible : Bool) (w : Nat) (s : State) (rhs : Nat) :
    Instantiated (Option State) :=
  if convertible then Instantiated.well_formed (ctor_copy w s rhs)
  else Instantiated.ill_formed

/-- Source `template<class U> intrusive_ptr(intrusive_ptr<U>&& rhs)` inside
`intrusive_ptr<T>`: `m_ptr(rhs.m_ptr)`, then `rhs.m_ptr = NULL`.  `m_ptr` is
declared `private` and the class template has no friend declaration, so naming
`rhs.m_ptr` is an access violation unless `intrusive_ptr<U>` is
`intrusive_ptr<T>` itself.  Element types are given by tags `T` and `U`. -/
def ctor_move_converting (T U : Nat) (s : State) (rhs : Nat) :
    Instantiated (Option State) :=
  if U = T then Instantiated.well_formed (ctor_move s rhs)
  else Instantiated.ill_formed

/-- Source `~intrusive_ptr()`: `intrusive_ptr_release(m_ptr)` when
`m_ptr != NULL`; afterwards the handle's lifetime is over. -/
def dtor (w : Nat) (s : State) (self : Nat) : Option State :=
  match get s self with
  | none => none
  | some Ptr.NULL => some { s with handles := s.handles.set self none }
  | some (Ptr.addr a) =>
    (intrusive_ptr_release w s.objs a).map
      (fun m => { objs := m, handles := s.handles.set self none })

/-- Source `swap(intrusive_ptr& rhs)`:
`p_tmp = m_ptr; m_ptr = rhs.m_ptr; rhs.m_ptr = p_tmp`. -/
def swap (s : State) (self rhs : Nat) : Option State :=
  match get s self with
  | none => none
  | some p_tmp =>
    match get s rhs with
    | none => none
    | some q => some (set_m_ptr (set_m_ptr s self q) rhs p_tmp)

/-- Source `operator=(const intrusive_ptr& rhs)` and its `intrusive_ptr<U>`
twin: `intrusive_ptr(rhs).swap(*this)`; the temporary dies at the end. -/
def assign_copy (w : Nat) (s : State) (self rhs : Nat) : Option State :=
  let tmp := s.handles.length
  (ctor_copy w s rhs).bind fun s1 =>
  (swap s1 tmp self).bind fun s2 =>
  dtor w s2 tmp

/-- Source `operator=(intrusive_ptr&& rhs)`, move assignment from the same
element type: `intrusive_ptr(static_cast<intrusive_ptr&&>(rhs)).swap(*this)`. -/
def assign_move (w : Nat) (s : State) (self rhs : Nat) : Option State :=
  let tmp := s.handles.length
  (ctor_move s rhs).bind fun s1 =>
  (swap s1 tmp self).bind fun s2 =>
  dtor w s2 tmp

/-- Source `template<class U> operator=(intrusive_ptr<U>&& rhs)` inside
`intrusive_ptr<T>`: `intrusive_ptr(static_cast<intrusive_ptr<U>&&>(rhs)).swap(*this)`.
Its temporary is built by the converting move constructor, so it is well-formed
exactly when that constructor is. -/
def assign_move_converting (T U : Nat) (w : Nat) (s : State) (self rhs : Nat) :
    Instantiated (Option State) :=
  match ctor_move_converting T U s rhs with
  | Instantiated.ill_formed => Instantiated.ill_formed
  | Instantiated.well_formed _ => Instantiated.well_formed (assign_move w s self rhs)

/-- Source `operator=(element_type* rhs)`: `intrusive_ptr(rhs).swap(*this)`. -/
def assign_ptr (w : Nat) (s : State) (self : Nat) (rhs : Ptr) : Option State :=
  let tmp := s.handles.length
  (ctor_ptr w s rhs).bind fun s1 =>
  (swap s1 tmp self).bind fun s2 =>
  dtor w s2 tmp

/-- Source `reset()`: `intrusive_ptr().swap(*this)`. -/
def reset (w : Nat) (s : State) (self : Nat) : Option State :=
  let tmp := s.handles.length
  (swap (ctor_default s) tmp self).bind fun s2 =>
  dtor w s2 tmp

/-- Source `reset(element_type* rhs)`: `intrusive_ptr(rhs).swap(*this)`. -/
def reset_ptr (w : Nat) (s : State) (self : Nat) (rhs : Ptr) : Option State :=
  let tmp := s.handles.length
  (ctor_ptr w s rhs).bind fun s1 =>
  (swap s1 tmp self).bind fun s2 =>
  dtor w s2 tmp

end intrusive_ptr

/-- The handle operations a client can issue. -/
inductive Op where
  | ctor_default : Op
  | ctor_ptr (p : Ptr) : Op
  | ctor_copy (rhs : Nat) : Op
  | ctor_move (rhs : Nat) : Op
  | dtor (self : Nat) : Op
  | assign_copy (self rhs : Nat) : Op
  | assign_move (self rhs : Nat) : Op
  | assign_ptr (self : Nat) (p : Ptr) : Op
  | swap (self rhs : Nat) : Op
  | reset (self : Nat) : Op
  | reset_ptr (self : Nat) (p : Ptr) : Op
  deriving DecidableEq

/-- Execute one handle operation. -/
def step (w : Nat) (s : State) : Op → Option State
  | Op.ctor_default => some (intrusive_ptr.ctor_default s)
  | Op.ctor_ptr p => intrusive_ptr.ctor_ptr w s p
  | Op.ctor_copy rhs => intrusive_ptr.ctor_copy w s rhs
  | Op.ctor_move rhs => intrusive_ptr.ctor_move s rhs
  | Op.dtor self => intrusive_ptr.dtor w s self
  | Op.assign_copy self rhs => intrusive_ptr.assign_copy w s self rhs
  | Op.assign_move self rhs => intrusive_ptr.assign_move w s self rhs
  | Op.assign_ptr self p => intrusive_ptr.assign_ptr w s self p
  | Op.swap self rhs => intrusive_ptr.swap s self rhs
  | Op.reset self => intrusive_ptr.reset w s self
  | Op.reset_ptr self p => intrusive_ptr.reset_ptr w s self p

/-- Execute a sequence of handle operations, left to right. -/
def run (w : Nat) (s : State) : List Op → Option State
  | [] => some s
  | op :: ops => (step w s op).bind fun s1 => run w s1 ops

/-- A state with no handles and `n` freshly constructed objects. -/
def init (n : Nat) : State :=
  { objs := List.replicate n Obj.fresh, handles := [] }

/-- Number of handles within their lifetime whose `m_ptr` is the address `a`. -/
def refs (s : State) (a : Nat) : Nat :=
  s.handles.countP (fun x => decide (x = some (Ptr.addr a)))

end wstux


namespace wstux

/-- The guarded acquire of the constructors:
`if (m_ptr != NULL) intrusive_ptr_add_ref(m_ptr)`. -/
def acquire (w : Nat) (m : Heap) : Ptr → Option Heap
  | Ptr.NULL => some m
  | Ptr.addr a => intrusive_ptr_add_ref w m a

/-- The guarded release of the destructor:
`if (m_ptr != NULL) intrusive_ptr_release(m_ptr)`. -/
def release (w : Nat) (m : Heap) : Ptr → Option Heap
  | Ptr.NULL => some m
  | Ptr.addr a => intrusive_ptr_release w m a

/-- Count invariant (I1): the counter of every live object equals the number of
live handles that hold its address. -/
def CountInv (s : State) : Prop :=
  ∀ a o, s.objs[a]? = some o → o.alive = true → o.m_ref_counter = refs s a

/-- No dangling handle (I3): every non-null live handle points to a live object
whose counter is at least one. -/
def NoDangling (s : State) : Prop :=
  ∀ h a, intrusive_ptr.get s h = some (Ptr.addr a) →
    ∃ o, s.objs[a]? = some o ∧ o.alive = true ∧ 1 ≤ o.m_ref_counter

/-- Fewer than `2 ^ w` live handles hold the address of any one object. -/
def Bounded (w : Nat) (s : State) : Prop :=
  ∀ a, a < s.objs.length → refs s a < 2 ^ w

instance (w : Nat) (s : State) : Decidable (Bounded w s) := by
  unfold Bounded; infer_instance

/-- The state `s` and every state reached while executing `ops` from it are
`Bounded`. -/
def BoundedRun (w : Nat) (s : State) : List Op → Prop
  | [] => Bounded w s
  | op :: ops => Bounded w s ∧
      match step w s op with
      | none => True
      | some s1 => BoundedRun w s1 ops

/-- Heap `m` agrees with the reference counts `f` modulo `2 ^ w`, and every
address with a positive count is that of a live object. -/
def CoherentWith (w : Nat) (m : Heap) (f : Nat → Nat) : Prop :=
  ∀ a, (∀ o, m[a]? = some o → o.alive = true → o.m_ref_counter = f a % 2 ^ w) ∧
       (0 < f a → ∃ o, m[a]? = some o ∧ o.alive = true)

/-- Counter and handle table agree modulo `2 ^ w`, and every address held by a
live handle is that of a live object. -/
def Coherent (w : Nat) (s : State) : Prop :=
  CoherentWith w s.objs (refs s)

/-- One object at address 0, a null handle 0 and `n` handles `1 .. n` that all
hold address 0: the state after `intrusive_ptr<T> h0;` followed by `n`
constructions `intrusive_ptr<T> hi(p)` from the same raw pointer `p`. -/
def crowd (w n : Nat) : State :=
  { objs := [{ m_ref_counter := n % 2 ^ w, alive := true }],
    handles := some Ptr.NULL :: List.replicate n (some (Ptr.addr 0)) }

/-- The operations that build `crowd w n` from `init 1`. -/
def crowdOps (n : Nat) : List Op :=
  Op.ctor_default :: List.replicate n (Op.ctor_ptr (Ptr.addr 0))

/-- Decision procedure for `BoundedRun`. -/
def BoundedRun.dec (w : Nat) : (s : State) → (ops : List Op) → Decidable (BoundedRun w s ops)
  | s, [] => inferInstanceAs (Decidable (Bounded w s))
  | s, op :: ops =>
    match h : step w s op with
    | none => decidable_of_iff (Bounded w s) (by simp [BoundedRun, h])
    | some s1 =>
      @decidable_of_iff _ (Bounded w s ∧ BoundedRun w s1 ops) (by simp [BoundedRun, h])
        (@instDecidableAnd _ _ _ (BoundedRun.dec w s1 ops))

instance (w : Nat) (s : State) (ops : List Op) : Decidable (BoundedRun w s ops) :=
  BoundedRun.dec w s ops

/-- A sample client program: two handles to object 0, a self-assignment, a
default handle, a move assignment, a re-binding to object 1 and a destruction. -/
def sampleOps : List Op :=
  [Op.ctor_ptr (Ptr.addr 0), Op.ctor_copy 0, Op.assign_copy 0 0, Op.ctor_default,
   Op.assign_move 3 1, Op.reset_ptr 0 (Ptr.addr 1), Op.dtor 3]

/-- The state `sampleOps` reaches from two fresh objects. -/
def sampleFinal : State :=
  { objs := [{ m_ref_counter := 0, alive := false }, { m_ref_counter := 1, alive := true }],
    handles := [some (Ptr.addr 1), some Ptr.NULL, none, none, none, none] }

/-- One object owned by exactly one handle. -/
def soleOwner : State :=
  { objs := [{ m_ref_counter := 1, alive := true }], handles := [some (Ptr.addr 0)] }

/-- One object shared by two handles, and a second object owned by a third. -/
def shared : State :=
  { objs := [{ m_ref_counter := 2, alive := true }, { m_ref_counter := 1, alive := true }],
    handles := [some (Ptr.addr 0), some (Ptr.addr 0), some (Ptr.addr 1), some Ptr.NULL] }

/-- Heap `m1` is a later stage of heap `m`: every object of `m` is still there,
an object deleted in `m` is untouched, and an object deleted since has counter 0. -/
def Ages (m m1 : Heap) : Prop :=
  ∀ (a : Nat) (o : Obj), m[a]? = some o → ∃ o1, m1[a]? = some o1 ∧ (o.alive = false → o1 = o) ∧
    (o.alive = true → o1.alive = false → o1.m_ref_counter = 0)

/-- A deleted object at address 0, a null handle 0, a destroyed handle 1 and `n`
live handles that still hold address 0. -/
def stranded (n : Nat) : State :=
  { objs := [{ m_ref_counter := 0, alive := false }],
    handles := some Ptr.NULL :: none :: List.replicate n (some (Ptr.addr 0)) }

/-- Source `operator==(const intrusive_ptr<T>&, const intrusive_ptr<U>&)`:
`lhs.get() == rhs.get()`. -/
def operator_eq (s : State) (lhs rhs : Nat) : Option Bool :=
  match intrusive_ptr.get s lhs, intrusive_ptr.get s rhs with
  | some p, some q => some (decide (p = q))
  | _, _ => none

/-- Source `operator!=(const intrusive_ptr<T>&, const intrusive_ptr<U>&)`:
`lhs.get() != rhs.get()`. -/
def operator_ne (s : State) (lhs rhs : Nat) : Option Bool :=
  match intrusive_ptr.get s lhs, intrusive_ptr.get s rhs with
  | some p, some q => some (decide (p ≠ q))
  | _, _ => none

/-- Source `intrusive_ptr::operator!()`: `m_ptr == NULL`. -/
def intrusive_ptr.operator_not (s : State) (self : Nat) : Option Bool :=
  (intrusive_ptr.get s self).map fun p => decide (p = Ptr.NULL)

/-- Source `intrusive_ptr::operator bool()`: `m_ptr != NULL`. -/
def intrusive_ptr.operator_bool (s : State) (self : Nat) : Option Bool :=
  (intrusive_ptr.get s self).map fun p => decide (p ≠ Ptr.NULL)

/-- Source `std::swap(intrusive_ptr<T>& lhs, intrusive_ptr<T>& rhs)`:
`lhs.swap(rhs)`. -/
def std_swap (s : State) (lhs rhs : Nat) : Option State :=
  intrusive_ptr.swap s lhs rhs

/-- The new-expression `::new T_nc(std::forward<TArgs>(args)...)`.  The outcome of
the allocation and the constructor of `T` are parameters; either may throw, and
then no object exists afterwards.  A constructed object carries the counter the
member initialiser of `INIT_INTRUSIVE_PTR` gives it, zero. -/
def new_T {ε Args : Type} (alloc : Except ε Unit) (T_ctor : Args → Except ε Unit)
    (args : Args) (m : Heap) : Except ε (Heap × Nat) :=
  match alloc with
  | Except.error e => Except.error e
  | Except.ok _ =>
    match T_ctor args with
    | Except.error e => Except.error e
    | Except.ok _ => Except.ok (m ++ [Obj.fresh], m.length)

/-- Source `make_intrusive`:
`try { return intrusive_ptr<T>(::new T_nc(args...)); } catch (...) { throw; }`.
The result is the state afterwards together with either the exception that
propagates or the id of the handle returned. -/
def make_intrusive {ε Args : Type} (w : Nat) (alloc : Except ε Unit)
    (T_ctor : Args → Except ε Unit) (args : Args) (s : State) :
    Option (State × Except ε Nat) :=
  match new_T alloc T_ctor args s.objs with
  | Except.error e => some (s, Except.error e)
  | Except.ok (m, p) =>
    (intrusive_ptr.ctor_ptr w { objs := m, handles := s.handles } (Ptr.addr p)).map
      fun s1 => (s1, Except.ok s.handles.length)

/-- Number of objects constructed and not yet deleted (the `instance_count` of
the test classes). -/
def instance_count (s : State) : Nat :=
  s.objs.countP (fun o => o.alive)

/-- Some live handle held the address `a` at some point between the operations
of the run of `ops` from `s`. -/
def wasBound (w : Nat) (s : State) (a : Nat) : List Op → Bool
  | [] => decide (0 < refs s a)
  | op :: ops => decide (0 < refs s a) ||
      match step w s op with
      | none => false
      | some s1 => wasBound w s1 a ops

/-- Counters of live objects agree with the reference counts `f` modulo `2 ^ w`,
and a live object in `B` has a positive reference count. -/
def Tracked (w : Nat) (m : Heap) (f : Nat → Nat) (B : Nat → Prop) : Prop :=
  ∀ (a : Nat) (o : Obj), m[a]? = some o → o.alive = true →
    o.m_ref_counter = f a % 2 ^ w ∧ (B a → 0 < f a)

/-- The handles an operation names: its receiver, its source, and the handle it
constructs (which gets the next free id). -/
def operands (s : State) : Op → List Nat
  | Op.ctor_default => [s.handles.length]
  | Op.ctor_ptr _ => [s.handles.length]
  | Op.ctor_copy rhs => [rhs, s.handles.length]
  | Op.ctor_move rhs => [rhs, s.handles.length]
  | Op.dtor self => [self]
  | Op.assign_copy self rhs => [self, rhs]
  | Op.assign_move self rhs => [self, rhs]
  | Op.assign_ptr self _ => [self]
  | Op.swap self rhs => [self, rhs]
  | Op.reset self => [self]
  | Op.reset_ptr self _ => [self]

/-- The handles an operation names that exist before it: receiver and source. -/
def named : Op → List Nat
  | Op.ctor_default => []
  | Op.ctor_ptr _ => []
  | Op.ctor_copy rhs => [rhs]
  | Op.ctor_move rhs => [rhs]
  | Op.dtor self => [self]
  | Op.assign_copy self rhs => [self, rhs]
  | Op.assign_move self rhs => [self, rhs]
  | Op.assign_ptr self _ => [self]
  | Op.swap self rhs => [self, rhs]
  | Op.reset self => [self]
  | Op.reset_ptr self _ => [self]

/-- The state `shared` after the destruction of handle 2. -/
def sharedDropped : State :=
  { objs := [{ m_ref_counter := 2, alive := true }, { m_ref_counter := 0, alive := false }],
    handles := [some (Ptr.addr 0), some (Ptr.addr 0), none, some Ptr.NULL] }

/-- A client program that binds two objects and destroys every handle. -/
def scopedOps : List Op :=
  [Op.ctor_ptr (Ptr.addr 0), Op.ctor_copy 0, Op.ctor_ptr (Ptr.addr 1), Op.assign_move 0 2,
   Op.dtor 0, Op.dtor 1, Op.dtor 2]

/-- A constructor of `T` that throws on the argument 0 and succeeds otherwise. -/
def pickyCtor (n : Nat) : Except String Unit :=
  if n = 0 then Except.error "zero" else Except.ok ()

/-- Outcome of a member function whose body starts with an `assert`: the
assertion fails, or the member returns a value. -/
inductive Checked (α : Type) where
  | assert_failed : Checked α
  | returned (v : α) : Checked α
  deriving DecidableEq

/-- Source `operator*() const`: `assert(m_ptr != NULL); return *m_ptr;`.  With
`debug` the assertion is compiled in (no `NDEBUG`).  The value returned is the
reference to the object, given by its address; the second component is the state
afterwards.  Indirection through a null or dangling pointer is undefined. -/
def intrusive_ptr.operator_star (debug : Bool) (s : State) (self : Nat) :
    Option (Checked Nat × State) :=
  match intrusive_ptr.get s self with
  | none => none
  | some p =>
    if debug && decide (p = Ptr.NULL) then some (Checked.assert_failed, s)
    else
      match p with
      | Ptr.NULL => none
      | Ptr.addr a =>
        match s.objs[a]? with
        | none => none
        | some o => if o.alive then some (Checked.returned a, s) else none

/-- Source `operator->() const`: `assert(m_ptr != NULL); return m_ptr;`.  With
`debug` the assertion is compiled in (no `NDEBUG`).  The second component is the
state afterwards. -/
def intrusive_ptr.operator_arrow (debug : Bool) (s : State) (self : Nat) :
    Option (Checked Ptr × State) :=
  match intrusive_ptr.get s self with
  | none => none
  | some p =>
    if debug && decide (p = Ptr.NULL) then some (Checked.assert_failed, s)
    else some (Checked.returned p, s)

/-- The raw pointer an operation is given, `NULL` when it takes none. -/
def rawArg : Op → Ptr
  | Op.ctor_ptr p => p
  | Op.assign_ptr _ p => p
  | Op.reset_ptr _ p => p
  | _ => Ptr.NULL

/-- The pointer is null or the address of an object that has not been deleted. -/
def pointsToLive (m : Heap) : Ptr → Bool
  | Ptr.NULL => true
  | Ptr.addr a =>
    match m[a]? with
    | some o => o.alive
    | none => false

/-- An operation a program may issue in state `s`: the handles it names are
within their lifetime, and the raw pointer it is given is null or the address
of a live object. -/
def WellFormed (s : State) (op : Op) : Prop :=
  (∀ x ∈ named op, (intrusive_ptr.get s x).isSome = true) ∧
  pointsToLive s.objs (rawArg op) = true

instance (s : State) (op : Op) : Decidable (WellFormed s op) := by
  unfold WellFormed; infer_instance

/-- Every operation of `ops` is `WellFormed` in the state it is issued in, when
`ops` is executed from `s`. -/
def WellFormedRun (w : Nat) (s : State) : List Op → Prop
  | [] => True
  | op :: ops => WellFormed s op ∧
      match step w s op with
      | none => True
      | some s1 => WellFormedRun w s1 ops

/-- Decision procedure for `WellFormedRun`. -/
def WellFormedRun.dec (w : Nat) :
    (s : State) → (ops : List Op) → Decidable (WellFormedRun w s ops)
  | _, [] => isTrue trivial
  | s, op :: ops =>
    match h : step w s op with
    | none => decidable_of_iff (WellFormed s op) (by simp [WellFormedRun, h])
    | some s1 =>
      @decidable_of_iff _ (WellFormed s op ∧ WellFormedRun w s1 ops)
        (by simp [WellFormedRun, h])
        (@instDecidableAnd _ _ _ (WellFormedRun.dec w s1 ops))

instance (w : Nat) (s : State) (ops : List Op) : Decidable (WellFormedRun w s ops) :=
  WellFormedRun.dec w s ops

/-- What a thread does in the shared-handle scenario: copy the shared handle
into its local handle, use the pointee through the local, drop the local. -/
inductive Ev where
  | copy (t : Nat) : Ev
  | use (t : Nat) : Ev
  | drop (t : Nat) : Ev
  deriving DecidableEq

/-- The thread that performs an event. -/
def Ev.thread : Ev → Nat
  | Ev.copy t => t
  | Ev.use t => t
  | Ev.drop t => t

/-- The program of thread `t`. -/
def program (t : Nat) : List Ev :=
  [Ev.copy t, Ev.use t, Ev.drop t]

/-- One event of a thread, on the shared state and the table `locals` of the
threads' local handles (`locals[t]` is the id of the local handle of thread `t`
while it lives).  `copy` is the copy constructor from the shared handle `h1`;
`use` is `operator*` on the local; `drop` is the destructor of the local.  The
counter update inside each of them is one atomic read-modify-write in the
atomic variant, so events of different threads interleave as whole steps. -/
def thread_step (w h1 : Nat) (c : State × List (Option Nat)) : Ev →
    Option (State × List (Option Nat))
  | Ev.copy t =>
    (intrusive_ptr.ctor_copy w c.1 h1).map
      fun s1 => (s1, c.2.set t (some c.1.handles.length))
  | Ev.use t =>
    match (c.2[t]?).join with
    | none => none
    | some x =>
      match intrusive_ptr.operator_star true c.1 x with
      | some (Checked.returned _, s1) => some (s1, c.2)
      | _ => none
  | Ev.drop t =>
    match (c.2[t]?).join with
    | none => none
    | some x => (intrusive_ptr.dtor w c.1 x).map fun s1 => (s1, c.2.set t none)

/-- Execute a schedule of thread events, left to right. -/
def run_threads (w h1 : Nat) (c : State × List (Option Nat)) :
    List Ev → Option (State × List (Option Nat))
  | [] => some c
  | e :: es => (thread_step w h1 c e).bind fun c1 => run_threads w h1 c1 es

/-- The events of thread `t` in a schedule, in order. -/
def proj (t : Nat) (sched : List Ev) : List Ev :=
  sched.filter (fun e => decide (e.thread = t))

/-- The schedule is an interleaving of the programs of threads `0 .. N-1`. -/
def Interleaving (N : Nat) (sched : List Ev) : Prop :=
  (∀ e ∈ sched, e.thread < N) ∧ ∀ t, t < N → proj t sched = program t

instance (N : Nat) (sched : List Ev) : Decidable (Interleaving N sched) := by
  unfold Interleaving; infer_instance

/-- Two threads: both copy, then both use, then both drop. -/
def twoThreads : List Ev :=
  [Ev.copy 0, Ev.copy 1, Ev.use 1, Ev.use 0, Ev.drop 0, Ev.drop 1]

/-- Number of threads whose local handle is alive. -/
def live (L : List (Option Nat)) : Nat :=
  L.countP (fun v => v.isSome)

/-- What holds between the events of an interleaving started in `s0` with the
shared handle `h1` on the object `a` of counter 1: the local handles are distinct
handles created since, each holds `a`; the handles of `s0` are as they were; the
heap is that of `s0` with the counter of `a` at one plus the number of live
locals (modulo `2 ^ w`), the object alive. -/
def ThreadsInv (w a : Nat) (s0 : State) (N : Nat) (c : State × List (Option Nat)) : Prop :=
  c.2.length = N ∧
  s0.handles.length ≤ c.1.handles.length ∧
  (∀ x : Nat, x < s0.handles.length → c.1.handles[x]? = s0.handles[x]?) ∧
  (∀ t x : Nat, c.2[t]? = some (some x) →
    s0.handles.length ≤ x ∧ intrusive_ptr.get c.1 x = some (Ptr.addr a)) ∧
  (∀ t u x : Nat, c.2[t]? = some (some x) → c.2[u]? = some (some x) → t = u) ∧
  c.1.objs = s0.objs.set a { m_ref_counter := (1 + live c.2) % 2 ^ w, alive := true } ∧
  (∀ b, refs c.1 b = refs s0 b + (if b = a then live c.2 else 0))

/-- Where thread `t` stands: what it still has to do, and whether its local
handle is alive. -/
def Phase (L : List (Option Nat)) (rest : List Ev) (t : Nat) : Prop :=
  (proj t rest = program t ∧ L[t]? = some none) ∨
  (proj t rest = [Ev.use t, Ev.drop t] ∧ ∃ x, L[t]? = some (some x)) ∨
  (proj t rest = [Ev.drop t] ∧ ∃ x, L[t]? = some (some x)) ∨
  (proj t rest = [] ∧ L[t]? = some none)

/-! ## The two counter primitives -/

theorem add_ref_of_alive {w : Nat} {m : Heap} {a : Nat} {o : Obj}
    (ho : m[a]? = some o) (hal : o.alive = true) :
    intrusive_ptr_add_ref w m a
      = some (m.set a { m_ref_counter := (o.m_ref_counter + 1) % 2 ^ w, alive := true }) := by
  simp [intrusive_ptr_add_ref, ho, hal]

theorem add_ref_inv {w : Nat} {m m1 : Heap} {a : Nat}
    (h : intrusive_ptr_add_ref w m a = some m1) :
    ∃ o, m[a]? = some o ∧ o.alive = true ∧
      m1 = m.set a { m_ref_counter := (o.m_ref_counter + 1) % 2 ^ w, alive := true } := by
  unfold intrusive_ptr_add_ref at h
  cases ho : m[a]? with
  | none => simp [ho] at h
  | some o =>
    cases hal : o.alive with
    | false => simp [ho, hal] at h
    | true =>
      refine ⟨o, rfl, hal, ?_⟩
      simp [ho, hal] at h
      exact h.symm

theorem release_of_alive {w : Nat} {m : Heap} {a : Nat} {o : Obj}
    (ho : m[a]? = some o) (hal : o.alive = true) :
    intrusive_ptr_release w m a
      = some (m.set a { m_ref_counter := (o.m_ref_counter + 2 ^ w - 1) % 2 ^ w,
                        alive := decide ((o.m_ref_counter + 2 ^ w - 1) % 2 ^ w ≠ 0) }) := by
  unfold intrusive_ptr_release
  by_cases hc : (o.m_ref_counter + 2 ^ w - 1) % 2 ^ w = 0
  · simp [ho, hal, hc]
  · simp [ho, hal, hc]

theorem release_inv {w : Nat} {m m1 : Heap} {a : Nat}
    (h : intrusive_ptr_release w m a = some m1) :
    ∃ o, m[a]? = some o ∧ o.alive = true ∧
      m1 = m.set a { m_ref_counter := (o.m_ref_counter + 2 ^ w - 1) % 2 ^ w,
                     alive := decide ((o.m_ref_counter + 2 ^ w - 1) % 2 ^ w ≠ 0) } := by
  cases ho : m[a]? with
  | none => simp [intrusive_ptr_release, ho] at h
  | some o =>
    cases hal : o.alive with
    | false => simp [intrusive_ptr_release, ho, hal] at h
    | true =>
      refine ⟨o, rfl, hal, ?_⟩
      rw [release_of_alive ho hal] at h
      exact (Option.some.inj h).symm

/-- Decrementing a counter `c` with `1 ≤ c < 2 ^ w` does not wrap. -/
theorem dec_mod {w c : Nat} (h1 : 1 ≤ c) (h2 : c < 2 ^ w) :
    (c + 2 ^ w - 1) % 2 ^ w = c - 1 := by
  have e : c + 2 ^ w - 1 = (c - 1) + 2 ^ w := by omega
  rw [e, Nat.add_mod_right, Nat.mod_eq_of_lt (by omega)]

/-! ## Reference counts of the handle table and coherence of the heap -/

theorem countP_set_add {α : Type} (q : α → Bool) (l : List α) (i : Nat) (x : α)
    (h : i < l.length) :
    (l.set i x).countP q + (if q l[i] then 1 else 0)
      = l.countP q + (if q x then 1 else 0) := by
  induction l generalizing i with
  | nil => simp at h
  | cons y l ih =>
    cases i with
    | zero =>
      simp only [List.set_cons_zero, List.countP_cons, List.getElem_cons_zero]
      omega
    | succ i =>
      have h1 : i < l.length := by simpa using h
      have := ih i h1
      simp only [List.set_cons_succ, List.countP_cons, List.getElem_cons_succ]
      omega

theorem refs_push (s : State) (m : Heap) (x : Option Ptr) (a : Nat) :
    refs { objs := m, handles := s.handles ++ [x] } a
      = refs s a + (if x = some (Ptr.addr a) then 1 else 0) := by
  simp [refs, List.countP_append, List.countP_cons]

theorem refs_set (s : State) (m : Heap) (h : Nat) (x y : Option Ptr) (a : Nat)
    (hy : s.handles[h]? = some y) :
    refs { objs := m, handles := s.handles.set h x } a
        + (if y = some (Ptr.addr a) then 1 else 0)
      = refs s a + (if x = some (Ptr.addr a) then 1 else 0) := by
  obtain ⟨hlt, hget⟩ := List.getElem?_eq_some_iff.mp hy
  have := countP_set_add (fun z => decide (z = some (Ptr.addr a))) s.handles h x hlt
  rw [hget] at this
  simpa [refs] using this

theorem two_pow_pos (w : Nat) : 0 < 2 ^ w := Nat.pos_pow_of_pos w (by decide)

theorem CoherentWith.add_ref {w : Nat} {m m1 : Heap} {f g : Nat → Nat} {b : Nat}
    (hc : CoherentWith w m f) (hm : intrusive_ptr_add_ref w m b = some m1)
    (hg : ∀ a, g a = f a + (if a = b then 1 else 0)) : CoherentWith w m1 g := by
  obtain ⟨o, ho, hal, rfl⟩ := add_ref_inv hm
  have hb : b < m.length := (List.getElem?_eq_some_iff.mp ho).1
  intro a
  rw [hg a]
  by_cases hab : a = b
  · subst hab
    simp only [if_true, List.getElem?_set_self hb, Option.some.injEq]
    refine ⟨?_, fun _ => ⟨_, rfl, rfl⟩⟩
    intro o1 ho1 _
    subst ho1
    simp only
    rw [(hc a).1 o ho hal, Nat.mod_add_mod]
  · have hba : b ≠ a := fun h => hab h.symm
    simp only [hab, if_false, Nat.add_zero, List.getElem?_set_ne hba]
    exact hc a

theorem CoherentWith.release {w : Nat} {m m1 : Heap} {f g : Nat → Nat} {b : Nat}
    (hc : CoherentWith w m f) (hm : intrusive_ptr_release w m b = some m1)
    (hle : f b ≤ 2 ^ w) (hpos : 1 ≤ f b)
    (hg : ∀ a, g a + (if a = b then 1 else 0) = f a) : CoherentWith w m1 g := by
  obtain ⟨o, ho, hal, rfl⟩ := release_inv hm
  have hb : b < m.length := (List.getElem?_eq_some_iff.mp ho).1
  have hcnt := (hc b).1 o ho hal
  have hp := two_pow_pos w
  have key : (o.m_ref_counter + 2 ^ w - 1) % 2 ^ w = f b - 1 := by
    rw [hcnt]
    rcases Nat.lt_or_ge (f b) (2 ^ w) with hlt | hge
    · rw [Nat.mod_eq_of_lt hlt, dec_mod (by omega) hlt]
    · have e : f b = 2 ^ w := by omega
      rw [e, Nat.mod_self, Nat.zero_add, Nat.mod_eq_of_lt (by omega)]
  rw [key]
  intro a
  have hga := hg a
  by_cases hab : a = b
  · subst hab
    simp only [if_true] at hga
    simp only [List.getElem?_set_self hb, Option.some.injEq]
    refine ⟨?_, ?_⟩
    · intro o1 ho1 _
      subst ho1
      simp only
      rw [Nat.mod_eq_of_lt (by omega)]
      omega
    · intro hp
      exact ⟨_, rfl, by simp; omega⟩
  · have hba : b ≠ a := fun h => hab h.symm
    simp only [hab, if_false, Nat.add_zero] at hga
    rw [hga]
    simp only [List.getElem?_set_ne hba]
    exact hc a

namespace intrusive_ptr

/-! ## Closed forms of the handle operations -/

theorem get_eq_some {s : State} {h : Nat} {p : Ptr} :
    get s h = some p ↔ s.handles[h]? = some (some p) := by
  unfold get
  cases hh : s.handles[h]? with
  | none => simp
  | some x => cases x <;> simp

theorem get_lt {s : State} {h : Nat} {p : Ptr} (hg : get s h = some p) :
    h < s.handles.length := by
  rw [get_eq_some] at hg
  exact (List.getElem?_eq_some_iff.mp hg).1

theorem ctor_ptr_eq (w : Nat) (s : State) (p : Ptr) :
    ctor_ptr w s p = (acquire w s.objs p).map
      (fun m => { objs := m, handles := s.handles ++ [some p] }) := by
  cases p <;> simp [ctor_ptr, acquire]

theorem ctor_copy_eq (w : Nat) (s : State) (rhs : Nat) :
    ctor_copy w s rhs = (get s rhs).bind (ctor_ptr w s) := by
  unfold ctor_copy
  cases hg : get s rhs with
  | none => simp
  | some p => cases p <;> simp [ctor_ptr]

theorem dtor_eq (w : Nat) (s : State) (self : Nat) :
    dtor w s self = (get s self).bind fun p => (release w s.objs p).map
      (fun m => { objs := m, handles := s.handles.set self none }) := by
  unfold dtor
  cases hg : get s self with
  | none => simp
  | some p => cases p <;> simp [release]

theorem assign_ptr_eq (w : Nat) (s : State) (d : Nat) (pd pr : Ptr)
    (hd : get s d = some pd) :
    assign_ptr w s d pr = (acquire w s.objs pr).bind fun m1 =>
      (release w m1 pd).map fun m2 =>
        { objs := m2, handles := s.handles.set d (some pr) ++ [none] } := by
  have hlt := get_lt hd
  rw [get_eq_some] at hd
  unfold assign_ptr
  rw [ctor_ptr_eq]
  cases hacq : acquire w s.objs pr with
  | none => simp
  | some m1 =>
    simp [swap, get, set_m_ptr, dtor_eq, List.getElem?_append_left, hlt, hd, List.getElem?_set]

theorem reset_ptr_eq (w : Nat) (s : State) (d : Nat) (pd pr : Ptr)
    (hd : get s d = some pd) :
    reset_ptr w s d pr = (acquire w s.objs pr).bind fun m1 =>
      (release w m1 pd).map fun m2 =>
        { objs := m2, handles := s.handles.set d (some pr) ++ [none] } :=
  assign_ptr_eq w s d pd pr hd

theorem assign_copy_eq (w : Nat) (s : State) (d r : Nat) (pd pr : Ptr)
    (hd : get s d = some pd) (hr : get s r = some pr) :
    assign_copy w s d r = (acquire w s.objs pr).bind fun m1 =>
      (release w m1 pd).map fun m2 =>
        { objs := m2, handles := s.handles.set d (some pr) ++ [none] } := by
  have hlt := get_lt hd
  have hd2 := get_eq_some.mp hd
  unfold assign_copy
  rw [ctor_copy_eq, hr, Option.some_bind, ctor_ptr_eq]
  cases hacq : acquire w s.objs pr with
  | none => simp
  | some m1 =>
    simp [swap, get, set_m_ptr, dtor_eq, List.getElem?_append_left, hlt, hd2, List.getElem?_set]

theorem reset_eq (w : Nat) (s : State) (d : Nat) (pd : Ptr)
    (hd : get s d = some pd) :
    reset w s d = (release w s.objs pd).map fun m2 =>
        { objs := m2, handles := s.handles.set d (some Ptr.NULL) ++ [none] } := by
  have hlt := get_lt hd
  have hd2 := get_eq_some.mp hd
  unfold reset
  simp [swap, get, set_m_ptr, dtor_eq, ctor_default, List.getElem?_append_left, hlt, hd2,
    List.getElem?_set]

theorem assign_move_eq (w : Nat) (s : State) (d r : Nat) (pd pr : Ptr)
    (hd : get s d = some pd) (hr : get s r = some pr) :
    assign_move w s d r = (release w s.objs (if d = r then Ptr.NULL else pd)).map fun m2 =>
        { objs := m2,
          handles := (s.handles.set r (some Ptr.NULL)).set d (some pr) ++ [none] } := by
  have hlt := get_lt hd
  have hlt2 := get_lt hr
  have hd2 := get_eq_some.mp hd
  have hr2 := get_eq_some.mp hr
  unfold assign_move ctor_move
  rw [hr]
  by_cases hdr : d = r
  · subst hdr
    simp [swap, get, set_m_ptr, dtor_eq, List.getElem?_append_left, hlt, hd2,
      List.getElem?_set, release]
  · have hrd : ¬ r = d := fun h => hdr h.symm
    have hd3 : s.handles[d] = some pd := (List.getElem?_eq_some_iff.mp hd2).2
    simp [swap, get, set_m_ptr, dtor_eq, List.getElem?_append_left, hlt, hlt2, hd2, hr2,
      List.getElem?_set, hdr, hrd, hd3]

end intrusive_ptr

/-! ## Coherence is preserved by every operation -/

namespace intrusive_ptr

theorem ctor_default_refs (s : State) (a : Nat) : refs (ctor_default s) a = refs s a := by
  simp [ctor_default, refs_push]

theorem ctor_ptr_coherent {w : Nat} {s s1 : State} {p : Ptr}
    (hc : Coherent w s) (h : ctor_ptr w s p = some s1) :
    Coherent w s1 ∧ ∀ a, refs s1 a ≤ refs s a + 1 := by
  cases p with
  | NULL =>
    simp only [ctor_ptr, Option.some.injEq] at h
    subst h
    have hr : ∀ a, refs { s with handles := s.handles ++ [some Ptr.NULL] } a = refs s a := by
      intro a; simp [refs_push]
    refine ⟨?_, fun a => by rw [hr a]; omega⟩
    intro a
    rw [hr a]
    exact hc a
  | addr b =>
    simp only [ctor_ptr, Option.map_eq_some'] at h
    obtain ⟨m, hm, rfl⟩ := h
    have hr : ∀ a, refs { objs := m, handles := s.handles ++ [some (Ptr.addr b)] } a
        = refs s a + (if a = b then 1 else 0) := by
      intro a
      rw [refs_push]
      by_cases hab : a = b
      · subst hab; simp
      · have : ¬ b = a := fun h => hab h.symm
        simp [hab, this]
    refine ⟨CoherentWith.add_ref hc hm hr, fun a => ?_⟩
    rw [hr a]
    split <;> omega

theorem ctor_copy_coherent {w : Nat} {s s1 : State} {r : Nat}
    (hc : Coherent w s) (h : ctor_copy w s r = some s1) :
    Coherent w s1 ∧ ∀ a, refs s1 a ≤ refs s a + 1 := by
  rw [ctor_copy_eq] at h
  cases hg : get s r with
  | none => simp [hg] at h
  | some p =>
    rw [hg, Option.some_bind] at h
    exact ctor_ptr_coherent hc h

theorem ctor_move_frame {s s1 : State} {r : Nat} (h : ctor_move s r = some s1) :
    s1.objs = s.objs ∧ ∀ a, refs s1 a = refs s a := by
  unfold ctor_move at h
  cases hg : get s r with
  | none => simp [hg] at h
  | some p =>
    simp only [hg, Option.some.injEq] at h
    subst h
    refine ⟨rfl, fun a => ?_⟩
    have hlt := get_lt hg
    have hy : (s.handles ++ [some p])[r]? = some (some p) := by
      rw [List.getElem?_append_left hlt]; exact get_eq_some.mp hg
    have h1 := refs_set { objs := s.objs, handles := s.handles ++ [some p] } s.objs r
      (some Ptr.NULL) (some p) a hy
    have h2 := refs_push s s.objs (some p) a
    simp only [Option.some.injEq, reduceCtorEq, if_false, Nat.add_zero] at h1 h2
    simp only [set_m_ptr]
    omega

theorem swap_frame {s s1 : State} {x y : Nat} (h : swap s x y = some s1) :
    s1.objs = s.objs ∧ ∀ a, refs s1 a = refs s a := by
  unfold swap at h
  cases hx : get s x with
  | none => simp [hx] at h
  | some p =>
    cases hy : get s y with
    | none => simp [hx, hy] at h
    | some q =>
      simp only [hx, hy, Option.some.injEq] at h
      subst h
      refine ⟨rfl, fun a => ?_⟩
      have hx2 := get_eq_some.mp hx
      have hy2 := get_eq_some.mp hy
      have h1 := refs_set s s.objs x (some q) (some p) a hx2
      have hy3 : (s.handles.set x (some q))[y]? = some (some q) := by
        by_cases hxy : x = y
        · subst hxy; rw [List.getElem?_set_self (get_lt hx)]
        · rw [List.getElem?_set_ne hxy]; exact hy2
      have h2 := refs_set { objs := s.objs, handles := s.handles.set x (some q) } s.objs y
        (some p) (some q) a hy3
      simp only [set_m_ptr]
      dsimp only at h1 h2 ⊢
      omega

theorem dtor_coherent {w : Nat} {s s1 : State} {x : Nat}
    (hc : Coherent w s) (hle : ∀ a, refs s a ≤ 2 ^ w) (h : dtor w s x = some s1) :
    Coherent w s1 ∧ ∀ a, refs s1 a ≤ refs s a := by
  rw [dtor_eq] at h
  cases hg : get s x with
  | none => simp [hg] at h
  | some p =>
    rw [hg, Option.some_bind, Option.map_eq_some'] at h
    obtain ⟨m, hm, rfl⟩ := h
    have hy := get_eq_some.mp hg
    cases p with
    | NULL =>
      simp only [release, Option.some.injEq] at hm
      subst hm
      have hr : ∀ a, refs { objs := s.objs, handles := s.handles.set x none } a = refs s a := by
        intro a
        have := refs_set s s.objs x none _ a hy
        simpa using this
      refine ⟨?_, fun a => by rw [hr a]⟩
      intro a
      rw [hr a]
      exact hc a
    | addr b =>
      have hr : ∀ a, refs { objs := m, handles := s.handles.set x none } a
          + (if a = b then 1 else 0) = refs s a := by
        intro a
        have := refs_set s m x none _ a hy
        by_cases hab : a = b
        · subst hab; simpa using this
        · have hba : ¬ b = a := fun h => hab h.symm
          simpa [hab, hba] using this
      have hpos : 1 ≤ refs s b := by
        have := hr b
        simp at this
        omega
      refine ⟨CoherentWith.release hc hm (hle b) hpos hr, fun a => ?_⟩
      have := hr a
      omega

end intrusive_ptr

theorem Coherent.refs_lt {w : Nat} {s : State} (hc : Coherent w s) (hb : Bounded w s)
    (a : Nat) : refs s a < 2 ^ w := by
  by_cases h0 : 0 < refs s a
  · obtain ⟨o, ho, _⟩ := (hc a).2 h0
    exact hb a (List.getElem?_eq_some_iff.mp ho).1
  · have := two_pow_pos w
    omega

open intrusive_ptr in
/-- Every handle operation preserves coherence when started in a bounded state. -/
theorem step_coherent {w : Nat} {s s1 : State} {op : Op}
    (hc : Coherent w s) (hb : Bounded w s) (h : step w s op = some s1) :
    Coherent w s1 := by
  have hlt := hc.refs_lt hb
  have tail : ∀ {s2 s3 : State} (tmp x : Nat), Coherent w s2 →
      (∀ a, refs s2 a ≤ refs s a + 1) →
      ((swap s2 tmp x).bind fun s4 => dtor w s4 tmp) = some s3 → Coherent w s3 := by
    intro s2 s3 tmp x hc2 hr2 h2
    rw [Option.bind_eq_some] at h2
    obtain ⟨s4, hsw, hd⟩ := h2
    obtain ⟨ho, hr4⟩ := swap_frame hsw
    have hc4 : Coherent w s4 := by
      intro a
      show _ ∧ _
      rw [ho, hr4 a]
      exact hc2 a
    refine (dtor_coherent hc4 (fun a => ?_) hd).1
    rw [hr4 a]
    have := hr2 a
    have := hlt a
    omega
  cases op with
  | ctor_default =>
    simp only [step, Option.some.injEq] at h
    subst h
    intro a
    show _ ∧ _
    rw [ctor_default_refs]
    exact hc a
  | ctor_ptr p => exact (ctor_ptr_coherent hc h).1
  | ctor_copy r => exact (ctor_copy_coherent hc h).1
  | ctor_move r =>
    obtain ⟨ho, hr⟩ := ctor_move_frame h
    intro a
    show _ ∧ _
    rw [ho, hr a]
    exact hc a
  | dtor x => exact (dtor_coherent hc (fun a => Nat.le_of_lt (hlt a)) h).1
  | assign_copy x r =>
    simp only [step, assign_copy, Option.bind_eq_some] at h
    obtain ⟨s2, h1, s4, hsw, hd⟩ := h
    obtain ⟨hc2, hr2⟩ := ctor_copy_coherent hc h1
    exact tail _ x hc2 hr2 (by rw [Option.bind_eq_some]; exact ⟨s4, hsw, hd⟩)
  | assign_move x r =>
    simp only [step, assign_move, Option.bind_eq_some] at h
    obtain ⟨s2, h1, s4, hsw, hd⟩ := h
    obtain ⟨ho, hr⟩ := ctor_move_frame h1
    have hc2 : Coherent w s2 := by
      intro a
      show _ ∧ _
      rw [ho, hr a]
      exact hc a
    exact tail _ x hc2 (fun a => by rw [hr a]; omega)
      (by rw [Option.bind_eq_some]; exact ⟨s4, hsw, hd⟩)
  | assign_ptr x p =>
    simp only [step, assign_ptr, Option.bind_eq_some] at h
    obtain ⟨s2, h1, s4, hsw, hd⟩ := h
    obtain ⟨hc2, hr2⟩ := ctor_ptr_coherent hc h1
    exact tail _ x hc2 hr2 (by rw [Option.bind_eq_some]; exact ⟨s4, hsw, hd⟩)
  | swap x y =>
    obtain ⟨ho, hr⟩ := swap_frame h
    intro a
    show _ ∧ _
    rw [ho, hr a]
    exact hc a
  | reset x =>
    simp only [step, reset] at h
    have hc2 : Coherent w (ctor_default s) := by
      intro a
      show _ ∧ _
      rw [ctor_default_refs]
      exact hc a
    exact tail _ x hc2 (fun a => by rw [ctor_default_refs]; omega) h
  | reset_ptr x p =>
    simp only [step, reset_ptr, Option.bind_eq_some] at h
    obtain ⟨s2, h1, s4, hsw, hd⟩ := h
    obtain ⟨hc2, hr2⟩ := ctor_ptr_coherent hc h1
    exact tail _ x hc2 hr2 (by rw [Option.bind_eq_some]; exact ⟨s4, hsw, hd⟩)

/-! ## Runs -/

theorem run_append (w : Nat) (s : State) (xs ys : List Op) :
    run w s (xs ++ ys) = (run w s xs).bind fun s1 => run w s1 ys := by
  induction xs generalizing s with
  | nil => simp [run]
  | cons x xs ih =>
    simp only [List.cons_append, run]
    cases step w s x with
    | none => simp
    | some s1 => simp [ih]

theorem init_coherent (w n : Nat) : Coherent w (init n) := by
  intro a
  refine ⟨?_, ?_⟩
  · intro o ho _
    have hmem : o ∈ List.replicate n Obj.fresh := List.getElem?_mem ho
    have : o = Obj.fresh := (List.mem_replicate.mp hmem).2
    subst this
    simp [refs, init, Obj.fresh]
  · intro h
    simp [refs, init] at h

theorem run_coherent {w : Nat} {ops : List Op} {s s1 : State}
    (hc : Coherent w s) (hb : BoundedRun w s ops) (h : run w s ops = some s1) :
    Coherent w s1 ∧ Bounded w s1 := by
  induction ops generalizing s with
  | nil =>
    simp only [run, Option.some.injEq] at h
    subst h
    exact ⟨hc, hb⟩
  | cons op ops ih =>
    simp only [run, Option.bind_eq_some] at h
    obtain ⟨s2, hst, hrun⟩ := h
    obtain ⟨hb0, hb1⟩ := hb
    rw [hst] at hb1
    exact ih (step_coherent hc hb0 hst) hb1 hrun

theorem Coherent.countInv {w : Nat} {s : State} (hc : Coherent w s) (hb : Bounded w s) :
    CountInv s := by
  intro a o ho hal
  rw [(hc a).1 o ho hal, Nat.mod_eq_of_lt (hc.refs_lt hb a)]

theorem refs_pos_of_get {s : State} {h a : Nat}
    (hg : intrusive_ptr.get s h = some (Ptr.addr a)) : 0 < refs s a := by
  have hy := intrusive_ptr.get_eq_some.mp hg
  have := refs_set s s.objs h none _ a hy
  simp at this
  omega

theorem Coherent.noDangling {w : Nat} {s : State} (hc : Coherent w s) (hb : Bounded w s) :
    NoDangling s := by
  intro h a hg
  have hpos := refs_pos_of_get hg
  obtain ⟨o, ho, hal⟩ := (hc a).2 hpos
  refine ⟨o, ho, hal, ?_⟩
  rw [hc.countInv hb a o ho hal]
  exact hpos

theorem crowd_step (w n : Nat) :
    intrusive_ptr.ctor_ptr w (crowd w n) (Ptr.addr 0) = some (crowd w (n + 1)) := by
  simp only [intrusive_ptr.ctor_ptr, crowd, intrusive_ptr_add_ref, List.getElem?_cons_zero,
    if_true, List.set_cons_zero, Option.map_some', Nat.mod_add_mod, List.cons_append,
    ← List.replicate_succ']

theorem crowd_run (w n : Nat) : run w (init 1) (crowdOps n) = some (crowd w n) := by
  induction n with
  | zero => simp [crowdOps, run, step, intrusive_ptr.ctor_default, init, crowd, Obj.fresh]
  | succ n ih =>
    have e : crowdOps (n + 1) = crowdOps n ++ [Op.ctor_ptr (Ptr.addr 0)] := by
      simp only [crowdOps, List.replicate_succ', List.cons_append]
    rw [e, run_append, ih]
    simp only [Option.some_bind, run, step, crowd_step]

theorem crowd_refs (w n : Nat) : refs (crowd w n) 0 = n := by
  simp [refs, crowd, List.countP_cons, List.countP_replicate]

/-! ## Auxiliary facts: lists, modular arithmetic, the crowded states -/

theorem set_of_getElem? {α : Type} {l : List α} {i : Nat} {x : α} (h : l[i]? = some x) :
    l.set i x = l := by
  induction l generalizing i with
  | nil => simp
  | cons y l ih =>
    cases i with
    | zero => simp at h; simp [h]
    | succ i => simp at h; simp [ih h]

theorem crowd_get_zero (w n : Nat) : intrusive_ptr.get (crowd w n) 0 = some Ptr.NULL := by
  simp [intrusive_ptr.get, crowd]

theorem crowd_get_succ (w n i : Nat) (hi : i < n) :
    intrusive_ptr.get (crowd w n) (i + 1) = some (Ptr.addr 0) := by
  simp [intrusive_ptr.get, crowd, List.getElem?_replicate_of_lt hi]

/-- Destroying handle 1 of a crowd. -/
theorem crowd_dtor (w k : Nat) :
    intrusive_ptr.dtor w (crowd w (k + 1)) 1
      = some { objs := [{ m_ref_counter := ((k + 1) % 2 ^ w + 2 ^ w - 1) % 2 ^ w,
                          alive := decide (((k + 1) % 2 ^ w + 2 ^ w - 1) % 2 ^ w ≠ 0) }],
               handles := some Ptr.NULL :: none :: List.replicate k (some (Ptr.addr 0)) } := by
  rw [intrusive_ptr.dtor_eq, crowd_get_succ w (k + 1) 0 (Nat.succ_pos k), Option.some_bind]
  simp only [release, crowd]
  rw [release_of_alive (o := { m_ref_counter := (k + 1) % 2 ^ w, alive := true }) rfl rfl]
  simp only [Option.map_some', List.set_cons_zero, List.replicate_succ, List.set_cons_succ]

/-- Incrementing and then decrementing an `unsigned int` restores it. -/
theorem inc_dec_mod {w c : Nat} (h2 : c < 2 ^ w) :
    ((c + 1) % 2 ^ w + 2 ^ w - 1) % 2 ^ w = c := by
  rcases Nat.lt_or_ge (c + 1) (2 ^ w) with hlt | hge
  · rw [Nat.mod_eq_of_lt hlt, dec_mod (by omega) hlt]
    omega
  · have e : c + 1 = 2 ^ w := by omega
    rw [e, Nat.mod_self, Nat.zero_add, Nat.mod_eq_of_lt (by omega)]
    omega

theorem addr_ne {a b : Nat} (h : Ptr.addr a ≠ Ptr.addr b) : a ≠ b :=
  fun e => h (by rw [e])

/-- A release touches no object other than the one released. -/
theorem release_frame {w : Nat} {m m1 : Heap} {p : Ptr} (h : release w m p = some m1)
    (b : Nat) (hb : p ≠ Ptr.addr b) : m1[b]? = m[b]? := by
  cases p with
  | NULL =>
    simp only [release, Option.some.injEq] at h
    rw [h]
  | addr a =>
    obtain ⟨o, _, _, rfl⟩ := release_inv h
    have hab : a ≠ b := fun e => hb (by rw [e])
    rw [List.getElem?_set_ne hab]

/-- An acquire and a release on two different objects commute. -/
theorem add_ref_release_comm (w : Nat) (m : Heap) {a b : Nat} (hab : a ≠ b) :
    (intrusive_ptr_add_ref w m b).bind (fun m1 => intrusive_ptr_release w m1 a)
      = (intrusive_ptr_release w m a).bind (fun m1 => intrusive_ptr_add_ref w m1 b) := by
  have hba : b ≠ a := fun h => hab h.symm
  cases hb : m[b]? with
  | none =>
    have l : intrusive_ptr_add_ref w m b = none := by simp [intrusive_ptr_add_ref, hb]
    rw [l, Option.none_bind]
    cases hr : intrusive_ptr_release w m a with
    | none => rfl
    | some m1 =>
      obtain ⟨o, _, _, rfl⟩ := release_inv hr
      simp [intrusive_ptr_add_ref, List.getElem?_set_ne hab, hb]
  | some ob =>
    cases halb : ob.alive with
    | false =>
      have l : intrusive_ptr_add_ref w m b = none := by
        simp [intrusive_ptr_add_ref, hb, halb]
      rw [l, Option.none_bind]
      cases hr : intrusive_ptr_release w m a with
      | none => rfl
      | some m1 =>
        obtain ⟨o, _, _, rfl⟩ := release_inv hr
        simp [intrusive_ptr_add_ref, List.getElem?_set_ne hab, hb, halb]
    | true =>
      rw [add_ref_of_alive hb halb, Option.some_bind]
      cases ha : m[a]? with
      | none =>
        simp [intrusive_ptr_release, List.getElem?_set_ne hba, ha]
      | some oa =>
        cases hala : oa.alive with
        | false => simp [intrusive_ptr_release, List.getElem?_set_ne hba, ha, hala]
        | true =>
          rw [release_of_alive (o := oa) (by rw [List.getElem?_set_ne hba]; exact ha) hala,
            release_of_alive ha hala, Option.some_bind,
            add_ref_of_alive (o := ob) (by rw [List.getElem?_set_ne hab]; exact hb) halb,
            List.set_comm _ _ _ hba]

/-! ## C1: the count invariant -/

/-- C1 (as stated) fails: after `intrusive_ptr<T> h0;` and `2 ^ 32` handles
constructed from the same raw pointer, the 32-bit counter of the live object
has wrapped to 0 although `2 ^ 32` live handles hold its address. -/
theorem count_invariant_wraps :
    run 32 (init 1) (crowdOps (2 ^ 32)) = some (crowd 32 (2 ^ 32)) ∧
      ¬ CountInv (crowd 32 (2 ^ 32)) := by
  refine ⟨crowd_run 32 (2 ^ 32), fun h => ?_⟩
  have h0 := h 0 { m_ref_counter := 2 ^ 32 % 2 ^ 32, alive := true } rfl rfl
  rw [crowd_refs] at h0
  exact absurd h0 (by decide)

/-- C1 (amended): in every run of handle operations from a state with no handles
and only fresh objects, in which fewer than `2 ^ w` live handles hold any one
address at each point between operations, the counter of every live object
equals the number of live handles that hold its address. -/
theorem count_invariant_bounded (w n : Nat) (ops : List Op) (s : State)
    (hrun : run w (init n) ops = some s) (hb : BoundedRun w (init n) ops) :
    CountInv s :=
  have h := run_coherent (init_coherent w n) hb hrun
  h.1.countInv h.2

/-- C1 (amended), instance: the sample program runs from two fresh objects, stays
bounded, and its final state satisfies the count invariant. -/
theorem count_invariant_bounded_witness :
    run 32 (init 2) sampleOps = some sampleFinal ∧ BoundedRun 32 (init 2) sampleOps ∧
      CountInv sampleFinal :=
  ⟨by decide, by decide, count_invariant_bounded 32 2 sampleOps sampleFinal (by decide) (by decide)⟩

/-! ## Ageing of the heap -/

theorem Ages.refl (m : Heap) : Ages m m := by
  intro a o ho
  exact ⟨o, ho, fun _ => rfl, fun h1 h2 => (by rw [h1] at h2; cases h2)⟩

theorem Ages.trans {m m1 m2 : Heap} (h1 : Ages m m1) (h2 : Ages m1 m2) : Ages m m2 := by
  intro a o ho
  obtain ⟨o1, ho1, hd1, hk1⟩ := h1 a o ho
  obtain ⟨o2, ho2, hd2, hk2⟩ := h2 a o1 ho1
  refine ⟨o2, ho2, ?_, ?_⟩
  · intro hdead
    have e := hd1 hdead
    subst e
    exact hd2 hdead
  · intro hal hdead2
    cases h : o1.alive with
    | true => exact hk2 h hdead2
    | false =>
      rw [hd2 h]
      exact hk1 hal h

theorem add_ref_ages {w : Nat} {m m1 : Heap} {b : Nat}
    (h : intrusive_ptr_add_ref w m b = some m1) : Ages m m1 := by
  obtain ⟨o, ho, hal, rfl⟩ := add_ref_inv h
  have hb : b < m.length := (List.getElem?_eq_some_iff.mp ho).1
  intro a o1 ho1
  by_cases hab : b = a
  · subst hab
    rw [ho] at ho1
    cases ho1
    exact ⟨_, List.getElem?_set_self hb, fun hd => (by rw [hal] at hd; cases hd),
      fun _ hd => (by cases hd)⟩
  · rw [List.getElem?_set_ne hab]
    exact ⟨o1, ho1, fun _ => rfl, fun h1 h2 => (by rw [h1] at h2; cases h2)⟩

theorem release_ages {w : Nat} {m m1 : Heap} {b : Nat}
    (h : intrusive_ptr_release w m b = some m1) : Ages m m1 := by
  obtain ⟨o, ho, hal, rfl⟩ := release_inv h
  have hb : b < m.length := (List.getElem?_eq_some_iff.mp ho).1
  intro a o1 ho1
  by_cases hab : b = a
  · subst hab
    rw [ho] at ho1
    cases ho1
    refine ⟨_, List.getElem?_set_self hb, fun hd => (by rw [hal] at hd; cases hd), ?_⟩
    intro _ hd
    simpa using hd
  · rw [List.getElem?_set_ne hab]
    exact ⟨o1, ho1, fun _ => rfl, fun h1 h2 => (by rw [h1] at h2; cases h2)⟩

namespace intrusive_ptr

theorem ctor_ptr_ages {w : Nat} {s s1 : State} {p : Ptr} (h : ctor_ptr w s p = some s1) :
    Ages s.objs s1.objs := by
  cases p with
  | NULL =>
    simp only [ctor_ptr, Option.some.injEq] at h
    subst h
    exact Ages.refl _
  | addr b =>
    simp only [ctor_ptr, Option.map_eq_some'] at h
    obtain ⟨m, hm, rfl⟩ := h
    exact add_ref_ages hm

theorem ctor_copy_ages {w : Nat} {s s1 : State} {r : Nat} (h : ctor_copy w s r = some s1) :
    Ages s.objs s1.objs := by
  rw [ctor_copy_eq] at h
  cases hg : get s r with
  | none => simp [hg] at h
  | some p =>
    rw [hg, Option.some_bind] at h
    exact ctor_ptr_ages h

theorem dtor_ages {w : Nat} {s s1 : State} {x : Nat} (h : dtor w s x = some s1) :
    Ages s.objs s1.objs := by
  rw [dtor_eq] at h
  cases hg : get s x with
  | none => simp [hg] at h
  | some p =>
    rw [hg, Option.some_bind, Option.map_eq_some'] at h
    obtain ⟨m, hm, rfl⟩ := h
    cases p with
    | NULL =>
      simp only [release, Option.some.injEq] at hm
      subst hm
      exact Ages.refl _
    | addr b => exact release_ages hm

end intrusive_ptr

open intrusive_ptr in
theorem step_ages {w : Nat} {s s1 : State} {op : Op} (h : step w s op = some s1) :
    Ages s.objs s1.objs := by
  have tail : ∀ (s2 s3 : State) (tmp x : Nat),
      ((swap s2 tmp x).bind fun s4 => dtor w s4 tmp) = some s3 → Ages s2.objs s3.objs := by
    intro s2 s3 tmp x h2
    rw [Option.bind_eq_some] at h2
    obtain ⟨s4, hsw, hd⟩ := h2
    have := dtor_ages hd
    rwa [(swap_frame hsw).1] at this
  cases op with
  | ctor_default =>
    simp only [step, Option.some.injEq] at h
    subst h
    exact Ages.refl _
  | ctor_ptr p => exact ctor_ptr_ages h
  | ctor_copy r => exact ctor_copy_ages h
  | ctor_move r => rw [(ctor_move_frame h).1]; exact Ages.refl _
  | dtor x => exact dtor_ages h
  | assign_copy x r =>
    simp only [step, assign_copy, Option.bind_eq_some] at h
    obtain ⟨s2, h1, s4, hsw, hd⟩ := h
    exact (ctor_copy_ages h1).trans
      (tail _ _ _ x (by rw [Option.bind_eq_some]; exact ⟨s4, hsw, hd⟩))
  | assign_move x r =>
    simp only [step, assign_move, Option.bind_eq_some] at h
    obtain ⟨s2, h1, s4, hsw, hd⟩ := h
    have := tail s2 _ _ x (by rw [Option.bind_eq_some]; exact ⟨s4, hsw, hd⟩)
    rwa [(ctor_move_frame h1).1] at this
  | assign_ptr x p =>
    simp only [step, assign_ptr, Option.bind_eq_some] at h
    obtain ⟨s2, h1, s4, hsw, hd⟩ := h
    exact (ctor_ptr_ages h1).trans
      (tail _ _ _ x (by rw [Option.bind_eq_some]; exact ⟨s4, hsw, hd⟩))
  | swap x y => rw [(swap_frame h).1]; exact Ages.refl _
  | reset x =>
    simp only [step, reset] at h
    exact tail (ctor_default s) _ _ x h
  | reset_ptr x p =>
    simp only [step, reset_ptr, Option.bind_eq_some] at h
    obtain ⟨s2, h1, s4, hsw, hd⟩ := h
    exact (ctor_ptr_ages h1).trans
      (tail _ _ _ x (by rw [Option.bind_eq_some]; exact ⟨s4, hsw, hd⟩))

theorem run_ages {w : Nat} {ops : List Op} {s s1 : State} (h : run w s ops = some s1) :
    Ages s.objs s1.objs := by
  induction ops generalizing s with
  | nil =>
    simp only [run, Option.some.injEq] at h
    subst h
    exact Ages.refl _
  | cons op ops ih =>
    simp only [run, Option.bind_eq_some] at h
    obtain ⟨s2, hst, hrun⟩ := h
    exact (step_ages hst).trans (ih hrun)

/-! ## C3: no dangling handle -/

/-- C3 (as stated) fails: with `2 ^ 32 + 1` handles constructed from one raw
pointer the 32-bit counter has wrapped to 1, so destroying one of them deletes
the object while the other `2 ^ 32` handles still hold its address. -/
theorem dangling_after_wrap :
    run 32 (init 1) (crowdOps (2 ^ 32 + 1) ++ [Op.dtor 1]) = some (stranded (2 ^ 32)) ∧
      ¬ NoDangling (stranded (2 ^ 32)) := by
  refine ⟨?_, fun h => ?_⟩
  · rw [run_append, crowd_run, Option.some_bind]
    simp only [run, step, Option.bind_eq_bind]
    rw [crowd_dtor 32 (2 ^ 32)]
    rfl
  · have hg : intrusive_ptr.get (stranded (2 ^ 32)) 2 = some (Ptr.addr 0) := by
      simp only [intrusive_ptr.get, stranded, List.getElem?_cons_succ]
      rw [List.getElem?_replicate_of_lt (by decide)]
      rfl
    obtain ⟨o, ho, hal, _⟩ := h 2 0 hg
    simp only [stranded, List.getElem?_cons_zero, Option.some.injEq] at ho
    subst ho
    cases hal

/-- C3 (amended): in every run of handle operations from a state with no handles
and only fresh objects, in which fewer than `2 ^ w` live handles hold any one
address at each point between operations, every non-null live handle points to a
live object whose counter is at least one. -/
theorem no_dangling_bounded (w n : Nat) (ops : List Op) (s : State)
    (hrun : run w (init n) ops = some s) (hb : BoundedRun w (init n) ops) :
    NoDangling s :=
  have h := run_coherent (init_coherent w n) hb hrun
  h.1.noDangling h.2

/-- C3 (amended), instance: the sample program followed by a copy construction
leaves no dangling handle. -/
theorem no_dangling_bounded_witness :
    run 32 (init 2) (sampleOps ++ [Op.ctor_copy 0]) = some
      { objs := [{ m_ref_counter := 0, alive := false }, { m_ref_counter := 2, alive := true }],
        handles := [some (Ptr.addr 1), some Ptr.NULL, none, none, none, none,
          some (Ptr.addr 1)] } ∧
    BoundedRun 32 (init 2) (sampleOps ++ [Op.ctor_copy 0]) ∧
    NoDangling
      { objs := [{ m_ref_counter := 0, alive := false }, { m_ref_counter := 2, alive := true }],
        handles := [some (Ptr.addr 1), some Ptr.NULL, none, none, none, none,
          some (Ptr.addr 1)] } :=
  ⟨by decide, by decide,
    no_dangling_bounded 32 2 (sampleOps ++ [Op.ctor_copy 0]) _ (by decide) (by decide)⟩

/-! ## C4: self-assignment -/

/-- C4: copy-assigning a non-null handle to itself, its pointee being live with
counter `c ≥ 1`, succeeds, leaves the handle pointing to the same object and
leaves the object untouched: not deleted, counter still `c`.  The resulting
state is the old one plus the dead slot of the temporary. -/
theorem self_assign_keeps (w : Nat) (s : State) (h a : Nat) (o : Obj)
    (hg : intrusive_ptr.get s h = some (Ptr.addr a)) (ho : s.objs[a]? = some o)
    (hal : o.alive = true) (h1 : 1 ≤ o.m_ref_counter) (h2 : o.m_ref_counter < 2 ^ w) :
    ∃ s1, intrusive_ptr.assign_copy w s h h = some s1 ∧
      s1 = { objs := s.objs, handles := s.handles ++ [none] } ∧
      intrusive_ptr.get s1 h = some (Ptr.addr a) ∧
      s1.objs[a]? = some o ∧ o.alive = true := by
  have hlt := intrusive_ptr.get_lt hg
  have hy := intrusive_ptr.get_eq_some.mp hg
  have ha : a < s.objs.length := (List.getElem?_eq_some_iff.mp ho).1
  refine ⟨{ objs := s.objs, handles := s.handles ++ [none] }, ?_, rfl, ?_, ho, hal⟩
  · rw [intrusive_ptr.assign_copy_eq w s h h _ _ hg hg]
    simp only [acquire, release]
    rw [add_ref_of_alive ho hal, Option.some_bind,
      release_of_alive (List.getElem?_set_self ha) rfl]
    simp only [Option.map_some', inc_dec_mod h2, List.set_set, set_of_getElem? hy]
    have e : decide (o.m_ref_counter ≠ 0) = true := by simp; omega
    rw [e]
    have eo : ({ m_ref_counter := o.m_ref_counter, alive := true } : Obj) = o := by
      cases o; simp_all
    rw [eo, set_of_getElem? ho]
  · rw [intrusive_ptr.get_eq_some, List.getElem?_append_left hlt]
    exact hy

/-- C4, instance: a sole owner assigned to itself keeps its pointee, alive, with
counter 1. -/
theorem self_assign_keeps_witness :
    intrusive_ptr.get soleOwner 0 = some (Ptr.addr 0) ∧
    soleOwner.objs[0]? = some { m_ref_counter := 1, alive := true } ∧
    ∃ s1, intrusive_ptr.assign_copy 32 soleOwner 0 0 = some s1 ∧
      s1 = { objs := soleOwner.objs, handles := soleOwner.handles ++ [none] } ∧
      intrusive_ptr.get s1 0 = some (Ptr.addr 0) ∧
      s1.objs[0]? = some { m_ref_counter := 1, alive := true } ∧
      ({ m_ref_counter := 1, alive := true } : Obj).alive = true :=
  ⟨by decide, by decide,
    self_assign_keeps 32 soleOwner 0 0 { m_ref_counter := 1, alive := true }
      (by decide) (by decide) rfl (by decide) (by decide)⟩

/-! ## C5: copy assignment -/

/-- C5 (amended): copy assignment `d = s` between two distinct live handles whose
pointees (where non-null) are live, the old pointee of `d` with counter at least
one and, where the two pointees differ, the pointee of `s` with counter below
`2 ^ w - 1`.  Afterwards `d.get() == s.get()`, no other handle has changed, and:
if the pointees differ, the counter of the pointee of `s` is one higher and that
of the old pointee of `d` one lower, that object being deleted exactly when its
counter was one; if they are the same object, the heap is unchanged. -/
theorem assign_copy_post (w : Nat) (s : State) (d r : Nat) (pd pr : Ptr)
    (hne : d ≠ r)
    (hd : intrusive_ptr.get s d = some pd) (hr : intrusive_ptr.get s r = some pr)
    (hold : ∀ a, pd = Ptr.addr a → ∃ o, s.objs[a]? = some o ∧ o.alive = true ∧
      1 ≤ o.m_ref_counter ∧ o.m_ref_counter < 2 ^ w)
    (hnew : ∀ b, pr = Ptr.addr b → pd ≠ pr → ∃ o, s.objs[b]? = some o ∧ o.alive = true ∧
      o.m_ref_counter + 1 < 2 ^ w) :
    ∃ s1, intrusive_ptr.assign_copy w s d r = some s1 ∧
      s1.handles = s.handles.set d (some pr) ++ [none] ∧
      intrusive_ptr.get s1 d = some pr ∧ intrusive_ptr.get s1 r = some pr ∧
      (pd ≠ pr →
        (∀ (b : Nat) (o : Obj), pr = Ptr.addr b → s.objs[b]? = some o →
          s1.objs[b]? = some { m_ref_counter := o.m_ref_counter + 1, alive := true }) ∧
        (∀ (a : Nat) (o : Obj), pd = Ptr.addr a → s.objs[a]? = some o →
          s1.objs[a]? = some { m_ref_counter := o.m_ref_counter - 1,
                               alive := decide (o.m_ref_counter ≠ 1) })) ∧
      (pd = pr → s1.objs = s.objs) := by
  have hdl := intrusive_ptr.get_lt hd
  have hrl := intrusive_ptr.get_lt hr
  have hry := intrusive_ptr.get_eq_some.mp hr
  have hgd : ∀ m : Heap, intrusive_ptr.get
      { objs := m, handles := s.handles.set d (some pr) ++ [none] } d = some pr := by
    intro m
    rw [intrusive_ptr.get_eq_some]
    simp only
    rw [List.getElem?_append_left (by simpa using hdl), List.getElem?_set_self hdl]
  have hgr : ∀ m : Heap, intrusive_ptr.get
      { objs := m, handles := s.handles.set d (some pr) ++ [none] } r = some pr := by
    intro m
    rw [intrusive_ptr.get_eq_some]
    simp only
    rw [List.getElem?_append_left (by simpa using hrl), List.getElem?_set_ne hne]
    exact hry
  rw [intrusive_ptr.assign_copy_eq w s d r pd pr hd hr]
  by_cases hsame : pd = pr
  · -- same pointee (or both null): the heap is restored
    subst hsame
    cases pd with
    | NULL =>
      refine ⟨_, rfl, rfl, hgd _, hgr _, fun h => absurd rfl h, fun _ => rfl⟩
    | addr a =>
      obtain ⟨o, ho, hal, h1, h2⟩ := hold a rfl
      have ha : a < s.objs.length := (List.getElem?_eq_some_iff.mp ho).1
      have e : decide (o.m_ref_counter ≠ 0) = true := by simp; omega
      have eo : ({ m_ref_counter := o.m_ref_counter, alive := true } : Obj) = o := by
        cases o; simp_all
      have hm : ((acquire w s.objs (Ptr.addr a)).bind fun m1 =>
          (release w m1 (Ptr.addr a)).map fun m2 =>
            ({ objs := m2, handles := s.handles.set d (some (Ptr.addr a)) ++ [none] } : State))
          = some { objs := s.objs,
                   handles := s.handles.set d (some (Ptr.addr a)) ++ [none] } := by
        simp only [acquire, release]
        rw [add_ref_of_alive ho hal, Option.some_bind,
          release_of_alive (List.getElem?_set_self ha) rfl]
        simp only [Option.map_some', inc_dec_mod h2, List.set_set]
        rw [e, eo, set_of_getElem? ho]
      rw [hm]
      refine ⟨_, rfl, rfl, hgd _, hgr _, fun h => absurd rfl h, fun _ => rfl⟩
  · -- different pointees
    cases pr with
    | NULL =>
      cases pd with
      | NULL => exact absurd rfl hsame
      | addr a =>
        obtain ⟨o, ho, hal, h1, h2⟩ := hold a rfl
        have ha : a < s.objs.length := (List.getElem?_eq_some_iff.mp ho).1
        simp only [acquire, release, Option.some_bind]
        rw [release_of_alive ho hal, dec_mod h1 h2]
        have e : decide ((o.m_ref_counter - 1) ≠ 0) = decide (o.m_ref_counter ≠ 1) :=
          decide_eq_decide.mpr (by omega)
        rw [e]
        refine ⟨_, rfl, rfl, hgd _, hgr _, fun _ => ⟨?_, ?_⟩, fun h => absurd h hsame⟩
        · intro b o1 hb
          cases hb
        · intro a1 o1 ha1 ho1
          cases ha1
          rw [ho] at ho1
          cases ho1
          exact List.getElem?_set_self ha
    | addr b =>
      obtain ⟨ob, hob, halb, hb2⟩ := hnew b rfl hsame
      have hb : b < s.objs.length := (List.getElem?_eq_some_iff.mp hob).1
      cases pd with
      | NULL =>
        simp only [acquire, release]
        rw [add_ref_of_alive hob halb, Nat.mod_eq_of_lt hb2]
        refine ⟨_, rfl, rfl, hgd _, hgr _, fun _ => ⟨?_, ?_⟩, fun h => absurd h hsame⟩
        · intro b1 o1 hb1 ho1
          cases hb1
          rw [hob] at ho1
          cases ho1
          exact List.getElem?_set_self hb
        · intro a1 o1 ha1
          cases ha1
      | addr a =>
        obtain ⟨o, ho, hal, h1, h2⟩ := hold a rfl
        have ha : a < s.objs.length := (List.getElem?_eq_some_iff.mp ho).1
        have hab : a ≠ b := addr_ne hsame
        have hba : b ≠ a := fun h => hab h.symm
        simp only [acquire, release]
        rw [add_ref_of_alive hob halb, Nat.mod_eq_of_lt hb2, Option.some_bind,
          release_of_alive (o := o) (by rw [List.getElem?_set_ne hba]; exact ho) hal,
          dec_mod h1 h2]
        have e : decide ((o.m_ref_counter - 1) ≠ 0) = decide (o.m_ref_counter ≠ 1) :=
          decide_eq_decide.mpr (by omega)
        rw [e]
        refine ⟨_, rfl, rfl, hgd _, hgr _, fun _ => ⟨?_, ?_⟩, fun h => absurd h hsame⟩
        · intro b1 o1 hb1 ho1
          cases hb1
          rw [hob] at ho1
          cases ho1
          simp only [Option.map_some']
          rw [List.getElem?_set_ne hab]
          exact List.getElem?_set_self hb
        · intro a1 o1 ha1 ho1
          cases ha1
          rw [ho] at ho1
          cases ho1
          exact List.getElem?_set_self (by simpa using ha)

/-- C5 (amended), instance: assigning the null handle 3 into the sole owner 2
deletes the pointee and leaves handle 2 null. -/
theorem assign_copy_post_witness :
    (2 : Nat) ≠ 3 ∧ intrusive_ptr.get shared 2 = some (Ptr.addr 1) ∧
    intrusive_ptr.get shared 3 = some Ptr.NULL ∧
    shared.objs[1]? = some { m_ref_counter := 1, alive := true } ∧
    ∃ s1, intrusive_ptr.assign_copy 32 shared 2 3 = some s1 ∧
      intrusive_ptr.get s1 2 = some Ptr.NULL ∧ intrusive_ptr.get s1 3 = some Ptr.NULL ∧
      s1.objs[1]? = some { m_ref_counter := 0, alive := false } := by
  obtain ⟨s1, h1, _, h3, h4, h5, _⟩ :=
    assign_copy_post 32 shared 2 3 (Ptr.addr 1) Ptr.NULL (by decide) (by decide) (by decide)
      (fun a h => by cases h; exact ⟨_, rfl, rfl, by decide, by decide⟩)
      (fun b h => by cases h)
  exact ⟨by decide, by decide, by decide, by decide, s1, h1, h3, h4,
    (h5 (by decide)).2 1 { m_ref_counter := 1, alive := true } rfl rfl⟩

/-- C5 (as stated) fails: with `2 ^ 32 - 1` handles on one object (its 32-bit
counter is `2 ^ 32 - 1`), assigning handle 1 to the null handle 0 leaves the
counter of the pointee at 0, not one higher than before. -/
theorem assign_copy_wraps :
    run 32 (init 1) (crowdOps (2 ^ 32 - 1)) = some (crowd 32 (2 ^ 32 - 1)) ∧
    intrusive_ptr.get (crowd 32 (2 ^ 32 - 1)) 0 = some Ptr.NULL ∧
    intrusive_ptr.get (crowd 32 (2 ^ 32 - 1)) 1 = some (Ptr.addr 0) ∧
    (crowd 32 (2 ^ 32 - 1)).objs = [{ m_ref_counter := 2 ^ 32 - 1, alive := true }] ∧
    (intrusive_ptr.assign_copy 32 (crowd 32 (2 ^ 32 - 1)) 0 1).map State.objs
      = some [{ m_ref_counter := 0, alive := true }] := by
  refine ⟨crowd_run _ _, crowd_get_zero _ _, crowd_get_succ _ _ 0 (by decide), rfl, ?_⟩
  rw [intrusive_ptr.assign_copy_eq 32 _ 0 1 Ptr.NULL (Ptr.addr 0) (crowd_get_zero _ _)
    (crowd_get_succ _ _ 0 (by decide))]
  simp only [acquire, release, crowd]
  rw [add_ref_of_alive (o := { m_ref_counter := (2 ^ 32 - 1) % 2 ^ 32, alive := true }) rfl rfl]
  rfl

/-! ## C6: order of effects on assignment -/

/-- C6 (as stated) fails: when the sole owner of an object is assigned itself,
its own raw pointer, or is reset to its own pointer, the object survives with
counter 1, whereas running release(old) before acquire(new) deletes the object
at the release and then acquires a deleted object. -/
theorem release_first_differs :
    (intrusive_ptr.assign_copy 32 soleOwner 0 0).map State.objs
      = some [{ m_ref_counter := 1, alive := true }] ∧
    (intrusive_ptr.assign_ptr 32 soleOwner 0 (Ptr.addr 0)).map State.objs
      = some [{ m_ref_counter := 1, alive := true }] ∧
    (intrusive_ptr.reset_ptr 32 soleOwner 0 (Ptr.addr 0)).map State.objs
      = some [{ m_ref_counter := 1, alive := true }] ∧
    release 32 soleOwner.objs (Ptr.addr 0) = some [{ m_ref_counter := 0, alive := false }] ∧
    (release 32 soleOwner.objs (Ptr.addr 0)).bind (fun m => acquire 32 m (Ptr.addr 0))
      = none := by
  decide

/-- C6 (amended): copy assignment from a handle, assignment from a raw pointer
and `reset(p)` first acquire the new pointee (if non-null) and then release the
receiver's old pointee (if non-null): the resulting heap is that of running
acquire(new) followed by release(old).  Whenever the old pointee is null or is
not the new pointee, this is also the heap of release(old) followed by
acquire(new). -/
theorem assign_acquires_first (w : Nat) (s : State) (d r : Nat) (pd pr p : Ptr)
    (hd : intrusive_ptr.get s d = some pd) (hr : intrusive_ptr.get s r = some pr) :
    (intrusive_ptr.assign_copy w s d r).map State.objs
      = (acquire w s.objs pr).bind (fun m => release w m pd) ∧
    (intrusive_ptr.assign_ptr w s d p).map State.objs
      = (acquire w s.objs p).bind (fun m => release w m pd) ∧
    (intrusive_ptr.reset_ptr w s d p).map State.objs
      = (acquire w s.objs p).bind (fun m => release w m pd) ∧
    ∀ new : Ptr, (pd = Ptr.NULL ∨ new ≠ pd) →
      (acquire w s.objs new).bind (fun m => release w m pd)
        = (release w s.objs pd).bind (fun m => acquire w m new) := by
  have key : ∀ q : Ptr, Option.map State.objs
      ((acquire w s.objs q).bind fun m1 => (release w m1 pd).map fun m2 =>
        ({ objs := m2, handles := s.handles.set d (some q) ++ [none] } : State))
      = (acquire w s.objs q).bind (fun m => release w m pd) := by
    intro q
    cases acquire w s.objs q with
    | none => rfl
    | some m1 =>
      simp only [Option.some_bind, Option.map_map]
      cases release w m1 pd <;> rfl
  refine ⟨?_, ?_, ?_, ?_⟩
  · rw [intrusive_ptr.assign_copy_eq w s d r pd pr hd hr]; exact key pr
  · rw [intrusive_ptr.assign_ptr_eq w s d pd p hd]; exact key p
  · rw [intrusive_ptr.reset_ptr_eq w s d pd p hd]; exact key p
  · intro new hcond
    cases pd with
    | NULL =>
      simp only [release, Option.some_bind]
      cases acquire w s.objs new <;> rfl
    | addr a =>
      cases new with
      | NULL => simp only [acquire, release, Option.some_bind]; cases intrusive_ptr_release w s.objs a <;> rfl
      | addr b =>
        have hab : a ≠ b := by
          rcases hcond with h | h
          · cases h
          · exact fun e => h (by rw [e])
        exact add_ref_release_comm w s.objs hab

/-- C6 (amended), instance: assigning handle 0 into the sole owner 2 acquires
object 0 (counter 3) and then releases object 1 (deleted). -/
theorem assign_acquires_first_witness :
    intrusive_ptr.get shared 2 = some (Ptr.addr 1) ∧
    intrusive_ptr.get shared 0 = some (Ptr.addr 0) ∧
    (intrusive_ptr.assign_copy 32 shared 2 0).map State.objs
      = (acquire 32 shared.objs (Ptr.addr 0)).bind (fun m => release 32 m (Ptr.addr 1)) ∧
    (intrusive_ptr.assign_copy 32 shared 2 0).map State.objs
      = some [{ m_ref_counter := 3, alive := true }, { m_ref_counter := 0, alive := false }] :=
  ⟨by decide, by decide,
   (assign_acquires_first 32 shared 2 0 (Ptr.addr 1) (Ptr.addr 0) Ptr.NULL
      (by decide) (by decide)).1,
   by decide⟩

/-! ## C7, C8: move construction and move assignment -/

/-- Move construction from the same element type, from a live handle `r` (null
or bound): it succeeds; the new handle holds the pointer `r` held, `r` is null
afterwards, every other handle is as before and the heap is unchanged. -/
theorem ctor_move_post (s : State) (r : Nat) (p : Ptr)
    (hr : intrusive_ptr.get s r = some p) :
    ∃ s1, intrusive_ptr.ctor_move s r = some s1 ∧
      intrusive_ptr.get s1 s.handles.length = some p ∧
      intrusive_ptr.get s1 r = some Ptr.NULL ∧
      s1.objs = s.objs ∧
      s1.handles = s.handles.set r (some Ptr.NULL) ++ [some p] := by
  have hrl := intrusive_ptr.get_lt hr
  refine ⟨intrusive_ptr.set_m_ptr { objs := s.objs, handles := s.handles ++ [some p] } r
    Ptr.NULL, by simp only [intrusive_ptr.ctor_move, hr], ?_, ?_, rfl, ?_⟩
  · rw [intrusive_ptr.get_eq_some]
    simp only [intrusive_ptr.set_m_ptr]
    rw [List.getElem?_set_ne (Nat.ne_of_lt hrl), List.getElem?_concat_length]
  · rw [intrusive_ptr.get_eq_some]
    simp only [intrusive_ptr.set_m_ptr]
    rw [List.getElem?_set_self (by simp; omega)]
  · simp only [intrusive_ptr.set_m_ptr]
    rw [List.set_append_left _ _ hrl]

/-- C7 (as stated) fails for `H<U>` to `H<T>`: with element types `T = 0` (a base
class) and `U = 1` (a class derived from it), move-constructing an
`intrusive_ptr<T>` from the `intrusive_ptr<U>` handle 2 of `shared` is rejected
at compile time, so no destination handle exists; copy construction from the
same handle, whose converting constructor reads `rhs.get()`, is accepted and
shares the object. -/
theorem converting_move_ill_formed :
    intrusive_ptr.get shared 2 = some (Ptr.addr 1) ∧
    intrusive_ptr.ctor_move_converting 0 1 shared 2 = intrusive_ptr.Instantiated.ill_formed ∧
    intrusive_ptr.assign_move_converting 0 1 32 shared 3 2
      = intrusive_ptr.Instantiated.ill_formed ∧
    intrusive_ptr.ctor_copy_converting true 32 shared 2
      = intrusive_ptr.Instantiated.well_formed (some
          { objs := [{ m_ref_counter := 2, alive := true }, { m_ref_counter := 2, alive := true }],
            handles := [some (Ptr.addr 0), some (Ptr.addr 0), some (Ptr.addr 1), some Ptr.NULL,
                        some (Ptr.addr 1)] }) := by
  decide

/-- C7: move construction of an `intrusive_ptr<T>` from a live handle `r` (null
or bound) of type `intrusive_ptr<U>`.  From the same element type (`U = T`) the
constructor is well-formed and succeeds: the new handle holds the pointer `r`
held, `r` is null afterwards, every other handle is as before and the heap,
hence every counter, is unchanged.  From any other element type (`U ≠ T`) the
constructor is ill-formed, as is the move assignment built on it, whereas the
converting copy constructor is well-formed whenever `U*` converts to `T*`. -/
theorem move_construct (T U w : Nat) (s : State) (r : Nat) (p : Ptr)
    (hr : intrusive_ptr.get s r = some p) :
    (U = T →
      intrusive_ptr.ctor_move_converting T U s r
        = intrusive_ptr.Instantiated.well_formed (intrusive_ptr.ctor_move s r) ∧
      ∃ s1, intrusive_ptr.ctor_move s r = some s1 ∧
        intrusive_ptr.get s1 s.handles.length = some p ∧
        intrusive_ptr.get s1 r = some Ptr.NULL ∧
        s1.objs = s.objs ∧
        s1.handles = s.handles.set r (some Ptr.NULL) ++ [some p]) ∧
    (U ≠ T →
      intrusive_ptr.ctor_move_converting T U s r = intrusive_ptr.Instantiated.ill_formed ∧
      (∀ d, intrusive_ptr.assign_move_converting T U w s d r
        = intrusive_ptr.Instantiated.ill_formed) ∧
      intrusive_ptr.ctor_copy_converting true w s r
        = intrusive_ptr.Instantiated.well_formed (intrusive_ptr.ctor_copy w s r)) := by
  refine ⟨fun h => ⟨?_, ctor_move_post s r p hr⟩, fun h => ⟨?_, fun d => ?_, ?_⟩⟩
  · simp only [intrusive_ptr.ctor_move_converting, if_pos h]
  · simp only [intrusive_ptr.ctor_move_converting, if_neg h]
  · simp only [intrusive_ptr.assign_move_converting, intrusive_ptr.ctor_move_converting,
      if_neg h]
  · simp only [intrusive_ptr.ctor_copy_converting, if_true]

/-- C7, instance: moving out of the sole owner 2 of `shared` into a handle of the
same element type gives the new handle 4 its pointer, leaves handle 2 null and
the heap as it was; into a handle of another element type it is ill-formed. -/
theorem move_construct_witness :
    intrusive_ptr.get shared 2 = some (Ptr.addr 1) ∧
    (∃ s1, intrusive_ptr.ctor_move shared 2 = some s1 ∧
      intrusive_ptr.get s1 4 = some (Ptr.addr 1) ∧
      intrusive_ptr.get s1 2 = some Ptr.NULL ∧
      s1.objs = shared.objs ∧
      s1.handles = shared.handles.set 2 (some Ptr.NULL) ++ [some (Ptr.addr 1)]) ∧
    intrusive_ptr.ctor_move_converting 0 1 shared 2 = intrusive_ptr.Instantiated.ill_formed :=
  ⟨by decide,
   ((move_construct 0 0 32 shared 2 (Ptr.addr 1) (by decide)).1 rfl).2,
   ((move_construct 0 1 32 shared 2 (Ptr.addr 1) (by decide)).2 (by decide)).1⟩

/-- C8 (as stated) fails: move-assigning a bound handle to itself leaves it
bound (the moved-from handle is not null), and move-assigning between two
distinct handles on the same object lowers the counter of the moved pointee
from 2 to 1. -/
theorem move_assign_exceptions :
    intrusive_ptr.assign_move 32 soleOwner 0 0
      = some { objs := [{ m_ref_counter := 1, alive := true }],
               handles := [some (Ptr.addr 0), none] } ∧
    intrusive_ptr.get shared 0 = some (Ptr.addr 0) ∧
    intrusive_ptr.get shared 1 = some (Ptr.addr 0) ∧
    shared.objs[0]? = some { m_ref_counter := 2, alive := true } ∧
    intrusive_ptr.assign_move 32 shared 0 1
      = some { objs := [{ m_ref_counter := 1, alive := true },
                        { m_ref_counter := 1, alive := true }],
               handles := [some (Ptr.addr 0), some Ptr.NULL, some (Ptr.addr 1),
                           some Ptr.NULL, none] } := by
  decide

/-- C8 (amended): move assignment `d = std::move(s)` between live handles, the
old pointee of `d` (if non-null) being live.  In all cases `d` ends up holding
the pointer `s` held.  If `d` and `s` are distinct handles, `s` is null
afterwards and the heap is that of releasing the old pointee of `d` exactly
once: every other object is untouched, so the moved pointee keeps its counter
unless it is that old pointee itself.  If `d` and `s` are the same handle, the
handle keeps its pointer and the heap is unchanged. -/
theorem assign_move_post (w : Nat) (s : State) (d r : Nat) (pd pr : Ptr)
    (hd : intrusive_ptr.get s d = some pd) (hr : intrusive_ptr.get s r = some pr)
    (hold : ∀ a, pd = Ptr.addr a → ∃ o, s.objs[a]? = some o ∧ o.alive = true) :
    ∃ s1, intrusive_ptr.assign_move w s d r = some s1 ∧
      intrusive_ptr.get s1 d = some pr ∧
      (d ≠ r → intrusive_ptr.get s1 r = some Ptr.NULL ∧
        release w s.objs pd = some s1.objs ∧
        ∀ b, pd ≠ Ptr.addr b → s1.objs[b]? = s.objs[b]?) ∧
      (d = r → s1.objs = s.objs) := by
  have hdl := intrusive_ptr.get_lt hd
  have hrl := intrusive_ptr.get_lt hr
  have hgd : ∀ m : Heap, intrusive_ptr.get
      (State.mk m ((s.handles.set r (some Ptr.NULL)).set d (some pr) ++ [none])) d
        = some pr := by
    intro m
    rw [intrusive_ptr.get_eq_some]
    simp only
    rw [List.getElem?_append_left (by simpa using hdl), List.getElem?_set_self (by simpa using hdl)]
  rw [intrusive_ptr.assign_move_eq w s d r pd pr hd hr]
  by_cases hdr : d = r
  · simp only [hdr, if_true, release, Option.map_some']
    subst hdr
    exact ⟨_, rfl, hgd _, fun h => absurd rfl h, fun _ => rfl⟩
  · rw [if_neg hdr]
    have hdef : ∃ m, release w s.objs pd = some m := by
      cases pd with
      | NULL => exact ⟨_, rfl⟩
      | addr a =>
        obtain ⟨o, ho, hal⟩ := hold a rfl
        exact ⟨_, release_of_alive ho hal⟩
    obtain ⟨m, hm⟩ := hdef
    rw [hm, Option.map_some']
    refine ⟨_, rfl, hgd _, fun _ => ⟨?_, rfl, fun b hb => release_frame hm b hb⟩,
      fun h => absurd h hdr⟩
    rw [intrusive_ptr.get_eq_some]
    simp only
    rw [List.getElem?_append_left (by simpa using hrl), List.getElem?_set_ne hdr,
      List.getElem?_set_self hrl]

/-- C8 (amended), instance: move-assigning handle 0 into the sole owner 2
releases object 1 once, leaves handle 0 null and object 0 untouched. -/
theorem assign_move_post_witness :
    intrusive_ptr.get shared 2 = some (Ptr.addr 1) ∧
    intrusive_ptr.get shared 0 = some (Ptr.addr 0) ∧
    ∃ s1, intrusive_ptr.assign_move 32 shared 2 0 = some s1 ∧
      intrusive_ptr.get s1 2 = some (Ptr.addr 0) ∧
      intrusive_ptr.get s1 0 = some Ptr.NULL ∧
      release 32 shared.objs (Ptr.addr 1) = some s1.objs ∧
      s1.objs[0]? = shared.objs[0]? := by
  obtain ⟨s1, h1, h2, h3, _⟩ :=
    assign_move_post 32 shared 2 0 (Ptr.addr 1) (Ptr.addr 0) (by decide) (by decide)
      (fun a h => by cases h; exact ⟨_, rfl, rfl⟩)
  obtain ⟨h4, h5, h6⟩ := h3 (by decide)
  exact ⟨by decide, by decide, s1, h1, h2, h4, h5, h6 0 (by decide)⟩

/-! ## C9, C10: construction from a raw pointer and copy construction -/

/-- C9 (as stated) fails: with `2 ^ 32 - 1` handles on one object its 32-bit
counter is `2 ^ 32 - 1`; constructing one more handle from the raw pointer
leaves the counter at 0, not one more than before. -/
theorem ctor_ptr_wraps :
    run 32 (init 1) (crowdOps (2 ^ 32 - 1)) = some (crowd 32 (2 ^ 32 - 1)) ∧
    (crowd 32 (2 ^ 32 - 1)).objs = [{ m_ref_counter := 2 ^ 32 - 1, alive := true }] ∧
    intrusive_ptr.ctor_ptr 32 (crowd 32 (2 ^ 32 - 1)) (Ptr.addr 0)
      = some (crowd 32 (2 ^ 32 - 1 + 1)) ∧
    (crowd 32 (2 ^ 32 - 1 + 1)).objs = [{ m_ref_counter := 0, alive := true }] :=
  ⟨crowd_run _ _, rfl, crowd_step _ _, rfl⟩

/-- C9 (amended): in every state, constructing a handle from a null raw pointer
yields a null handle and leaves the heap unchanged; constructing it from the
address of a live object whose counter is below `2 ^ w - 1` yields a handle
whose `get()` is that address and raises the counter of that object by exactly
one, so a fresh object (counter 0) has counter 1 after its first binding. -/
theorem ctor_ptr_post (w : Nat) (s : State) :
    intrusive_ptr.ctor_ptr w s Ptr.NULL
      = some { objs := s.objs, handles := s.handles ++ [some Ptr.NULL] } ∧
    intrusive_ptr.get { objs := s.objs, handles := s.handles ++ [some Ptr.NULL] }
      s.handles.length = some Ptr.NULL ∧
    ∀ (a : Nat) (o : Obj), s.objs[a]? = some o → o.alive = true →
      o.m_ref_counter + 1 < 2 ^ w →
      ∃ s1, intrusive_ptr.ctor_ptr w s (Ptr.addr a) = some s1 ∧
        intrusive_ptr.get s1 s.handles.length = some (Ptr.addr a) ∧
        s1.objs = s.objs.set a { m_ref_counter := o.m_ref_counter + 1, alive := true } ∧
        s1.objs[a]? = some { m_ref_counter := o.m_ref_counter + 1, alive := true } ∧
        s1.handles = s.handles ++ [some (Ptr.addr a)] := by
  refine ⟨rfl, ?_, fun a o ho hal hlt => ?_⟩
  · rw [intrusive_ptr.get_eq_some]
    exact List.getElem?_concat_length _ _
  · have ha : a < s.objs.length := (List.getElem?_eq_some_iff.mp ho).1
    refine ⟨State.mk
      (s.objs.set a { m_ref_counter := o.m_ref_counter + 1, alive := true })
      (s.handles ++ [some (Ptr.addr a)]), ?_, ?_, rfl, List.getElem?_set_self ha, rfl⟩
    · simp only [intrusive_ptr.ctor_ptr]
      rw [add_ref_of_alive ho hal, Nat.mod_eq_of_lt hlt]
      rfl
    · rw [intrusive_ptr.get_eq_some]
      exact List.getElem?_concat_length _ _

/-- C9 (amended), instance: the first binding of a fresh object gives it
counter 1, and a handle constructed from a null pointer is null. -/
theorem ctor_ptr_post_witness :
    (init 1).objs[0]? = some Obj.fresh ∧ Obj.fresh.m_ref_counter + 1 < 2 ^ 32 ∧
    (∃ s1, intrusive_ptr.ctor_ptr 32 (init 1) (Ptr.addr 0) = some s1 ∧
      intrusive_ptr.get s1 0 = some (Ptr.addr 0) ∧
      s1.objs[0]? = some { m_ref_counter := 1, alive := true }) ∧
    intrusive_ptr.ctor_ptr 32 (init 1) Ptr.NULL
      = some { objs := (init 1).objs, handles := (init 1).handles ++ [some Ptr.NULL] } := by
  obtain ⟨h0, _, h⟩ := ctor_ptr_post 32 (init 1)
  obtain ⟨s1, h1, h2, _, h4, _⟩ := h 0 Obj.fresh (by decide) (by decide) (by decide)
  exact ⟨by decide, by decide, ⟨s1, h1, h2, h4⟩, h0⟩

/-- C10 (as stated) fails: with `2 ^ 32 - 1` handles on one object its 32-bit
counter is `2 ^ 32 - 1`; copy-constructing one more handle from handle 1 leaves
the counter at 0, not one more than before. -/
theorem ctor_copy_wraps :
    run 32 (init 1) (crowdOps (2 ^ 32 - 1)) = some (crowd 32 (2 ^ 32 - 1)) ∧
    intrusive_ptr.get (crowd 32 (2 ^ 32 - 1)) 1 = some (Ptr.addr 0) ∧
    (crowd 32 (2 ^ 32 - 1)).objs = [{ m_ref_counter := 2 ^ 32 - 1, alive := true }] ∧
    intrusive_ptr.ctor_copy 32 (crowd 32 (2 ^ 32 - 1)) 1
      = some (crowd 32 (2 ^ 32 - 1 + 1)) ∧
    (crowd 32 (2 ^ 32 - 1 + 1)).objs = [{ m_ref_counter := 0, alive := true }] := by
  refine ⟨crowd_run _ _, crowd_get_succ _ _ 0 (by decide), rfl, ?_, rfl⟩
  rw [intrusive_ptr.ctor_copy_eq, crowd_get_succ _ _ 0 (by decide), Option.some_bind]
  exact crowd_step _ _

/-- C10 (amended): copy construction from a live handle `r` that is null or
points to a live object, whatever its counter.  The copy holds the pointer `r`
holds, `r` and every other handle are unchanged and no object is created.  If
`r` is null the heap is unchanged; if the counter of the pointee is below
`2 ^ w - 1`, the counter of that object is raised by exactly one and no other
object changes. -/
theorem ctor_copy_post (w : Nat) (s : State) (r : Nat) (p : Ptr)
    (hr : intrusive_ptr.get s r = some p)
    (hlive : ∀ a, p = Ptr.addr a → ∃ o, s.objs[a]? = some o ∧ o.alive = true) :
    ∃ s1, intrusive_ptr.ctor_copy w s r = some s1 ∧
      intrusive_ptr.get s1 s.handles.length = some p ∧
      intrusive_ptr.get s1 r = some p ∧
      s1.handles = s.handles ++ [some p] ∧
      s1.objs.length = s.objs.length ∧
      (p = Ptr.NULL → s1.objs = s.objs) ∧
      (∀ (a : Nat) (o : Obj), p = Ptr.addr a → s.objs[a]? = some o →
        o.m_ref_counter + 1 < 2 ^ w →
        s1.objs = s.objs.set a { m_ref_counter := o.m_ref_counter + 1, alive := true } ∧
        s1.objs[a]? = some { m_ref_counter := o.m_ref_counter + 1, alive := true }) := by
  have hrl := intrusive_ptr.get_lt hr
  have hry := intrusive_ptr.get_eq_some.mp hr
  have hnew : ∀ m : Heap, intrusive_ptr.get
      { objs := m, handles := s.handles ++ [some p] } s.handles.length = some p := by
    intro m
    rw [intrusive_ptr.get_eq_some]
    exact List.getElem?_concat_length _ _
  have hsrc : ∀ m : Heap, intrusive_ptr.get
      { objs := m, handles := s.handles ++ [some p] } r = some p := by
    intro m
    rw [intrusive_ptr.get_eq_some]
    simp only
    rw [List.getElem?_append_left hrl]
    exact hry
  rw [intrusive_ptr.ctor_copy_eq, hr, Option.some_bind]
  cases p with
  | NULL =>
    exact ⟨_, rfl, hnew _, hsrc _, rfl, rfl, fun _ => rfl, fun a o h => by cases h⟩
  | addr a =>
    obtain ⟨o, ho, hal⟩ := hlive a rfl
    have ha : a < s.objs.length := (List.getElem?_eq_some_iff.mp ho).1
    simp only [intrusive_ptr.ctor_ptr]
    rw [add_ref_of_alive ho hal, Option.map_some']
    refine ⟨_, rfl, hnew _, hsrc _, rfl, (by simp), fun h => (by cases h), ?_⟩
    intro a1 o1 ha1 ho1 hlt
    cases ha1
    rw [ho] at ho1
    cases ho1
    simp only
    rw [Nat.mod_eq_of_lt hlt]
    exact ⟨rfl, List.getElem?_set_self ha⟩

/-- C10 (amended), instance: copying a sole owner raises the counter from 1 to 2
and creates no object. -/
theorem ctor_copy_post_witness :
    intrusive_ptr.get soleOwner 0 = some (Ptr.addr 0) ∧
    soleOwner.objs[0]? = some { m_ref_counter := 1, alive := true } ∧
    ∃ s1, intrusive_ptr.ctor_copy 32 soleOwner 0 = some s1 ∧
      intrusive_ptr.get s1 1 = some (Ptr.addr 0) ∧
      intrusive_ptr.get s1 0 = some (Ptr.addr 0) ∧
      s1.objs.length = 1 ∧
      s1.objs[0]? = some { m_ref_counter := 2, alive := true } := by
  obtain ⟨s1, h1, h2, h3, _, h5, _, h7⟩ :=
    ctor_copy_post 32 soleOwner 0 (Ptr.addr 0) (by decide)
      (fun a h => by cases h; exact ⟨_, rfl, rfl⟩)
  exact ⟨by decide, by decide, s1, h1, h2, h3, h5,
    (h7 0 { m_ref_counter := 1, alive := true } rfl rfl (by decide)).2⟩

/-! ## Auxiliary facts: the guarded acquire and release -/

/-- An acquire touches no object other than the one acquired. -/
theorem acquire_frame {w : Nat} {m m1 : Heap} {p : Ptr} (h : acquire w m p = some m1)
    (b : Nat) (hb : p ≠ Ptr.addr b) : m1[b]? = m[b]? := by
  cases p with
  | NULL =>
    simp only [acquire, Option.some.injEq] at h
    rw [h]
  | addr a =>
    obtain ⟨o, _, _, rfl⟩ := add_ref_inv h
    have hab : a ≠ b := fun e => hb (by rw [e])
    rw [List.getElem?_set_ne hab]

/-- An acquire keeps the number of objects. -/
theorem acquire_length {w : Nat} {m m1 : Heap} {p : Ptr} (h : acquire w m p = some m1) :
    m1.length = m.length := by
  cases p with
  | NULL =>
    simp only [acquire, Option.some.injEq] at h
    rw [h]
  | addr a =>
    obtain ⟨o, _, _, rfl⟩ := add_ref_inv h
    simp

/-- A release keeps the number of objects. -/
theorem release_length {w : Nat} {m m1 : Heap} {p : Ptr} (h : release w m p = some m1) :
    m1.length = m.length := by
  cases p with
  | NULL =>
    simp only [release, Option.some.injEq] at h
    rw [h]
  | addr a =>
    obtain ⟨o, _, _, rfl⟩ := release_inv h
    simp

/-- An acquire keeps every live object live. -/
theorem acquire_alive {w : Nat} {m m1 : Heap} {p : Ptr} (h : acquire w m p = some m1)
    {b : Nat} {o : Obj} (ho : m[b]? = some o) (hal : o.alive = true) :
    ∃ o1, m1[b]? = some o1 ∧ o1.alive = true := by
  cases p with
  | NULL =>
    simp only [acquire, Option.some.injEq] at h
    subst h
    exact ⟨o, ho, hal⟩
  | addr a =>
    obtain ⟨oa, hoa, _, rfl⟩ := add_ref_inv h
    have ha : a < m.length := (List.getElem?_eq_some_iff.mp hoa).1
    by_cases hab : a = b
    · subst hab
      exact ⟨_, List.getElem?_set_self ha, rfl⟩
    · rw [List.getElem?_set_ne hab]
      exact ⟨o, ho, hal⟩

/-- Acquiring a pointer that is null or the address of a live object is defined. -/
theorem acquire_defined (w : Nat) (m : Heap) (p : Ptr)
    (hlive : ∀ a, p = Ptr.addr a → ∃ o, m[a]? = some o ∧ o.alive = true) :
    ∃ m1, acquire w m p = some m1 := by
  cases p with
  | NULL => exact ⟨m, rfl⟩
  | addr a =>
    obtain ⟨o, ho, hal⟩ := hlive a rfl
    exact ⟨_, add_ref_of_alive ho hal⟩

/-- Releasing a pointer that is null or the address of a live object is defined. -/
theorem release_defined (w : Nat) (m : Heap) (p : Ptr)
    (hlive : ∀ a, p = Ptr.addr a → ∃ o, m[a]? = some o ∧ o.alive = true) :
    ∃ m1, release w m p = some m1 := by
  cases p with
  | NULL => exact ⟨m, rfl⟩
  | addr a =>
    obtain ⟨o, ho, hal⟩ := hlive a rfl
    exact ⟨_, release_of_alive ho hal⟩

theorem operator_eq_of_get {s : State} {x y : Nat} {p q : Ptr}
    (hx : intrusive_ptr.get s x = some p) (hy : intrusive_ptr.get s y = some q) :
    operator_eq s x y = some (decide (p = q)) := by
  simp only [operator_eq, hx, hy]

/-! ## C11: destroying a copy undoes the copy -/

/-- C11: in every state, copy-constructing a handle from a non-null handle `h`
whose pointee is live with counter `c ≥ 1`, and then destroying that copy,
succeeds and leaves the heap as it was (pointee alive, counter `c`) and `h`
pointing to it; the destructor of any handle on that object stores `c - 1` and
deletes the object exactly when `c = 1`; and destroying a null handle leaves the
heap unchanged. -/
theorem copy_then_destroy (w : Nat) (s : State) :
    (∀ (h a : Nat) (o : Obj), intrusive_ptr.get s h = some (Ptr.addr a) →
      s.objs[a]? = some o → o.alive = true → 1 ≤ o.m_ref_counter →
      o.m_ref_counter < 2 ^ w →
      (∃ s1 s2, intrusive_ptr.ctor_copy w s h = some s1 ∧
        intrusive_ptr.dtor w s1 s.handles.length = some s2 ∧
        s2 = { objs := s.objs, handles := s.handles ++ [none] } ∧
        intrusive_ptr.get s2 h = some (Ptr.addr a) ∧ s2.objs[a]? = some o) ∧
      intrusive_ptr.dtor w s h
        = some { objs := s.objs.set a { m_ref_counter := o.m_ref_counter - 1,
                                        alive := decide (o.m_ref_counter ≠ 1) },
                 handles := s.handles.set h none }) ∧
    ∀ x, intrusive_ptr.get s x = some Ptr.NULL →
      intrusive_ptr.dtor w s x = some { objs := s.objs, handles := s.handles.set x none } := by
  refine ⟨fun h a o hg ho hal h1 h2 => ⟨?_, ?_⟩, ?_⟩
  · have hlt := intrusive_ptr.get_lt hg
    have hy := intrusive_ptr.get_eq_some.mp hg
    have ha : a < s.objs.length := (List.getElem?_eq_some_iff.mp ho).1
    have hcopy : intrusive_ptr.ctor_copy w s h
        = some { objs := s.objs.set a { m_ref_counter := (o.m_ref_counter + 1) % 2 ^ w,
                                        alive := true },
                 handles := s.handles ++ [some (Ptr.addr a)] } := by
      rw [intrusive_ptr.ctor_copy_eq, hg, Option.some_bind, intrusive_ptr.ctor_ptr_eq]
      simp only [acquire]
      rw [add_ref_of_alive ho hal, Option.map_some']
    have hnew : intrusive_ptr.get
        { objs := s.objs.set a { m_ref_counter := (o.m_ref_counter + 1) % 2 ^ w,
                                 alive := true },
          handles := s.handles ++ [some (Ptr.addr a)] } s.handles.length
          = some (Ptr.addr a) := by
      rw [intrusive_ptr.get_eq_some]
      exact List.getElem?_concat_length _ _
    have e : decide (o.m_ref_counter ≠ 0) = true := by simp; omega
    have eo : ({ m_ref_counter := o.m_ref_counter, alive := true } : Obj) = o := by
      cases o; simp_all
    refine ⟨_, _, hcopy, ?_, rfl, ?_, ho⟩
    · rw [intrusive_ptr.dtor_eq, hnew, Option.some_bind]
      simp only [release]
      rw [release_of_alive (List.getElem?_set_self ha) rfl]
      simp only [Option.map_some', inc_dec_mod h2, List.set_set]
      rw [e, eo, set_of_getElem? ho]
      simp
    · rw [intrusive_ptr.get_eq_some, List.getElem?_append_left hlt]
      exact hy
  · rw [intrusive_ptr.dtor_eq, hg, Option.some_bind]
    simp only [release]
    rw [release_of_alive ho hal, dec_mod h1 h2, Option.map_some']
    have e : decide ((o.m_ref_counter - 1) ≠ 0) = decide (o.m_ref_counter ≠ 1) :=
      decide_eq_decide.mpr (by omega)
    rw [e]
  · intro x hx
    rw [intrusive_ptr.dtor_eq, hx, Option.some_bind]
    rfl

/-- C11, instance: copying the sole owner of object 1 and destroying the copy
restores counter 1; destroying the sole owner itself deletes the object;
destroying the null handle 3 changes no object. -/
theorem copy_then_destroy_witness :
    intrusive_ptr.get shared 2 = some (Ptr.addr 1) ∧
    shared.objs[1]? = some { m_ref_counter := 1, alive := true } ∧
    (∃ s1 s2, intrusive_ptr.ctor_copy 32 shared 2 = some s1 ∧
      intrusive_ptr.dtor 32 s1 4 = some s2 ∧ s2.objs = shared.objs ∧
      intrusive_ptr.get s2 2 = some (Ptr.addr 1)) ∧
    (intrusive_ptr.dtor 32 shared 2).map State.objs
      = some [{ m_ref_counter := 2, alive := true }, { m_ref_counter := 0, alive := false }] ∧
    (intrusive_ptr.dtor 32 shared 3).map State.objs = some shared.objs := by
  obtain ⟨hbound, h6⟩ := copy_then_destroy 32 shared
  obtain ⟨⟨s1, s2, h1, h2, h3, h4, _⟩, h5⟩ :=
    hbound 2 1 { m_ref_counter := 1, alive := true }
      (by decide) (by decide) rfl (by decide) (by decide)
  refine ⟨by decide, by decide, ⟨s1, s2, h1, h2, by rw [h3], h4⟩, ?_, ?_⟩
  · rw [h5]; rfl
  · rw [h6 3 (by decide)]; rfl

/-! ## C12: upcast -/

/-- C12: converting copy construction and converting copy assignment run the
statements of their same-type twins on the same address.  For every live source
handle `c` (null, or bound to a live object) the handle `b` constructed from it,
or an existing handle `b` assigned from it, holds the pointer `c` holds and
compares equal to `c`; the heap keeps its size, so no object or counter is
created; and when `c` is the sole owner of its pointee (counter 1, `b` did not
hold it) the one counter of that object is 2 afterwards. -/
theorem upcast_shares (w : Nat) (s : State) (c : Nat) (pc : Ptr)
    (hc : intrusive_ptr.get s c = some pc)
    (hlive : ∀ a, pc = Ptr.addr a → ∃ o, s.objs[a]? = some o ∧ o.alive = true) :
    (∃ s1, intrusive_ptr.ctor_copy w s c = some s1 ∧
      intrusive_ptr.get s1 s.handles.length = some pc ∧
      intrusive_ptr.get s1 c = some pc ∧
      operator_eq s1 s.handles.length c = some true ∧
      s1.objs.length = s.objs.length ∧
      ∀ a, pc = Ptr.addr a → s.objs[a]? = some { m_ref_counter := 1, alive := true } →
        2 < 2 ^ w → s1.objs[a]? = some { m_ref_counter := 2, alive := true }) ∧
    ∀ (b : Nat) (pb : Ptr), b ≠ c → intrusive_ptr.get s b = some pb →
      (∀ a, pb = Ptr.addr a → ∃ o, s.objs[a]? = some o ∧ o.alive = true) →
      ∃ s1, intrusive_ptr.assign_copy w s b c = some s1 ∧
        intrusive_ptr.get s1 b = some pc ∧
        intrusive_ptr.get s1 c = some pc ∧
        operator_eq s1 b c = some true ∧
        s1.objs.length = s.objs.length ∧
        ∀ a, pc = Ptr.addr a → pb ≠ Ptr.addr a →
          s.objs[a]? = some { m_ref_counter := 1, alive := true } →
          2 < 2 ^ w → s1.objs[a]? = some { m_ref_counter := 2, alive := true } := by
  have hcl := intrusive_ptr.get_lt hc
  have hcy := intrusive_ptr.get_eq_some.mp hc
  refine ⟨?_, ?_⟩
  · obtain ⟨m1, hm1⟩ := acquire_defined w s.objs pc hlive
    have hnew : intrusive_ptr.get { objs := m1, handles := s.handles ++ [some pc] }
        s.handles.length = some pc := by
      rw [intrusive_ptr.get_eq_some]
      exact List.getElem?_concat_length _ _
    have hsrc : intrusive_ptr.get { objs := m1, handles := s.handles ++ [some pc] } c
        = some pc := by
      rw [intrusive_ptr.get_eq_some]
      simp only
      rw [List.getElem?_append_left hcl]
      exact hcy
    refine ⟨{ objs := m1, handles := s.handles ++ [some pc] }, ?_, hnew, hsrc, ?_,
      acquire_length hm1, ?_⟩
    · rw [intrusive_ptr.ctor_copy_eq, hc, Option.some_bind, intrusive_ptr.ctor_ptr_eq, hm1,
        Option.map_some']
    · rw [operator_eq_of_get hnew hsrc]
      simp
    · intro a hpa hoa hw
      subst hpa
      simp only [acquire] at hm1
      rw [add_ref_of_alive hoa rfl, Nat.mod_eq_of_lt (by simpa using hw)] at hm1
      have := Option.some.inj hm1
      subst this
      exact List.getElem?_set_self (List.getElem?_eq_some_iff.mp hoa).1
  · intro b pb hbc hb hblive
    have hbl := intrusive_ptr.get_lt hb
    obtain ⟨m1, hm1⟩ := acquire_defined w s.objs pc hlive
    have hblive1 : ∀ a, pb = Ptr.addr a → ∃ o, m1[a]? = some o ∧ o.alive = true := by
      intro a ha
      obtain ⟨o, ho, hal⟩ := hblive a ha
      exact acquire_alive hm1 ho hal
    obtain ⟨m2, hm2⟩ := release_defined w m1 pb hblive1
    have hgb : intrusive_ptr.get
        { objs := m2, handles := s.handles.set b (some pc) ++ [none] } b = some pc := by
      rw [intrusive_ptr.get_eq_some]
      simp only
      rw [List.getElem?_append_left (by simpa using hbl), List.getElem?_set_self hbl]
    have hgc : intrusive_ptr.get
        { objs := m2, handles := s.handles.set b (some pc) ++ [none] } c = some pc := by
      rw [intrusive_ptr.get_eq_some]
      simp only
      rw [List.getElem?_append_left (by simpa using hcl), List.getElem?_set_ne hbc]
      exact hcy
    refine ⟨{ objs := m2, handles := s.handles.set b (some pc) ++ [none] }, ?_, hgb, hgc, ?_,
      ?_, ?_⟩
    · rw [intrusive_ptr.assign_copy_eq w s b c pb pc hb hc, hm1, Option.some_bind, hm2,
        Option.map_some']
    · rw [operator_eq_of_get hgb hgc]
      simp
    · rw [release_length hm2, acquire_length hm1]
    · intro a hpa hpb hoa hw
      subst hpa
      show m2[a]? = _
      rw [release_frame hm2 a hpb]
      simp only [acquire] at hm1
      rw [add_ref_of_alive hoa rfl, Nat.mod_eq_of_lt (by simpa using hw)] at hm1
      have := Option.some.inj hm1
      subst this
      exact List.getElem?_set_self (List.getElem?_eq_some_iff.mp hoa).1

/-- C12, instance: a handle built from the sole owner of object 1, and the null
handle 3 assigned from it, both compare equal to it and see counter 2. -/
theorem upcast_shares_witness :
    intrusive_ptr.get shared 2 = some (Ptr.addr 1) ∧
    (∃ s1, intrusive_ptr.ctor_copy 32 shared 2 = some s1 ∧
      intrusive_ptr.get s1 4 = some (Ptr.addr 1) ∧
      operator_eq s1 4 2 = some true ∧ s1.objs.length = 2 ∧
      s1.objs[1]? = some { m_ref_counter := 2, alive := true }) ∧
    (∃ s1, intrusive_ptr.assign_copy 32 shared 3 2 = some s1 ∧
      intrusive_ptr.get s1 3 = some (Ptr.addr 1) ∧
      operator_eq s1 3 2 = some true ∧ s1.objs.length = 2 ∧
      s1.objs[1]? = some { m_ref_counter := 2, alive := true }) := by
  obtain ⟨⟨s1, h1, h2, _, h4, h5, h6⟩, hassign⟩ :=
    upcast_shares 32 shared 2 (Ptr.addr 1) (by decide)
      (fun a h => by cases h; exact ⟨_, rfl, rfl⟩)
  obtain ⟨s2, k1, k2, _, k4, k5, k6⟩ :=
    hassign 3 Ptr.NULL (by decide) (by decide) (fun a h => by cases h)
  exact ⟨by decide, ⟨s1, h1, h2, h4, h5, h6 1 rfl rfl (by decide)⟩,
    ⟨s2, k1, k2, k4, k5, k6 1 rfl (by decide) rfl (by decide)⟩⟩

/-! ## C13: reset -/

/-- C13: in every state, `reset()` on a handle bound to a live object with
counter `c ≥ 1` leaves the handle null, stores `c - 1` in the object and deletes
it exactly when `c = 1`, touching nothing else; on a null handle it leaves the
heap and the handle as they were; and on every handle its result is that of
assigning a null raw pointer or a null handle. -/
theorem reset_post (w : Nat) (s : State) :
    (∀ (d a : Nat) (o : Obj), intrusive_ptr.get s d = some (Ptr.addr a) →
      s.objs[a]? = some o → o.alive = true → 1 ≤ o.m_ref_counter →
      o.m_ref_counter < 2 ^ w →
      ∃ s1, intrusive_ptr.reset w s d = some s1 ∧
        intrusive_ptr.get s1 d = some Ptr.NULL ∧
        s1.objs = s.objs.set a { m_ref_counter := o.m_ref_counter - 1,
                                 alive := decide (o.m_ref_counter ≠ 1) } ∧
        s1.objs[a]? = some { m_ref_counter := o.m_ref_counter - 1,
                             alive := decide (o.m_ref_counter ≠ 1) }) ∧
    (∀ x, intrusive_ptr.get s x = some Ptr.NULL →
      ∃ s1, intrusive_ptr.reset w s x = some s1 ∧ s1.objs = s.objs ∧
        intrusive_ptr.get s1 x = some Ptr.NULL ∧
        s1.handles = s.handles ++ [none]) ∧
    (∀ x, intrusive_ptr.assign_ptr w s x Ptr.NULL = intrusive_ptr.reset w s x) ∧
    (∀ x r px, intrusive_ptr.get s x = some px → intrusive_ptr.get s r = some Ptr.NULL →
      intrusive_ptr.assign_copy w s x r = intrusive_ptr.reset w s x) := by
  have hnull : ∀ (m : Heap) (x : Nat), x < s.handles.length → intrusive_ptr.get
      { objs := m, handles := s.handles.set x (some Ptr.NULL) ++ [none] } x
        = some Ptr.NULL := by
    intro m x hx
    rw [intrusive_ptr.get_eq_some]
    simp only
    rw [List.getElem?_append_left (by simpa using hx), List.getElem?_set_self hx]
  refine ⟨fun d a o hd ho hal h1 h2 => ?_, ?_, fun x => rfl, ?_⟩
  · have hdl := intrusive_ptr.get_lt hd
    have ha : a < s.objs.length := (List.getElem?_eq_some_iff.mp ho).1
    rw [intrusive_ptr.reset_eq w s d _ hd]
    simp only [release]
    rw [release_of_alive ho hal, dec_mod h1 h2, Option.map_some']
    have e : decide ((o.m_ref_counter - 1) ≠ 0) = decide (o.m_ref_counter ≠ 1) :=
      decide_eq_decide.mpr (by omega)
    rw [e]
    exact ⟨_, rfl, hnull _ d hdl, rfl, List.getElem?_set_self ha⟩
  · intro x hx
    rw [intrusive_ptr.reset_eq w s x _ hx]
    simp only [release, Option.map_some']
    refine ⟨_, rfl, rfl, hnull _ x (intrusive_ptr.get_lt hx), ?_⟩
    simp only
    rw [set_of_getElem? (intrusive_ptr.get_eq_some.mp hx)]
  · intro x r px hx hr
    rw [intrusive_ptr.assign_copy_eq w s x r px Ptr.NULL hx hr,
      intrusive_ptr.reset_eq w s x px hx]
    simp only [acquire, Option.some_bind]

/-- C13, instance: resetting the sole owner of object 1 deletes it and leaves
the handle null; resetting the null handle 3 changes no object. -/
theorem reset_post_witness :
    intrusive_ptr.get shared 2 = some (Ptr.addr 1) ∧
    shared.objs[1]? = some { m_ref_counter := 1, alive := true } ∧
    (∃ s1, intrusive_ptr.reset 32 shared 2 = some s1 ∧
      intrusive_ptr.get s1 2 = some Ptr.NULL ∧
      s1.objs[1]? = some { m_ref_counter := 0, alive := false }) ∧
    (∃ s1, intrusive_ptr.reset 32 shared 3 = some s1 ∧ s1.objs = shared.objs ∧
      intrusive_ptr.get s1 3 = some Ptr.NULL) ∧
    intrusive_ptr.assign_copy 32 shared 2 3 = intrusive_ptr.reset 32 shared 2 := by
  obtain ⟨hbound, hnull, _, hsame⟩ := reset_post 32 shared
  obtain ⟨s1, h1, h2, _, h4⟩ :=
    hbound 2 1 { m_ref_counter := 1, alive := true }
      (by decide) (by decide) rfl (by decide) (by decide)
  obtain ⟨s2, k1, k2, k3, _⟩ := hnull 3 (by decide)
  exact ⟨by decide, by decide, ⟨s1, h1, h2, h4⟩, ⟨s2, k1, k2, k3⟩,
    hsame 2 3 (Ptr.addr 1) (by decide) (by decide)⟩

/-! ## The tracking invariant: counters modulo the width, with no bound on handles -/

theorem Tracked.widen {w : Nat} {m : Heap} {f : Nat → Nat} {B : Nat → Prop}
    (h : Tracked w m f B) : Tracked w m f (fun a => B a ∨ 0 < f a) := by
  intro a o ho hal
  obtain ⟨h1, h2⟩ := h a o ho hal
  exact ⟨h1, fun hb => hb.elim h2 id⟩

theorem Tracked.after_add_ref {w : Nat} {m m1 : Heap} {f g : Nat → Nat} {B : Nat → Prop} {b : Nat}
    (hc : Tracked w m f B) (hm : intrusive_ptr_add_ref w m b = some m1)
    (hg : ∀ a, g a = f a + (if a = b then 1 else 0)) : Tracked w m1 g B := by
  obtain ⟨o, ho, hal, rfl⟩ := add_ref_inv hm
  have hb : b < m.length := (List.getElem?_eq_some_iff.mp ho).1
  intro a o1 ho1 hal1
  rw [hg a]
  by_cases hab : a = b
  · subst hab
    rw [List.getElem?_set_self hb] at ho1
    cases ho1
    simp only [if_true]
    refine ⟨?_, fun _ => Nat.succ_pos _⟩
    rw [(hc a o ho hal).1, Nat.mod_add_mod]
  · have hba : b ≠ a := fun h => hab h.symm
    rw [List.getElem?_set_ne hba] at ho1
    simp only [hab, if_false, Nat.add_zero]
    exact hc a o1 ho1 hal1

/-- Decrementing a counter that agrees with `n ≥ 1` modulo `2 ^ w`. -/
theorem dec_mod_of_mod {w n : Nat} (hn : 1 ≤ n) :
    (n % 2 ^ w + 2 ^ w - 1) % 2 ^ w = (n - 1) % 2 ^ w := by
  have hp := two_pow_pos w
  have e1 : n % 2 ^ w + 2 ^ w - 1 = n % 2 ^ w + (2 ^ w - 1) := by omega
  have e2 : n + (2 ^ w - 1) = (n - 1) + 2 ^ w := by omega
  rw [e1, Nat.mod_add_mod, e2, Nat.add_mod_right]

theorem Tracked.after_release {w : Nat} {m m1 : Heap} {f g : Nat → Nat} {B : Nat → Prop} {b : Nat}
    (hc : Tracked w m f B) (hm : intrusive_ptr_release w m b = some m1)
    (hpos : 1 ≤ f b)
    (hg : ∀ a, g a + (if a = b then 1 else 0) = f a) : Tracked w m1 g B := by
  obtain ⟨o, ho, hal, rfl⟩ := release_inv hm
  have hb : b < m.length := (List.getElem?_eq_some_iff.mp ho).1
  have hcnt := (hc b o ho hal).1
  intro a o1 ho1 hal1
  have hga := hg a
  by_cases hab : a = b
  · subst hab
    simp only [if_true] at hga
    rw [List.getElem?_set_self hb] at ho1
    cases ho1
    have key : (o.m_ref_counter + 2 ^ w - 1) % 2 ^ w = g a % 2 ^ w := by
      rw [hcnt, dec_mod_of_mod hpos]
      congr 1
      omega
    simp only [key] at hal1 ⊢
    refine ⟨trivial, fun _ => ?_⟩
    rcases Nat.eq_zero_or_pos (g a) with h0 | h0
    · rw [h0] at hal1
      simp at hal1
    · exact h0
  · have hba : b ≠ a := fun h => hab h.symm
    rw [List.getElem?_set_ne hba] at ho1
    simp only [hab, if_false, Nat.add_zero] at hga
    rw [hga]
    exact hc a o1 ho1 hal1

namespace intrusive_ptr

theorem ctor_ptr_tracked {w : Nat} {s s1 : State} {p : Ptr} {B : Nat → Prop}
    (hc : Tracked w s.objs (refs s) B) (h : ctor_ptr w s p = some s1) :
    Tracked w s1.objs (refs s1) B := by
  cases p with
  | NULL =>
    simp only [ctor_ptr, Option.some.injEq] at h
    subst h
    have hr : ∀ a, refs { s with handles := s.handles ++ [some Ptr.NULL] } a = refs s a := by
      intro a; simp [refs_push]
    intro a o ho hal
    rw [hr a]
    exact hc a o ho hal
  | addr b =>
    simp only [ctor_ptr, Option.map_eq_some'] at h
    obtain ⟨m, hm, rfl⟩ := h
    have hr : ∀ a, refs { objs := m, handles := s.handles ++ [some (Ptr.addr b)] } a
        = refs s a + (if a = b then 1 else 0) := by
      intro a
      rw [refs_push]
      by_cases hab : a = b
      · subst hab; simp
      · have : ¬ b = a := fun h => hab h.symm
        simp [hab, this]
    exact Tracked.after_add_ref hc hm hr

theorem ctor_copy_tracked {w : Nat} {s s1 : State} {r : Nat} {B : Nat → Prop}
    (hc : Tracked w s.objs (refs s) B) (h : ctor_copy w s r = some s1) :
    Tracked w s1.objs (refs s1) B := by
  rw [ctor_copy_eq] at h
  cases hg : get s r with
  | none => simp [hg] at h
  | some p =>
    rw [hg, Option.some_bind] at h
    exact ctor_ptr_tracked hc h

theorem dtor_tracked {w : Nat} {s s1 : State} {x : Nat} {B : Nat → Prop}
    (hc : Tracked w s.objs (refs s) B) (h : dtor w s x = some s1) :
    Tracked w s1.objs (refs s1) B := by
  rw [dtor_eq] at h
  cases hg : get s x with
  | none => simp [hg] at h
  | some p =>
    rw [hg, Option.some_bind, Option.map_eq_some'] at h
    obtain ⟨m, hm, rfl⟩ := h
    have hy := get_eq_some.mp hg
    cases p with
    | NULL =>
      simp only [release, Option.some.injEq] at hm
      subst hm
      have hr : ∀ a, refs { objs := s.objs, handles := s.handles.set x none } a = refs s a := by
        intro a
        have := refs_set s s.objs x none _ a hy
        simpa using this
      intro a o ho hal
      rw [hr a]
      exact hc a o ho hal
    | addr b =>
      have hr : ∀ a, refs { objs := m, handles := s.handles.set x none } a
          + (if a = b then 1 else 0) = refs s a := by
        intro a
        have := refs_set s m x none _ a hy
        by_cases hab : a = b
        · subst hab; simpa using this
        · have hba : ¬ b = a := fun h => hab h.symm
          simpa [hab, hba] using this
      have hpos : 1 ≤ refs s b := by
        have := hr b
        simp at this
        omega
      exact Tracked.after_release hc hm hpos hr

end intrusive_ptr

theorem Tracked.of_frame {w : Nat} {s s1 : State} {B : Nat → Prop}
    (hc : Tracked w s.objs (refs s) B)
    (hf : s1.objs = s.objs ∧ ∀ a, refs s1 a = refs s a) :
    Tracked w s1.objs (refs s1) B := by
  intro a o ho hal
  rw [hf.1] at ho
  rw [hf.2 a]
  exact hc a o ho hal

open intrusive_ptr in
/-- Every handle operation preserves the tracking invariant, with no bound on
the number of handles. -/
theorem step_tracked {w : Nat} {s s1 : State} {op : Op} {B : Nat → Prop}
    (hc : Tracked w s.objs (refs s) B) (h : step w s op = some s1) :
    Tracked w s1.objs (refs s1) B := by
  have tail : ∀ (s2 s3 : State) (tmp x : Nat), Tracked w s2.objs (refs s2) B →
      ((swap s2 tmp x).bind fun s4 => dtor w s4 tmp) = some s3 →
      Tracked w s3.objs (refs s3) B := by
    intro s2 s3 tmp x hc2 h2
    rw [Option.bind_eq_some] at h2
    obtain ⟨s4, hsw, hd⟩ := h2
    exact dtor_tracked (hc2.of_frame (swap_frame hsw)) hd
  cases op with
  | ctor_default =>
    simp only [step, Option.some.injEq] at h
    subst h
    exact hc.of_frame ⟨rfl, ctor_default_refs s⟩
  | ctor_ptr p => exact ctor_ptr_tracked hc h
  | ctor_copy r => exact ctor_copy_tracked hc h
  | ctor_move r => exact hc.of_frame (ctor_move_frame h)
  | dtor x => exact dtor_tracked hc h
  | assign_copy x r =>
    simp only [step, assign_copy, Option.bind_eq_some] at h
    obtain ⟨s2, h1, s4, hsw, hd⟩ := h
    exact tail s2 _ _ x (ctor_copy_tracked hc h1)
      (by rw [Option.bind_eq_some]; exact ⟨s4, hsw, hd⟩)
  | assign_move x r =>
    simp only [step, assign_move, Option.bind_eq_some] at h
    obtain ⟨s2, h1, s4, hsw, hd⟩ := h
    exact tail s2 _ _ x (hc.of_frame (ctor_move_frame h1))
      (by rw [Option.bind_eq_some]; exact ⟨s4, hsw, hd⟩)
  | assign_ptr x p =>
    simp only [step, assign_ptr, Option.bind_eq_some] at h
    obtain ⟨s2, h1, s4, hsw, hd⟩ := h
    exact tail s2 _ _ x (ctor_ptr_tracked hc h1)
      (by rw [Option.bind_eq_some]; exact ⟨s4, hsw, hd⟩)
  | swap x y => exact hc.of_frame (swap_frame h)
  | reset x =>
    simp only [step, reset] at h
    exact tail (ctor_default s) _ _ x (hc.of_frame ⟨rfl, ctor_default_refs s⟩) h
  | reset_ptr x p =>
    simp only [step, reset_ptr, Option.bind_eq_some] at h
    obtain ⟨s2, h1, s4, hsw, hd⟩ := h
    exact tail s2 _ _ x (ctor_ptr_tracked hc h1)
      (by rw [Option.bind_eq_some]; exact ⟨s4, hsw, hd⟩)

theorem run_tracked {w : Nat} {ops : List Op} {s s1 : State} {B : Nat → Prop}
    (hc : Tracked w s.objs (refs s) B) (h : run w s ops = some s1) :
    Tracked w s1.objs (refs s1) (fun a => B a ∨ wasBound w s a ops = true) := by
  induction ops generalizing s B with
  | nil =>
    simp only [run, Option.some.injEq] at h
    subst h
    intro a o ho hal
    obtain ⟨h1, h2⟩ := hc.widen a o ho hal
    refine ⟨h1, fun hb => h2 ?_⟩
    rcases hb with hb | hb
    · exact Or.inl hb
    · exact Or.inr (by simpa [wasBound] using hb)
  | cons op ops ih =>
    simp only [run, Option.bind_eq_some] at h
    obtain ⟨s2, hst, hrun⟩ := h
    have h2 := ih (step_tracked hc.widen hst) hrun
    intro a o ho hal
    obtain ⟨k1, k2⟩ := h2 a o ho hal
    refine ⟨k1, fun hb => k2 ?_⟩
    rcases hb with hb | hb
    · exact Or.inl (Or.inl hb)
    · simp only [wasBound, hst, Bool.or_eq_true, decide_eq_true_eq] at hb
      rcases hb with hb | hb
      · exact Or.inl (Or.inr hb)
      · exact Or.inr hb

theorem init_tracked (w n : Nat) : Tracked w (init n).objs (refs (init n)) (fun _ => False) := by
  intro a o ho _
  have hmem : o ∈ List.replicate n Obj.fresh := List.getElem?_mem ho
  have : o = Obj.fresh := (List.mem_replicate.mp hmem).2
  subst this
  exact ⟨by simp [refs, init, Obj.fresh], fun h => h.elim⟩

theorem refs_of_no_handle {s : State} (hend : ∀ x ∈ s.handles, x = none) (a : Nat) :
    refs s a = 0 := by
  simp only [refs, List.countP_eq_zero, decide_eq_true_eq]
  intro x hx hxa
  rw [hend x hx] at hxa
  cases hxa

/-! ## C14: no leak -/

namespace intrusive_ptr

theorem ctor_ptr_length {w : Nat} {s s1 : State} {p : Ptr} (h : ctor_ptr w s p = some s1) :
    s1.objs.length = s.objs.length := by
  rw [ctor_ptr_eq, Option.map_eq_some'] at h
  obtain ⟨m, hm, rfl⟩ := h
  exact acquire_length hm

theorem ctor_copy_length {w : Nat} {s s1 : State} {r : Nat} (h : ctor_copy w s r = some s1) :
    s1.objs.length = s.objs.length := by
  rw [ctor_copy_eq] at h
  cases hg : get s r with
  | none => simp [hg] at h
  | some p =>
    rw [hg, Option.some_bind] at h
    exact ctor_ptr_length h

theorem dtor_length {w : Nat} {s s1 : State} {x : Nat} (h : dtor w s x = some s1) :
    s1.objs.length = s.objs.length := by
  rw [dtor_eq] at h
  cases hg : get s x with
  | none => simp [hg] at h
  | some p =>
    rw [hg, Option.some_bind, Option.map_eq_some'] at h
    obtain ⟨m, hm, rfl⟩ := h
    exact release_length hm

end intrusive_ptr

open intrusive_ptr in
/-- No handle operation creates or removes a heap slot. -/
theorem step_length {w : Nat} {s s1 : State} {op : Op} (h : step w s op = some s1) :
    s1.objs.length = s.objs.length := by
  have tail : ∀ (s2 s3 : State) (tmp x : Nat),
      ((swap s2 tmp x).bind fun s4 => dtor w s4 tmp) = some s3 →
      s3.objs.length = s2.objs.length := by
    intro s2 s3 tmp x h2
    rw [Option.bind_eq_some] at h2
    obtain ⟨s4, hsw, hd⟩ := h2
    rw [dtor_length hd, (swap_frame hsw).1]
  cases op with
  | ctor_default =>
    simp only [step, Option.some.injEq] at h
    subst h
    rfl
  | ctor_ptr p => exact ctor_ptr_length h
  | ctor_copy r => exact ctor_copy_length h
  | ctor_move r => rw [(ctor_move_frame h).1]
  | dtor x => exact dtor_length h
  | assign_copy x r =>
    simp only [step, assign_copy, Option.bind_eq_some] at h
    obtain ⟨s2, h1, s4, hsw, hd⟩ := h
    rw [tail s2 _ _ x (by rw [Option.bind_eq_some]; exact ⟨s4, hsw, hd⟩), ctor_copy_length h1]
  | assign_move x r =>
    simp only [step, assign_move, Option.bind_eq_some] at h
    obtain ⟨s2, h1, s4, hsw, hd⟩ := h
    rw [tail s2 _ _ x (by rw [Option.bind_eq_some]; exact ⟨s4, hsw, hd⟩),
      (ctor_move_frame h1).1]
  | assign_ptr x p =>
    simp only [step, assign_ptr, Option.bind_eq_some] at h
    obtain ⟨s2, h1, s4, hsw, hd⟩ := h
    rw [tail s2 _ _ x (by rw [Option.bind_eq_some]; exact ⟨s4, hsw, hd⟩), ctor_ptr_length h1]
  | swap x y => rw [(swap_frame h).1]
  | reset x =>
    simp only [step, reset] at h
    rw [tail (ctor_default s) _ _ x h]
    rfl
  | reset_ptr x p =>
    simp only [step, reset_ptr, Option.bind_eq_some] at h
    obtain ⟨s2, h1, s4, hsw, hd⟩ := h
    rw [tail s2 _ _ x (by rw [Option.bind_eq_some]; exact ⟨s4, hsw, hd⟩), ctor_ptr_length h1]

theorem run_length {w : Nat} {ops : List Op} {s s1 : State} (h : run w s ops = some s1) :
    s1.objs.length = s.objs.length := by
  induction ops generalizing s with
  | nil =>
    simp only [run, Option.some.injEq] at h
    subst h
    rfl
  | cons op ops ih =>
    simp only [run, Option.bind_eq_some] at h
    obtain ⟨s2, hst, hrun⟩ := h
    rw [ih hrun, step_length hst]

/-- C14: in every run of handle operations from a state with no handles and `n`
fresh objects that ends with no live handle, every object that some handle held
at some point between operations has been deleted; so when that is the case for
each of the `n` objects, the number of constructed and not yet deleted objects
is zero. -/
theorem no_leak (w n : Nat) (ops : List Op) (s : State)
    (hrun : run w (init n) ops = some s)
    (hend : ∀ x ∈ s.handles, x = none) :
    (∀ (a : Nat) (o : Obj), s.objs[a]? = some o → wasBound w (init n) a ops = true →
      o.alive = false) ∧
    ((∀ a, a < n → wasBound w (init n) a ops = true) → instance_count s = 0) := by
  have hobj : ∀ (a : Nat) (o : Obj), s.objs[a]? = some o →
      wasBound w (init n) a ops = true → o.alive = false := by
    intro a o ho hb
    cases hal : o.alive with
    | false => rfl
    | true =>
      have h0 := ((run_tracked (init_tracked w n) hrun) a o ho hal).2 (Or.inr hb)
      rw [refs_of_no_handle hend a] at h0
      exact absurd h0 (Nat.lt_irrefl 0)
  refine ⟨hobj, fun hall => ?_⟩
  have hlen : s.objs.length = n := by
    rw [run_length hrun]
    simp [init]
  simp only [instance_count, List.countP_eq_zero]
  intro o ho
  obtain ⟨a, ha, hget⟩ := List.getElem_of_mem ho
  have hsome : s.objs[a]? = some o := by
    rw [List.getElem?_eq_some_iff]
    exact ⟨ha, hget⟩
  rw [hobj a o hsome (hall a (by omega))]
  simp

/-- C14, instance: the scoped program binds both objects, ends with no live
handle, and leaves no object alive. -/
theorem no_leak_witness :
    run 32 (init 2) scopedOps
      = some { objs := [{ m_ref_counter := 0, alive := false },
                        { m_ref_counter := 0, alive := false }],
               handles := [none, none, none, none] } ∧
    (∀ a, a < 2 → wasBound 32 (init 2) a scopedOps = true) ∧
    instance_count { objs := [{ m_ref_counter := 0, alive := false },
                              { m_ref_counter := 0, alive := false }],
                     handles := [none, none, none, none] } = 0 :=
  ⟨by decide, by decide,
   (no_leak 32 2 scopedOps _ (show run 32 (init 2) scopedOps = some
      { objs := [{ m_ref_counter := 0, alive := false },
                 { m_ref_counter := 0, alive := false }],
        handles := [none, none, none, none] } by decide) (by decide)).2 (by decide)⟩

/-! ## C15: release at counter zero -/

/-- C15 (as stated) fails: `intrusive_ptr_release` on a fresh object (counter 0)
raises no assertion; it returns normally, having stored `2 ^ 32 - 1` in the
counter of the object, which it leaves alive. -/
theorem release_at_zero_unchecked :
    Obj.fresh.m_ref_counter = 0 ∧
    intrusive_ptr_release 32 [Obj.fresh] 0
      = some [{ m_ref_counter := 4294967295, alive := true }] ∧
    intrusive_ptr_release 32 [Obj.fresh] 0 ≠ none ∧
    intrusive_ptr_release 32 [Obj.fresh] 0 ≠ some [Obj.fresh] := by
  decide

/-- C15 (amended): `intrusive_ptr_release` has no assertion.  Called on a live
object whose counter is zero it is not rejected: it decrements the unsigned
counter, which wraps to `2 ^ w - 1`, and does not delete the object. -/
theorem release_at_zero (w : Nat) (m : Heap) (a : Nat) (o : Obj)
    (ho : m[a]? = some o) (hal : o.alive = true) (hc : o.m_ref_counter = 0)
    (hw : 1 ≤ w) :
    intrusive_ptr_release w m a
      = some (m.set a { m_ref_counter := 2 ^ w - 1, alive := true }) := by
  have hp : 2 ≤ 2 ^ w := by
    calc 2 = 2 ^ 1 := rfl
      _ ≤ 2 ^ w := Nat.pow_le_pow_right (by decide) hw
  rw [release_of_alive ho hal, hc, Nat.zero_add, Nat.mod_eq_of_lt (by omega)]
  have e : decide (2 ^ w - 1 ≠ 0) = true := by simp; omega
  rw [e]

/-- C15 (amended), instance: on 32 bits a fresh object ends with counter
`2 ^ 32 - 1`, alive. -/
theorem release_at_zero_witness :
    [Obj.fresh][0]? = some Obj.fresh ∧ Obj.fresh.alive = true ∧
    Obj.fresh.m_ref_counter = 0 ∧ 1 ≤ 32 ∧
    intrusive_ptr_release 32 [Obj.fresh] 0
      = some ([Obj.fresh].set 0 { m_ref_counter := 2 ^ 32 - 1, alive := true }) :=
  ⟨rfl, rfl, rfl, by decide, release_at_zero 32 [Obj.fresh] 0 Obj.fresh rfl rfl rfl (by decide)⟩

/-! ## C16, C17: null handles and swap -/

/-- C16 (as stated) fails: after `h = std::move(h)` on a bound handle, the
handle that was moved from still holds its pointer: `get()` is not `NULL`,
`explicit operator bool` yields true, `operator!` yields false and the handle
does not compare equal to the null handle 3. -/
theorem moved_from_self_not_null :
    intrusive_ptr.get shared 2 = some (Ptr.addr 1) ∧
    intrusive_ptr.get shared 3 = some Ptr.NULL ∧
    intrusive_ptr.assign_move 32 shared 2 2
      = some { objs := shared.objs, handles := shared.handles ++ [none] } ∧
    intrusive_ptr.get { objs := shared.objs, handles := shared.handles ++ [none] } 2
      = some (Ptr.addr 1) ∧
    intrusive_ptr.operator_bool { objs := shared.objs, handles := shared.handles ++ [none] } 2
      = some true ∧
    intrusive_ptr.operator_not { objs := shared.objs, handles := shared.handles ++ [none] } 2
      = some false ∧
    operator_eq { objs := shared.objs, handles := shared.handles ++ [none] } 2 3
      = some false := by
  decide

/-- C16 (amended): a default-constructed handle, a handle constructed from a null
raw pointer, a handle after `reset()`, the source of a move construction, the
source of a move assignment into a different handle, and a copy (constructed or
assigned) of a null handle all have `get() == NULL`; and any two handles with
`get() == NULL` compare equal to themselves and to each other, convert to false
under `explicit operator bool` and yield true under `operator!`. -/
theorem null_handles (w : Nat) (s : State) :
    intrusive_ptr.get (intrusive_ptr.ctor_default s) s.handles.length = some Ptr.NULL ∧
    (∃ s1, intrusive_ptr.ctor_ptr w s Ptr.NULL = some s1 ∧
      intrusive_ptr.get s1 s.handles.length = some Ptr.NULL) ∧
    (∀ h p, intrusive_ptr.get s h = some p →
      (∀ a, p = Ptr.addr a → ∃ o, s.objs[a]? = some o ∧ o.alive = true) →
      ∃ s1, intrusive_ptr.reset w s h = some s1 ∧
        intrusive_ptr.get s1 h = some Ptr.NULL) ∧
    (∀ r p, intrusive_ptr.get s r = some p →
      ∃ s1, intrusive_ptr.ctor_move s r = some s1 ∧
        intrusive_ptr.get s1 r = some Ptr.NULL) ∧
    (∀ d r pd pr, d ≠ r → intrusive_ptr.get s d = some pd →
      intrusive_ptr.get s r = some pr →
      (∀ a, pd = Ptr.addr a → ∃ o, s.objs[a]? = some o ∧ o.alive = true) →
      ∃ s1, intrusive_ptr.assign_move w s d r = some s1 ∧
        intrusive_ptr.get s1 r = some Ptr.NULL) ∧
    (∀ r, intrusive_ptr.get s r = some Ptr.NULL →
      ∃ s1, intrusive_ptr.ctor_copy w s r = some s1 ∧
        intrusive_ptr.get s1 s.handles.length = some Ptr.NULL ∧
        intrusive_ptr.get s1 r = some Ptr.NULL) ∧
    (∀ d r pd, intrusive_ptr.get s d = some pd → intrusive_ptr.get s r = some Ptr.NULL →
      (∀ a, pd = Ptr.addr a → ∃ o, s.objs[a]? = some o ∧ o.alive = true) →
      ∃ s1, intrusive_ptr.assign_copy w s d r = some s1 ∧
        intrusive_ptr.get s1 d = some Ptr.NULL) ∧
    (∀ x y, intrusive_ptr.get s x = some Ptr.NULL → intrusive_ptr.get s y = some Ptr.NULL →
      operator_eq s x y = some true ∧ operator_eq s x x = some true ∧
      operator_ne s x y = some false ∧
      intrusive_ptr.operator_bool s x = some false ∧
      intrusive_ptr.operator_not s x = some true) := by
  have hpushed : ∀ (m : Heap) (p : Ptr), intrusive_ptr.get
      { objs := m, handles := s.handles ++ [some p] } s.handles.length = some p := by
    intro m p
    rw [intrusive_ptr.get_eq_some]
    exact List.getElem?_concat_length _ _
  have hset : ∀ (m : Heap) (x : Nat) (p : Ptr), x < s.handles.length → intrusive_ptr.get
      { objs := m, handles := s.handles.set x (some p) ++ [none] } x = some p := by
    intro m x p hx
    rw [intrusive_ptr.get_eq_some]
    simp only
    rw [List.getElem?_append_left (by simpa using hx), List.getElem?_set_self hx]
  refine ⟨hpushed _ _, ⟨_, rfl, hpushed _ _⟩, ?_, ?_, ?_, ?_, ?_, ?_⟩
  · intro h p hh hlive
    obtain ⟨m1, hm1⟩ := release_defined w s.objs p hlive
    rw [intrusive_ptr.reset_eq w s h p hh, hm1, Option.map_some']
    exact ⟨_, rfl, hset _ h _ (intrusive_ptr.get_lt hh)⟩
  · intro r p hr
    have hrl := intrusive_ptr.get_lt hr
    refine ⟨intrusive_ptr.set_m_ptr { objs := s.objs, handles := s.handles ++ [some p] } r
      Ptr.NULL, by simp only [intrusive_ptr.ctor_move, hr], ?_⟩
    rw [intrusive_ptr.get_eq_some]
    simp only [intrusive_ptr.set_m_ptr]
    rw [List.getElem?_set_self (by simp; omega)]
  · intro d r pd pr hdr hd hr hlive
    obtain ⟨m1, hm1⟩ := release_defined w s.objs pd hlive
    have hdl := intrusive_ptr.get_lt hd
    have hrl := intrusive_ptr.get_lt hr
    rw [intrusive_ptr.assign_move_eq w s d r pd pr hd hr, if_neg hdr, hm1, Option.map_some']
    refine ⟨_, rfl, ?_⟩
    rw [intrusive_ptr.get_eq_some]
    simp only
    rw [List.getElem?_append_left (by simpa using hrl), List.getElem?_set_ne hdr,
      List.getElem?_set_self hrl]
  · intro r hr
    have hrl := intrusive_ptr.get_lt hr
    rw [intrusive_ptr.ctor_copy_eq, hr, Option.some_bind]
    refine ⟨_, rfl, hpushed _ _, ?_⟩
    rw [intrusive_ptr.get_eq_some]
    simp only
    rw [List.getElem?_append_left hrl]
    exact intrusive_ptr.get_eq_some.mp hr
  · intro d r pd hd hr hlive
    obtain ⟨m1, hm1⟩ := release_defined w s.objs pd hlive
    rw [intrusive_ptr.assign_copy_eq w s d r pd Ptr.NULL hd hr]
    simp only [acquire, Option.some_bind]
    rw [hm1, Option.map_some']
    exact ⟨_, rfl, hset _ d _ (intrusive_ptr.get_lt hd)⟩
  · intro x y hx hy
    simp [operator_eq, operator_ne, intrusive_ptr.operator_bool, intrusive_ptr.operator_not,
      hx, hy]

/-- C16 (amended), instance: in `shared`, resetting the sole owner 2 and moving
out of handle 0 both leave null handles, and the null handle 3 compares equal to
itself, converts to false and yields true under `operator!`. -/
theorem null_handles_witness :
    (∃ s1, intrusive_ptr.reset 32 shared 2 = some s1 ∧
      intrusive_ptr.get s1 2 = some Ptr.NULL) ∧
    (∃ s1, intrusive_ptr.ctor_move shared 0 = some s1 ∧
      intrusive_ptr.get s1 0 = some Ptr.NULL) ∧
    (∃ s1, intrusive_ptr.assign_move 32 shared 2 0 = some s1 ∧
      intrusive_ptr.get s1 0 = some Ptr.NULL) ∧
    operator_eq shared 3 3 = some true ∧
    intrusive_ptr.operator_bool shared 3 = some false ∧
    intrusive_ptr.operator_not shared 3 = some true := by
  obtain ⟨_, _, hreset, hmove, hassign, _, _, hnull⟩ := null_handles 32 shared
  obtain ⟨_, h2, _, h4, h5⟩ := hnull 3 3 (by decide) (by decide)
  exact ⟨hreset 2 (Ptr.addr 1) (by decide) (fun a h => by cases h; exact ⟨_, rfl, rfl⟩),
    hmove 0 (Ptr.addr 0) (by decide),
    hassign 2 0 (Ptr.addr 1) (Ptr.addr 0) (by decide) (by decide) (by decide)
      (fun a h => by cases h; exact ⟨_, rfl, rfl⟩),
    h2, h4, h5⟩

/-- C17: `a.swap(b)` on two live handles (null or bound, distinct or the same
handle) succeeds; afterwards `a` holds the pointer `b` held and `b` the pointer
`a` held, every other handle and the whole heap, hence every counter and every
liveness bit, are unchanged; `std::swap(a, b)` is the same operation. -/
theorem swap_post (s : State) (a b : Nat) (pa pb : Ptr)
    (ha : intrusive_ptr.get s a = some pa) (hb : intrusive_ptr.get s b = some pb) :
    ∃ s1, intrusive_ptr.swap s a b = some s1 ∧
      intrusive_ptr.get s1 a = some pb ∧ intrusive_ptr.get s1 b = some pa ∧
      s1.objs = s.objs ∧
      s1.handles = (s.handles.set a (some pb)).set b (some pa) ∧
      std_swap s a b = some s1 := by
  have hal := intrusive_ptr.get_lt ha
  have hbl := intrusive_ptr.get_lt hb
  have hsw : intrusive_ptr.swap s a b
      = some { objs := s.objs, handles := (s.handles.set a (some pb)).set b (some pa) } := by
    simp only [intrusive_ptr.swap, ha, hb, intrusive_ptr.set_m_ptr]
  refine ⟨_, hsw, ?_, ?_, rfl, rfl, hsw⟩
  · rw [intrusive_ptr.get_eq_some]
    simp only
    by_cases hab : a = b
    · subst hab
      rw [ha] at hb
      cases hb
      rw [List.getElem?_set_self (by simpa using hal)]
    · rw [List.getElem?_set_ne (fun h => hab h.symm), List.getElem?_set_self hal]
  · rw [intrusive_ptr.get_eq_some]
    simp only
    rw [List.getElem?_set_self (by simpa using hbl)]

/-- C17, instance: swapping handle 0 (object 0) and handle 2 (object 1) of
`shared` exchanges the pointers and keeps both counters. -/
theorem swap_post_witness :
    intrusive_ptr.get shared 0 = some (Ptr.addr 0) ∧
    intrusive_ptr.get shared 2 = some (Ptr.addr 1) ∧
    ∃ s1, intrusive_ptr.swap shared 0 2 = some s1 ∧
      intrusive_ptr.get s1 0 = some (Ptr.addr 1) ∧
      intrusive_ptr.get s1 2 = some (Ptr.addr 0) ∧
      s1.objs = shared.objs ∧ std_swap shared 0 2 = some s1 := by
  obtain ⟨s1, h1, h2, h3, h4, _, h6⟩ :=
    swap_post shared 0 2 (Ptr.addr 0) (Ptr.addr 1) (by decide) (by decide)
  exact ⟨by decide, by decide, s1, h1, h2, h3, h4, h6⟩

/-! ## C18: frame -/

namespace intrusive_ptr

/-- A slot appended to the handle table changes no other slot. -/
theorem get_push (m m1 : Heap) (H : List (Option Ptr)) (v : Option Ptr) (x : Nat)
    (hx : x ≠ H.length) :
    get { objs := m, handles := H ++ [v] } x = get { objs := m1, handles := H } x := by
  simp only [get]
  rcases Nat.lt_or_ge x H.length with hlt | hge
  · rw [List.getElem?_append_left hlt]
  · have h1 : (H ++ [v])[x]? = none := by
      rw [List.getElem?_eq_none_iff]
      simp
      omega
    have h2 : H[x]? = none := by
      rw [List.getElem?_eq_none_iff]
      omega
    rw [h1, h2]

/-- A dead slot appended to the handle table is seen by no `get`. -/
theorem get_push_none (m m1 : Heap) (H : List (Option Ptr)) (x : Nat) :
    get { objs := m, handles := H ++ [none] } x = get { objs := m1, handles := H } x := by
  by_cases hx : x = H.length
  · subst hx
    simp only [get]
    rw [List.getElem?_concat_length]
    have h2 : H[H.length]? = none := List.getElem?_eq_none_iff.mpr (Nat.le_refl _)
    rw [h2]
    rfl
  · exact get_push m m1 H none x hx

/-- Writing one slot of the handle table changes no other slot. -/
theorem get_set (m m1 : Heap) (H : List (Option Ptr)) (v : Option Ptr) (d x : Nat)
    (hx : x ≠ d) :
    get { objs := m, handles := H.set d v } x = get { objs := m1, handles := H } x := by
  simp only [get]
  rw [List.getElem?_set_ne (fun h => hx h.symm)]

end intrusive_ptr

open intrusive_ptr in
/-- C18: every handle operation whose named handles are within their lifetime
leaves the pointer of every handle that is not an operand as it was, and leaves
untouched (counter and liveness) every object whose address no operand handle
holds before or after the operation. -/
theorem frame (w : Nat) (s s1 : State) (op : Op)
    (hnamed : ∀ x ∈ named op, ∃ p, get s x = some p)
    (h : step w s op = some s1) :
    (∀ x, x ∉ operands s op → get s1 x = get s x) ∧
    (∀ a, (∀ x ∈ operands s op, get s x ≠ some (Ptr.addr a)) →
      (∀ x ∈ operands s op, get s1 x ≠ some (Ptr.addr a)) →
      s1.objs[a]? = s.objs[a]?) := by
  have hpushed : ∀ (m : Heap) (H : List (Option Ptr)) (p : Ptr),
      get { objs := m, handles := H ++ [some p] } H.length = some p := by
    intro m H p
    rw [get_eq_some]
    exact List.getElem?_concat_length _ _
  have hset : ∀ (m : Heap) (x : Nat) (v : Ptr) (H : List (Option Ptr)), x < H.length →
      get { objs := m, handles := H.set x (some v) ++ [none] } x = some v := by
    intro m x v H hx
    rw [get_eq_some]
    simp only
    rw [List.getElem?_append_left (by simpa using hx), List.getElem?_set_self hx]
  -- the three copy-and-swap assignments from a pointer value `q`
  have assign : ∀ (d : Nat) (pd q : Ptr), get s d = some pd →
      ((acquire w s.objs q).bind fun m1 => (release w m1 pd).map fun m2 =>
        ({ objs := m2, handles := s.handles.set d (some q) ++ [none] } : State)) = some s1 →
      (∀ x, x ≠ d → get s1 x = get s x) ∧
      (∀ a, pd ≠ Ptr.addr a → get s1 d ≠ some (Ptr.addr a) → s1.objs[a]? = s.objs[a]?) := by
    intro d pd q hd hs
    rw [Option.bind_eq_some] at hs
    obtain ⟨m1, hm1, hs⟩ := hs
    rw [Option.map_eq_some'] at hs
    obtain ⟨m2, hm2, rfl⟩ := hs
    refine ⟨fun x hx => ?_, fun a hold hnew => ?_⟩
    · rw [get_push_none m2 m2, get_set m2 s.objs _ _ d x hx]
    · have hq : q ≠ Ptr.addr a := by
        intro e
        apply hnew
        rw [hset m2 d q s.handles (get_lt hd), e]
      show m2[a]? = _
      rw [release_frame hm2 a hold, acquire_frame hm1 a hq]
  cases op with
  | ctor_default =>
    simp only [step, Option.some.injEq] at h
    subst h
    refine ⟨fun x hx => ?_, fun a _ _ => rfl⟩
    simp only [operands, List.mem_singleton] at hx
    exact get_push _ _ _ _ x hx
  | ctor_ptr p =>
    simp only [step] at h
    rw [ctor_ptr_eq, Option.map_eq_some'] at h
    obtain ⟨m, hm, rfl⟩ := h
    refine ⟨fun x hx => ?_, fun a _ hnew => ?_⟩
    · simp only [operands, List.mem_singleton] at hx
      exact get_push _ _ _ _ x hx
    · have hp : p ≠ Ptr.addr a := by
        intro e
        apply hnew s.handles.length (by simp [operands])
        rw [hpushed, e]
      exact acquire_frame hm a hp
  | ctor_copy r =>
    obtain ⟨p, hr⟩ := hnamed r (by simp [named])
    simp only [step] at h
    rw [ctor_copy_eq, hr, Option.some_bind, ctor_ptr_eq, Option.map_eq_some'] at h
    obtain ⟨m, hm, rfl⟩ := h
    refine ⟨fun x hx => ?_, fun a hold _ => ?_⟩
    · simp only [operands, List.mem_cons, List.mem_singleton, not_or, List.mem_nil_iff,
        or_false] at hx
      exact get_push _ _ _ _ x hx.2
    · have hp : p ≠ Ptr.addr a := by
        intro e
        apply hold r (by simp [operands])
        rw [hr, e]
      exact acquire_frame hm a hp
  | ctor_move r =>
    obtain ⟨p, hr⟩ := hnamed r (by simp [named])
    simp only [step, ctor_move, hr, Option.some.injEq] at h
    subst h
    refine ⟨fun x hx => ?_, fun a _ _ => rfl⟩
    simp only [operands, List.mem_cons, List.mem_singleton, not_or, List.mem_nil_iff,
      or_false] at hx
    simp only [set_m_ptr]
    rw [get_set s.objs s.objs _ _ r x hx.1, get_push s.objs s.objs _ _ x hx.2]
  | dtor d =>
    obtain ⟨p, hd⟩ := hnamed d (by simp [named])
    simp only [step] at h
    rw [dtor_eq, hd, Option.some_bind, Option.map_eq_some'] at h
    obtain ⟨m, hm, rfl⟩ := h
    refine ⟨fun x hx => ?_, fun a hold _ => ?_⟩
    · simp only [operands, List.mem_singleton] at hx
      exact get_set _ _ _ _ d x hx
    · have hp : p ≠ Ptr.addr a := by
        intro e
        apply hold d (by simp [operands])
        rw [hd, e]
      exact release_frame hm a hp
  | assign_copy d r =>
    obtain ⟨pd, hd⟩ := hnamed d (by simp [named])
    obtain ⟨pr, hr⟩ := hnamed r (by simp [named])
    simp only [step] at h
    rw [assign_copy_eq w s d r pd pr hd hr] at h
    obtain ⟨hf, ho⟩ := assign d pd pr hd h
    refine ⟨fun x hx => ?_, fun a hold hnew => ?_⟩
    · simp only [operands, List.mem_cons, List.mem_singleton, not_or, List.mem_nil_iff,
        or_false] at hx
      exact hf x hx.1
    · exact ho a (fun e => hold d (by simp [operands]) (by rw [hd, e]))
        (hnew d (by simp [operands]))
  | assign_move d r =>
    obtain ⟨pd, hd⟩ := hnamed d (by simp [named])
    obtain ⟨pr, hr⟩ := hnamed r (by simp [named])
    simp only [step] at h
    rw [assign_move_eq w s d r pd pr hd hr, Option.map_eq_some'] at h
    obtain ⟨m, hm, rfl⟩ := h
    refine ⟨fun x hx => ?_, fun a hold _ => ?_⟩
    · simp only [operands, List.mem_cons, List.mem_singleton, not_or, List.mem_nil_iff,
        or_false] at hx
      rw [get_push_none m m, get_set m m _ _ d x hx.1, get_set m s.objs _ _ r x hx.2]
    · have hp : (if d = r then Ptr.NULL else pd) ≠ Ptr.addr a := by
        split
        · intro e; cases e
        · intro e
          apply hold d (by simp [operands])
          rw [hd, e]
      exact release_frame hm a hp
  | assign_ptr d p =>
    obtain ⟨pd, hd⟩ := hnamed d (by simp [named])
    simp only [step] at h
    rw [assign_ptr_eq w s d pd p hd] at h
    obtain ⟨hf, ho⟩ := assign d pd p hd h
    refine ⟨fun x hx => ?_, fun a hold hnew => ?_⟩
    · simp only [operands, List.mem_singleton] at hx
      exact hf x hx
    · exact ho a (fun e => hold d (by simp [operands]) (by rw [hd, e]))
        (hnew d (by simp [operands]))
  | swap x y =>
    obtain ⟨px, hx⟩ := hnamed x (by simp [named])
    obtain ⟨py, hy⟩ := hnamed y (by simp [named])
    simp only [step, swap, hx, hy, Option.some.injEq] at h
    subst h
    refine ⟨fun z hz => ?_, fun a _ _ => rfl⟩
    simp only [operands, List.mem_cons, List.mem_singleton, not_or, List.mem_nil_iff,
      or_false] at hz
    simp only [set_m_ptr]
    rw [get_set s.objs s.objs _ _ y z hz.2, get_set s.objs s.objs _ _ x z hz.1]
  | reset d =>
    obtain ⟨pd, hd⟩ := hnamed d (by simp [named])
    simp only [step] at h
    rw [reset_eq w s d pd hd] at h
    have h2 : ((acquire w s.objs Ptr.NULL).bind fun m1 => (release w m1 pd).map fun m2 =>
        ({ objs := m2, handles := s.handles.set d (some Ptr.NULL) ++ [none] } : State))
        = some s1 := by
      simpa only [acquire, Option.some_bind] using h
    obtain ⟨hf, ho⟩ := assign d pd Ptr.NULL hd h2
    refine ⟨fun x hx => ?_, fun a hold hnew => ?_⟩
    · simp only [operands, List.mem_singleton] at hx
      exact hf x hx
    · exact ho a (fun e => hold d (by simp [operands]) (by rw [hd, e]))
        (hnew d (by simp [operands]))
  | reset_ptr d p =>
    obtain ⟨pd, hd⟩ := hnamed d (by simp [named])
    simp only [step] at h
    rw [reset_ptr_eq w s d pd p hd] at h
    obtain ⟨hf, ho⟩ := assign d pd p hd h
    refine ⟨fun x hx => ?_, fun a hold hnew => ?_⟩
    · simp only [operands, List.mem_singleton] at hx
      exact hf x hx
    · exact ho a (fun e => hold d (by simp [operands]) (by rw [hd, e]))
        (hnew d (by simp [operands]))

/-- C18, instance: destroying handle 2 of `shared` (sole owner of object 1)
leaves handles 0, 1 and 3 and object 0 as they were. -/
theorem frame_witness :
    step 32 shared (Op.dtor 2) = some sharedDropped ∧
    intrusive_ptr.get sharedDropped 0 = intrusive_ptr.get shared 0 ∧
    intrusive_ptr.get sharedDropped 3 = intrusive_ptr.get shared 3 ∧
    sharedDropped.objs[0]? = shared.objs[0]? := by
  have hf := frame 32 shared sharedDropped (Op.dtor 2)
    (fun x hx => by
      simp only [named, List.mem_singleton] at hx
      subst hx
      exact ⟨Ptr.addr 1, rfl⟩)
    (by decide)
  exact ⟨by decide, hf.1 0 (by decide), hf.1 3 (by decide), hf.2 0 (by decide) (by decide)⟩

/-! ## C19, C20: the in-place factory -/

/-- C19: when the allocation and the constructor of `T` succeed on `args`,
`make_intrusive` returns a handle (the next free id) that is non-null and holds
the address of one newly created object, an address no object had before; on a
counter of at least one bit that object is alive with counter exactly 1; and
every object that existed before is untouched. -/
theorem make_intrusive_success {ε Args : Type} (w : Nat) (alloc : Except ε Unit)
    (T_ctor : Args → Except ε Unit) (args : Args) (s : State)
    (halloc : alloc = Except.ok ()) (hctor : T_ctor args = Except.ok ()) (hw : 1 ≤ w) :
    ∃ s1, make_intrusive w alloc T_ctor args s = some (s1, Except.ok s.handles.length) ∧
      intrusive_ptr.get s1 s.handles.length = some (Ptr.addr s.objs.length) ∧
      intrusive_ptr.operator_bool s1 s.handles.length = some true ∧
      s.objs[s.objs.length]? = none ∧
      s1.objs = s.objs ++ [{ m_ref_counter := 1, alive := true }] ∧
      s1.objs[s.objs.length]? = some { m_ref_counter := 1, alive := true } ∧
      s1.handles = s.handles ++ [some (Ptr.addr s.objs.length)] ∧
      ∀ a, a < s.objs.length → s1.objs[a]? = s.objs[a]? := by
  have hp : 1 < 2 ^ w := by
    calc 1 < 2 ^ 1 := by decide
      _ ≤ 2 ^ w := Nat.pow_le_pow_right (by decide) hw
  have hget : intrusive_ptr.get
      { objs := s.objs ++ [{ m_ref_counter := 1, alive := true }],
        handles := s.handles ++ [some (Ptr.addr s.objs.length)] } s.handles.length
        = some (Ptr.addr s.objs.length) := by
    rw [intrusive_ptr.get_eq_some]
    exact List.getElem?_concat_length _ _
  refine ⟨{ objs := s.objs ++ [{ m_ref_counter := 1, alive := true }],
            handles := s.handles ++ [some (Ptr.addr s.objs.length)] }, ?_, hget, ?_,
          List.getElem?_eq_none_iff.mpr (Nat.le_refl _), rfl,
          List.getElem?_concat_length _ _, rfl, ?_⟩
  · simp only [make_intrusive, new_T, halloc, hctor, intrusive_ptr.ctor_ptr]
    rw [add_ref_of_alive (o := Obj.fresh) (List.getElem?_concat_length _ _) rfl]
    simp only [Obj.fresh, Nat.zero_add, Nat.mod_eq_of_lt hp, Option.map_some']
    congr 3
    rw [List.set_append_right _ _ (Nat.le_refl _)]
    simp
  · simp only [intrusive_ptr.operator_bool, hget, Option.map_some']
    simp
  · intro a ha
    simp only
    rw [List.getElem?_append_left ha]

/-- C19, instance: `make_intrusive` with an accepted argument in `soleOwner`
yields handle 1 on the new object 1 with counter 1; object 0 is untouched. -/
theorem make_intrusive_success_witness :
    pickyCtor 3 = Except.ok () ∧ 1 ≤ 32 ∧
    ∃ s1, make_intrusive 32 (Except.ok ()) pickyCtor 3 soleOwner = some (s1, Except.ok 1) ∧
      intrusive_ptr.get s1 1 = some (Ptr.addr 1) ∧
      s1.objs[1]? = some { m_ref_counter := 1, alive := true } ∧
      s1.objs[0]? = soleOwner.objs[0]? := by
  obtain ⟨s1, h1, h2, _, _, _, h6, _, h8⟩ :=
    make_intrusive_success 32 (Except.ok ()) pickyCtor 3 soleOwner rfl rfl (by decide)
  exact ⟨rfl, by decide, s1, h1, h2, h6, h8 0 (by decide)⟩

/-- C20: when the allocation fails with `e`, or the allocation succeeds and the
constructor of `T` fails with `e` on `args`, `make_intrusive` propagates that
same `e`, returns no handle, and the state afterwards is the state before: no
counter has changed and no object or handle has been added. -/
theorem make_intrusive_failure {ε Args : Type} (w : Nat) (alloc : Except ε Unit)
    (T_ctor : Args → Except ε Unit) (args : Args) (s : State) (e : ε)
    (hfail : alloc = Except.error e ∨
      (alloc = Except.ok () ∧ T_ctor args = Except.error e)) :
    make_intrusive w alloc T_ctor args s = some (s, Except.error e) := by
  rcases hfail with h | ⟨h1, h2⟩
  · simp only [make_intrusive, new_T, h]
  · simp only [make_intrusive, new_T, h1, h2]

/-- C20, instance: a constructor that throws on its argument, and a failed
allocation, both leave `soleOwner` as it was and propagate the failure. -/
theorem make_intrusive_failure_witness :
    pickyCtor 0 = Except.error "zero" ∧
    make_intrusive 32 (Except.ok ()) pickyCtor 0 soleOwner
      = some (soleOwner, Except.error "zero") ∧
    make_intrusive 32 (Except.error "bad_alloc") pickyCtor 3 soleOwner
      = some (soleOwner, Except.error "bad_alloc") :=
  ⟨rfl,
   make_intrusive_failure 32 (Except.ok ()) pickyCtor 0 soleOwner "zero" (Or.inr ⟨rfl, rfl⟩),
   make_intrusive_failure 32 (Except.error "bad_alloc") pickyCtor 3 soleOwner "bad_alloc"
     (Or.inl rfl)⟩

/-! ## C21: the dereference precondition -/

/-- C21: in every state, on a live handle whose pointer is the address of a
live object, `operator*` and `operator->` pass their assertion (in debug and in
release builds alike), yield that object, respectively its address `get()`, and
leave the state, hence every counter, unchanged; and in a debug build the
assertion of either operator fails on a live handle exactly when the handle is
null. -/
theorem deref_post (debug : Bool) (s : State) :
    (∀ (h a : Nat) (o : Obj), intrusive_ptr.get s h = some (Ptr.addr a) →
      s.objs[a]? = some o → o.alive = true →
      intrusive_ptr.operator_star debug s h = some (Checked.returned a, s) ∧
      intrusive_ptr.operator_arrow debug s h = some (Checked.returned (Ptr.addr a), s)) ∧
    ∀ (x : Nat) (p : Ptr), intrusive_ptr.get s x = some p →
      (intrusive_ptr.operator_star true s x = some (Checked.assert_failed, s) ↔
        p = Ptr.NULL) ∧
      (intrusive_ptr.operator_arrow true s x = some (Checked.assert_failed, s) ↔
        p = Ptr.NULL) := by
  refine ⟨fun h a o hg ho hal => ⟨?_, ?_⟩, ?_⟩
  · simp [intrusive_ptr.operator_star, hg, ho, hal]
  · simp [intrusive_ptr.operator_arrow, hg]
  · intro x p hx
    cases p with
    | NULL => simp [intrusive_ptr.operator_star, intrusive_ptr.operator_arrow, hx]
    | addr b =>
      refine ⟨⟨fun hs => ?_, fun hp => by cases hp⟩, ⟨fun hs => ?_, fun hp => by cases hp⟩⟩
      · simp only [intrusive_ptr.operator_star, hx, Bool.true_and, reduceCtorEq,
          decide_False, Bool.false_eq_true, if_false] at hs
        cases hb : s.objs[b]? with
        | none => simp [hb] at hs
        | some ob =>
          cases hab : ob.alive <;> simp [hb, hab] at hs
      · simp [intrusive_ptr.operator_arrow, hx] at hs

/-- C21, instance: in `shared`, both operators on handle 2 yield object 1 and
leave the state alone; on the null handle 3 the assertion fails. -/
theorem deref_post_witness :
    intrusive_ptr.get shared 2 = some (Ptr.addr 1) ∧
    shared.objs[1]? = some { m_ref_counter := 1, alive := true } ∧
    intrusive_ptr.operator_star true shared 2 = some (Checked.returned 1, shared) ∧
    intrusive_ptr.operator_arrow true shared 2
      = some (Checked.returned (Ptr.addr 1), shared) ∧
    intrusive_ptr.operator_star true shared 3 = some (Checked.assert_failed, shared) ∧
    intrusive_ptr.operator_arrow true shared 3 = some (Checked.assert_failed, shared) := by
  obtain ⟨hbound, h3⟩ := deref_post true shared
  obtain ⟨h1, h2⟩ := hbound 2 1 { m_ref_counter := 1, alive := true }
    (by decide) (by decide) rfl
  obtain ⟨h4, h5⟩ := h3 3 Ptr.NULL (by decide)
  exact ⟨by decide, by decide, h1, h2, h4.mpr rfl, h5.mpr rfl⟩

/-! ## C23, C24: re-binding to the held pointer and modular counting -/

/-- C23: on a non-null handle `h` whose pointee is live with counter `c ≥ 1`,
`h.reset(h.get())` and `h = h.get()` succeed, leave `h` pointing to the same
object and leave the heap untouched: the object is not deleted and its counter
is still `c`.  The resulting state is the old one plus the dead slot of the
temporary. -/
theorem rebind_same (w : Nat) (s : State) (h a : Nat) (o : Obj)
    (hg : intrusive_ptr.get s h = some (Ptr.addr a)) (ho : s.objs[a]? = some o)
    (hal : o.alive = true) (h1 : 1 ≤ o.m_ref_counter) (h2 : o.m_ref_counter < 2 ^ w) :
    intrusive_ptr.reset_ptr w s h (Ptr.addr a)
      = some { objs := s.objs, handles := s.handles ++ [none] } ∧
    intrusive_ptr.assign_ptr w s h (Ptr.addr a)
      = some { objs := s.objs, handles := s.handles ++ [none] } ∧
    intrusive_ptr.get { objs := s.objs, handles := s.handles ++ [none] } h
      = some (Ptr.addr a) ∧
    ({ objs := s.objs, handles := s.handles ++ [none] } : State).objs[a]? = some o := by
  have hlt := intrusive_ptr.get_lt hg
  have hy := intrusive_ptr.get_eq_some.mp hg
  have ha : a < s.objs.length := (List.getElem?_eq_some_iff.mp ho).1
  have e : decide (o.m_ref_counter ≠ 0) = true := by simp; omega
  have eo : ({ m_ref_counter := o.m_ref_counter, alive := true } : Obj) = o := by
    cases o; simp_all
  have key : intrusive_ptr.assign_ptr w s h (Ptr.addr a)
      = some { objs := s.objs, handles := s.handles ++ [none] } := by
    rw [intrusive_ptr.assign_ptr_eq w s h _ _ hg]
    simp only [acquire, release]
    rw [add_ref_of_alive ho hal, Option.some_bind,
      release_of_alive (List.getElem?_set_self ha) rfl]
    simp only [Option.map_some', inc_dec_mod h2, List.set_set, set_of_getElem? hy]
    rw [e, eo, set_of_getElem? ho]
  refine ⟨key, key, ?_, ho⟩
  rw [intrusive_ptr.get_eq_some, List.getElem?_append_left hlt]
  exact hy

/-- C23, instance: the sole owner re-bound to its own pointer keeps object 0
alive with counter 1. -/
theorem rebind_same_witness :
    intrusive_ptr.get soleOwner 0 = some (Ptr.addr 0) ∧
    soleOwner.objs[0]? = some { m_ref_counter := 1, alive := true } ∧
    intrusive_ptr.reset_ptr 32 soleOwner 0 (Ptr.addr 0)
      = some { objs := soleOwner.objs, handles := soleOwner.handles ++ [none] } ∧
    intrusive_ptr.assign_ptr 32 soleOwner 0 (Ptr.addr 0)
      = some { objs := soleOwner.objs, handles := soleOwner.handles ++ [none] } :=
  have h := rebind_same 32 soleOwner 0 0 { m_ref_counter := 1, alive := true }
    (by decide) (by decide) rfl (by decide) (by decide)
  ⟨by decide, by decide, h.1, h.2.1⟩

/-- C24: the counter is an unsigned integer of `w ≥ 1` bits and its arithmetic is
modular.  Release on a live object whose counter is 0 stores `2 ^ w - 1` and
does not delete the object; acquire on a live object whose counter is
`2 ^ w - 1` stores 0 and does not delete it; and in every run of handle
operations from fresh objects the counter of a live object is the number of
live handles on it modulo `2 ^ w`, so it equals that number exactly when the
number is below `2 ^ w`. -/
theorem modular_count (w : Nat) (hw : 1 ≤ w) :
    (∀ (m : Heap) (a : Nat) (o : Obj), m[a]? = some o → o.alive = true →
      o.m_ref_counter = 0 →
      intrusive_ptr_release w m a
        = some (m.set a { m_ref_counter := 2 ^ w - 1, alive := true })) ∧
    (∀ (m : Heap) (a : Nat) (o : Obj), m[a]? = some o → o.alive = true →
      o.m_ref_counter = 2 ^ w - 1 →
      intrusive_ptr_add_ref w m a
        = some (m.set a { m_ref_counter := 0, alive := true })) ∧
    (∀ (n : Nat) (ops : List Op) (s : State), run w (init n) ops = some s →
      ∀ (a : Nat) (o : Obj), s.objs[a]? = some o → o.alive = true →
        o.m_ref_counter = refs s a % 2 ^ w ∧
        (o.m_ref_counter = refs s a ↔ refs s a < 2 ^ w)) := by
  have hp : 2 ≤ 2 ^ w := by
    calc 2 = 2 ^ 1 := rfl
      _ ≤ 2 ^ w := Nat.pow_le_pow_right (by decide) hw
  refine ⟨?_, ?_, ?_⟩
  · intro m a o ho hal hc
    rw [release_of_alive ho hal, hc, Nat.zero_add, Nat.mod_eq_of_lt (by omega)]
    have e : decide (2 ^ w - 1 ≠ 0) = true := by simp; omega
    rw [e]
  · intro m a o ho hal hc
    rw [add_ref_of_alive ho hal, hc]
    have e : 2 ^ w - 1 + 1 = 2 ^ w := by omega
    rw [e, Nat.mod_self]
  · intro n ops s hrun a o ho hal
    have hmod := ((run_tracked (init_tracked w n) hrun) a o ho hal).1
    refine ⟨hmod, ⟨fun heq => ?_, fun hlt => ?_⟩⟩
    · rw [← heq, hmod]
      exact Nat.mod_lt _ (by omega)
    · rw [hmod, Nat.mod_eq_of_lt hlt]

/-- C24, instance: on 32 bits, release at counter 0 stores `2 ^ 32 - 1`, acquire
at counter `2 ^ 32 - 1` stores 0, both leaving the object alive; and after the
sample program the counter of the live object 1 equals its one handle. -/
theorem modular_count_witness :
    1 ≤ 32 ∧
    intrusive_ptr_release 32 [Obj.fresh] 0
      = some [{ m_ref_counter := 4294967295, alive := true }] ∧
    intrusive_ptr_add_ref 32 [{ m_ref_counter := 4294967295, alive := true }] 0
      = some [{ m_ref_counter := 0, alive := true }] ∧
    run 32 (init 2) sampleOps = some sampleFinal ∧
    (1 = refs sampleFinal 1 % 2 ^ 32 ∧ (1 = refs sampleFinal 1 ↔ refs sampleFinal 1 < 2 ^ 32)) :=
  have h := modular_count 32 (by decide)
  ⟨by decide,
   h.1 [Obj.fresh] 0 Obj.fresh rfl rfl rfl,
   h.2.1 [{ m_ref_counter := 4294967295, alive := true }] 0
     { m_ref_counter := 4294967295, alive := true } rfl rfl (by decide),
   by decide,
   h.2.2 2 sampleOps sampleFinal (by decide) 1 { m_ref_counter := 1, alive := true } rfl rfl⟩

/-! ## C2: release and destruction -/

theorem pointsToLive_iff {m : Heap} {p : Ptr} :
    pointsToLive m p = true ↔ ∀ a, p = Ptr.addr a → ∃ o, m[a]? = some o ∧ o.alive = true := by
  cases p with
  | NULL => simp [pointsToLive]
  | addr b =>
    simp only [pointsToLive, Ptr.addr.injEq]
    constructor
    · intro h a e
      subst e
      cases hm : m[b]? with
      | none => rw [hm] at h; cases h
      | some o => rw [hm] at h; exact ⟨o, rfl, h⟩
    · intro h
      obtain ⟨o, ho, hal⟩ := h b rfl
      rw [ho]; exact hal

/-- An acquire of `q` followed by a release of `pd`, the pointee of `q` being live
and that of `pd` live with a counter in `1 .. 2 ^ w - 1`, is defined, leaves
deleted objects untouched and deletes an object only by taking its counter from
one to zero. -/
theorem acquire_release_dies (w : Nat) (m : Heap) (q pd : Ptr)
    (hq : ∀ a, q = Ptr.addr a → ∃ o, m[a]? = some o ∧ o.alive = true)
    (hpd : ∀ a, pd = Ptr.addr a → ∃ o, m[a]? = some o ∧ o.alive = true ∧
      1 ≤ o.m_ref_counter ∧ o.m_ref_counter < 2 ^ w) :
    ∃ m1 m2, acquire w m q = some m1 ∧ release w m1 pd = some m2 ∧
      ∀ (a : Nat) (o : Obj), m[a]? = some o → ∃ o2, m2[a]? = some o2 ∧ (o.alive = false → o2 = o) ∧
        (o.alive = true → o2.alive = false → o.m_ref_counter = 1 ∧ o2.m_ref_counter = 0) := by
  obtain ⟨m1, hm1⟩ := acquire_defined w m q hq
  refine ⟨m1, ?_⟩
  cases pd with
  | NULL =>
    refine ⟨m1, hm1, rfl, fun a o ho => ?_⟩
    cases q with
    | NULL =>
      simp only [acquire, Option.some.injEq] at hm1
      subst hm1
      exact ⟨o, ho, fun _ => rfl, fun h1 h2 => (by rw [h1] at h2; cases h2)⟩
    | addr c =>
      obtain ⟨oc, hoc, halc, e⟩ := add_ref_inv hm1
      subst e
      by_cases hac : c = a
      · subst hac
        rw [hoc] at ho; cases ho
        have hlt : c < m.length := by
          rcases Nat.lt_or_ge c m.length with h | h
          · exact h
          · rw [List.getElem?_eq_none_iff.mpr h] at hoc; cases hoc
        refine ⟨_, List.getElem?_set_self hlt, fun h => (by rw [halc] at h; cases h),
          fun _ h => (by cases h)⟩
      · rw [List.getElem?_set_ne hac]
        exact ⟨o, ho, fun _ => rfl, fun h1 h2 => (by rw [h1] at h2; cases h2)⟩
  | addr b =>
    obtain ⟨ob, hob, halb, hb1, hb2⟩ := hpd b rfl
    have hlt : b < m.length := by
      rcases Nat.lt_or_ge b m.length with h | h
      · exact h
      · rw [List.getElem?_eq_none_iff.mpr h] at hob; cases hob
    -- the object at `b` after the acquire
    have hmid : ∃ o1, m1[b]? = some o1 ∧ o1.alive = true ∧
        ((o1 = ob ∧ q ≠ Ptr.addr b) ∨
         (o1.m_ref_counter = (ob.m_ref_counter + 1) % 2 ^ w ∧ q = Ptr.addr b)) := by
      by_cases hqb : q = Ptr.addr b
      · subst hqb
        obtain ⟨oc, hoc, _, e⟩ := add_ref_inv hm1
        subst e
        rw [hob] at hoc; cases hoc
        exact ⟨_, List.getElem?_set_self hlt, rfl, Or.inr ⟨rfl, rfl⟩⟩
      · exact ⟨ob, by rw [acquire_frame hm1 b hqb]; exact hob, halb, Or.inl ⟨rfl, hqb⟩⟩
    obtain ⟨o1, ho1, hal1, hcase⟩ := hmid
    refine ⟨_, hm1, release_of_alive ho1 hal1, fun a o ho => ?_⟩
    have hlt1 : b < m1.length := by rw [acquire_length hm1]; exact hlt
    by_cases hab : b = a
    · subst hab
      rw [hob] at ho; cases ho
      refine ⟨_, List.getElem?_set_self hlt1, fun h => (by rw [halb] at h; cases h), fun _ hd => ?_⟩
      simp only [decide_eq_false_iff_not, ne_eq, not_not] at hd
      rcases hcase with ⟨e, _⟩ | ⟨e, _⟩
      · subst e
        rw [dec_mod hb1 hb2] at hd
        refine ⟨by omega, ?_⟩
        show (o1.m_ref_counter + 2 ^ w - 1) % 2 ^ w = 0
        rw [dec_mod hb1 hb2]; exact hd
      · rw [e, inc_dec_mod hb2] at hd
        omega
    · rw [List.getElem?_set_ne hab]
      by_cases hqa : q = Ptr.addr a
      · subst hqa
        obtain ⟨oc, hoc, halc, e⟩ := add_ref_inv hm1
        subst e
        rw [ho] at hoc; cases hoc
        have hlta : a < m.length := by
          rcases Nat.lt_or_ge a m.length with h | h
          · exact h
          · rw [List.getElem?_eq_none_iff.mpr h] at ho; cases ho
        exact ⟨_, List.getElem?_set_self hlta, fun h => (by rw [halc] at h; cases h),
          fun _ h => (by cases h)⟩
      · rw [acquire_frame hm1 a hqa]
        exact ⟨o, ho, fun _ => rfl, fun h1 h2 => (by rw [h1] at h2; cases h2)⟩


theorem held_live {w : Nat} {s : State} (hc : Coherent w s) (hb : Bounded w s)
    {d : Nat} {pd : Ptr} (hd : intrusive_ptr.get s d = some pd) :
    ∀ a, pd = Ptr.addr a → ∃ o, s.objs[a]? = some o ∧ o.alive = true ∧
      1 ≤ o.m_ref_counter ∧ o.m_ref_counter < 2 ^ w := by
  intro a e
  subst e
  obtain ⟨o, ho, hal, h1⟩ := Coherent.noDangling hc hb d a hd
  refine ⟨o, ho, hal, h1, ?_⟩
  rw [(hc a).1 o ho hal]
  exact Nat.mod_lt _ (Nat.pos_pow_of_pos w (by decide))

theorem isSome_get {s : State} {x : Nat} (h : (intrusive_ptr.get s x).isSome = true) :
    ∃ p, intrusive_ptr.get s x = some p :=
  Option.isSome_iff_exists.mp h

/-- In a coherent, bounded state every well-formed operation is defined, leaves
deleted objects untouched and deletes an object only by taking its counter from
one to zero. -/
theorem step_defined {w : Nat} {s : State} {op : Op}
    (hc : Coherent w s) (hb : Bounded w s) (hwf : WellFormed s op) :
    ∃ s1, step w s op = some s1 ∧
      ∀ (a : Nat) (o : Obj), s.objs[a]? = some o → ∃ o1, s1.objs[a]? = some o1 ∧
        (o.alive = false → o1 = o) ∧
        (o.alive = true → o1.alive = false → o.m_ref_counter = 1 ∧ o1.m_ref_counter = 0) := by
  have same : ∀ (a : Nat) (o : Obj), s.objs[a]? = some o → ∃ o1, s.objs[a]? = some o1 ∧
        (o.alive = false → o1 = o) ∧
        (o.alive = true → o1.alive = false → o.m_ref_counter = 1 ∧ o1.m_ref_counter = 0) :=
    fun a o ho => ⟨o, ho, fun _ => rfl, fun h1 h2 => (by rw [h1] at h2; cases h2)⟩
  have nolive : ∀ a, Ptr.NULL = Ptr.addr a → ∃ o, s.objs[a]? = some o ∧ o.alive = true :=
    fun a e => (by cases e)
  have nolive2 : ∀ a, Ptr.NULL = Ptr.addr a → ∃ o, s.objs[a]? = some o ∧ o.alive = true ∧
      1 ≤ o.m_ref_counter ∧ o.m_ref_counter < 2 ^ w :=
    fun a e => (by cases e)
  have weaken : ∀ {p : Ptr}, (∀ a, p = Ptr.addr a → ∃ o, s.objs[a]? = some o ∧ o.alive = true ∧
      1 ≤ o.m_ref_counter ∧ o.m_ref_counter < 2 ^ w) →
      ∀ a, p = Ptr.addr a → ∃ o, s.objs[a]? = some o ∧ o.alive = true :=
    fun h a e => (by obtain ⟨o, ho, hal, _⟩ := h a e; exact ⟨o, ho, hal⟩)
  obtain ⟨hnamed, hraw⟩ := hwf
  have hraw := pointsToLive_iff.mp hraw
  cases op with
  | ctor_default => exact ⟨_, rfl, same⟩
  | ctor_ptr p =>
    obtain ⟨m1, m2, h1, h2, hd⟩ := acquire_release_dies w s.objs p Ptr.NULL hraw nolive2
    simp only [release, Option.some.injEq] at h2
    subst h2
    refine ⟨{ objs := m1, handles := s.handles ++ [some p] }, ?_, hd⟩
    simp only [step]
    rw [intrusive_ptr.ctor_ptr_eq, h1]; rfl
  | ctor_copy rhs =>
    obtain ⟨p, hp⟩ := isSome_get (hnamed rhs (by simp [named]))
    obtain ⟨m1, m2, h1, h2, hd⟩ :=
      acquire_release_dies w s.objs p Ptr.NULL (weaken (held_live hc hb hp)) nolive2
    simp only [release, Option.some.injEq] at h2
    subst h2
    refine ⟨{ objs := m1, handles := s.handles ++ [some p] }, ?_, hd⟩
    simp only [step]
    rw [intrusive_ptr.ctor_copy_eq, hp, Option.some_bind, intrusive_ptr.ctor_ptr_eq, h1]; rfl
  | ctor_move rhs =>
    obtain ⟨p, hp⟩ := isSome_get (hnamed rhs (by simp [named]))
    refine ⟨intrusive_ptr.set_m_ptr { s with handles := s.handles ++ [some p] } rhs Ptr.NULL,
      by simp only [step, intrusive_ptr.ctor_move, hp], same⟩
  | dtor self =>
    obtain ⟨p, hp⟩ := isSome_get (hnamed self (by simp [named]))
    obtain ⟨m1, m2, h1, h2, hd⟩ :=
      acquire_release_dies w s.objs Ptr.NULL p nolive (held_live hc hb hp)
    simp only [acquire, Option.some.injEq] at h1
    subst h1
    refine ⟨{ objs := m2, handles := s.handles.set self none }, ?_, hd⟩
    simp only [step]
    rw [intrusive_ptr.dtor_eq, hp, Option.some_bind, h2]; rfl
  | assign_copy self rhs =>
    obtain ⟨pd, hpd⟩ := isSome_get (hnamed self (by simp [named]))
    obtain ⟨pr, hpr⟩ := isSome_get (hnamed rhs (by simp [named]))
    obtain ⟨m1, m2, h1, h2, hd⟩ :=
      acquire_release_dies w s.objs pr pd (weaken (held_live hc hb hpr)) (held_live hc hb hpd)
    refine ⟨{ objs := m2, handles := s.handles.set self (some pr) ++ [none] }, ?_, hd⟩
    simp only [step]
    rw [intrusive_ptr.assign_copy_eq w s self rhs pd pr hpd hpr, h1, Option.some_bind, h2]; rfl
  | assign_move self rhs =>
    obtain ⟨pd, hpd⟩ := isSome_get (hnamed self (by simp [named]))
    obtain ⟨pr, hpr⟩ := isSome_get (hnamed rhs (by simp [named]))
    have hlive : ∀ a, (if self = rhs then Ptr.NULL else pd) = Ptr.addr a →
        ∃ o, s.objs[a]? = some o ∧ o.alive = true ∧
          1 ≤ o.m_ref_counter ∧ o.m_ref_counter < 2 ^ w := by
      intro a e
      by_cases hsr : self = rhs
      · rw [if_pos hsr] at e; cases e
      · rw [if_neg hsr] at e; exact held_live hc hb hpd a e
    obtain ⟨m1, m2, h1, h2, hd⟩ :=
      acquire_release_dies w s.objs Ptr.NULL _ nolive hlive
    simp only [acquire, Option.some.injEq] at h1
    subst h1
    refine ⟨{ objs := m2,
              handles := (s.handles.set rhs (some Ptr.NULL)).set self (some pr) ++ [none] },
      ?_, hd⟩
    simp only [step]
    rw [intrusive_ptr.assign_move_eq w s self rhs pd pr hpd hpr, h2]; rfl
  | assign_ptr self p =>
    obtain ⟨pd, hpd⟩ := isSome_get (hnamed self (by simp [named]))
    obtain ⟨m1, m2, h1, h2, hd⟩ :=
      acquire_release_dies w s.objs p pd hraw (held_live hc hb hpd)
    refine ⟨{ objs := m2, handles := s.handles.set self (some p) ++ [none] }, ?_, hd⟩
    simp only [step]
    rw [intrusive_ptr.assign_ptr_eq w s self pd p hpd, h1, Option.some_bind, h2]; rfl
  | swap self rhs =>
    obtain ⟨pd, hpd⟩ := isSome_get (hnamed self (by simp [named]))
    obtain ⟨pr, hpr⟩ := isSome_get (hnamed rhs (by simp [named]))
    refine ⟨intrusive_ptr.set_m_ptr (intrusive_ptr.set_m_ptr s self pr) rhs pd,
      by simp only [step, intrusive_ptr.swap, hpd, hpr], same⟩
  | reset self =>
    obtain ⟨pd, hpd⟩ := isSome_get (hnamed self (by simp [named]))
    obtain ⟨m1, m2, h1, h2, hd⟩ :=
      acquire_release_dies w s.objs Ptr.NULL pd nolive (held_live hc hb hpd)
    simp only [acquire, Option.some.injEq] at h1
    subst h1
    refine ⟨{ objs := m2, handles := s.handles.set self (some Ptr.NULL) ++ [none] }, ?_, hd⟩
    simp only [step]
    rw [intrusive_ptr.reset_eq w s self pd hpd, h2]; rfl
  | reset_ptr self p =>
    obtain ⟨pd, hpd⟩ := isSome_get (hnamed self (by simp [named]))
    obtain ⟨m1, m2, h1, h2, hd⟩ :=
      acquire_release_dies w s.objs p pd hraw (held_live hc hb hpd)
    refine ⟨{ objs := m2, handles := s.handles.set self (some p) ++ [none] }, ?_, hd⟩
    simp only [step]
    rw [intrusive_ptr.reset_ptr_eq w s self pd p hpd, h1, Option.some_bind, h2]; rfl

/-- A run of well-formed operations through bounded states is defined. -/
theorem run_defined {w : Nat} : ∀ (ops : List Op) (s : State), Coherent w s →
    BoundedRun w s ops → WellFormedRun w s ops → ∃ s1, run w s ops = some s1
  | [], s, _, _, _ => ⟨s, rfl⟩
  | op :: ops, s, hc, hb, hwf => by
    obtain ⟨hb0, hb1⟩ := hb
    obtain ⟨hw0, hw1⟩ := hwf
    obtain ⟨s1, hs1, _⟩ := step_defined hc hb0 hw0
    rw [hs1] at hb1 hw1
    obtain ⟨s2, hs2⟩ := run_defined ops s1 (step_coherent hc hb0 hs1) hb1 hw1
    exact ⟨s2, by simp only [run, hs1, Option.some_bind, hs2]⟩

/-- C2 (as stated) fails: after `2 ^ 32 + 1` handles were constructed from one
raw pointer the 32-bit counter reads 1.  The destructor of handle 1 deletes the
object although `2 ^ 32` live handles still hold its address; the destructor of
handle 2, a live handle, then releases the deleted object, so the sequence has
no defined behaviour: the object is released again after its destruction. -/
theorem released_after_destruction :
    run 32 (init 1) (crowdOps (2 ^ 32 + 1) ++ [Op.dtor 1]) = some (stranded (2 ^ 32)) ∧
    (stranded (2 ^ 32)).objs[0]? = some { m_ref_counter := 0, alive := false } ∧
    intrusive_ptr.get (stranded (2 ^ 32)) 2 = some (Ptr.addr 0) ∧
    WellFormed (stranded (2 ^ 32)) (Op.dtor 2) ∧
    step 32 (stranded (2 ^ 32)) (Op.dtor 2) = none ∧
    run 32 (init 1) (crowdOps (2 ^ 32 + 1) ++ [Op.dtor 1, Op.dtor 2]) = none := by
  have hrun : run 32 (init 1) (crowdOps (2 ^ 32 + 1) ++ [Op.dtor 1])
      = some (stranded (2 ^ 32)) := by
    rw [run_append, crowd_run, Option.some_bind]
    simp only [run, step, Option.bind_eq_bind]
    rw [crowd_dtor 32 (2 ^ 32)]
    rfl
  have hg : intrusive_ptr.get (stranded (2 ^ 32)) 2 = some (Ptr.addr 0) := by
    simp only [intrusive_ptr.get, stranded, List.getElem?_cons_succ]
    rw [List.getElem?_replicate_of_lt (by decide)]
    rfl
  have hstep : step 32 (stranded (2 ^ 32)) (Op.dtor 2) = none := by
    simp only [step]
    rw [intrusive_ptr.dtor_eq, hg]
    rfl
  refine ⟨hrun, rfl, hg, ⟨?_, rfl⟩, hstep, ?_⟩
  · intro x hx
    simp only [named, List.mem_singleton] at hx
    subst hx
    rw [hg]; rfl
  · have e : crowdOps (2 ^ 32 + 1) ++ [Op.dtor 1, Op.dtor 2]
        = (crowdOps (2 ^ 32 + 1) ++ [Op.dtor 1]) ++ [Op.dtor 2] := by
      rw [List.append_assoc]; rfl
    rw [e, run_append, hrun, Option.some_bind]
    simp only [run, hstep, Option.none_bind]

/-- C2 (amended): `intrusive_ptr_release` on a live object whose counter is `c`
with `1 ≤ c < 2 ^ w` stores `c - 1` and deletes the object if and only if
`c = 1`.  Consequently, in every state reached by a run of handle operations
from a state with no handles and only fresh objects, in which fewer than `2 ^ w`
live handles hold any one address at each point between operations, every
operation on handles within their lifetime (its raw pointer, if any, null or the
address of a live object) is defined, leaves every deleted object untouched, and
deletes an object only when its counter was one, leaving zero; the destructor
of a handle on an object of counter `c` finds it alive with `1 ≤ c`, stores
`c - 1` and deletes it if and only if `c = 1`.  And every continuation of such a
run by operations of that kind through bounded states is defined, so that no
release ever reaches a deleted object: an object deleted once is never changed
again, and an object deleted on the way has counter zero. -/
theorem release_destroys_once_bounded (w : Nat) (m : Heap) (a : Nat) (o : Obj)
    (ho : m[a]? = some o) (hal : o.alive = true)
    (h1 : 1 ≤ o.m_ref_counter) (h2 : o.m_ref_counter < 2 ^ w) :
    intrusive_ptr_release w m a
        = some (m.set a { m_ref_counter := o.m_ref_counter - 1,
                          alive := decide (o.m_ref_counter ≠ 1) }) ∧
    (∀ (n : Nat) (ops : List Op) (s : State) (op : Op),
      run w (init n) ops = some s → BoundedRun w (init n) ops → WellFormed s op →
      ∃ s1, step w s op = some s1 ∧
        (∀ (b : Nat) (x : Obj), s.objs[b]? = some x → ∃ x1, s1.objs[b]? = some x1 ∧
          (x.alive = false → x1 = x) ∧
          (x.alive = true → x1.alive = false →
            x.m_ref_counter = 1 ∧ x1.m_ref_counter = 0)) ∧
        ∀ (h b : Nat) (x : Obj), op = Op.dtor h →
          intrusive_ptr.get s h = some (Ptr.addr b) → s.objs[b]? = some x →
          x.alive = true ∧ 1 ≤ x.m_ref_counter ∧
          s1.objs[b]? = some { m_ref_counter := x.m_ref_counter - 1,
                               alive := decide (x.m_ref_counter ≠ 1) }) ∧
    (∀ (n : Nat) (ops : List Op) (s : State) (ops2 : List Op),
      run w (init n) ops = some s → BoundedRun w (init n) ops →
      BoundedRun w s ops2 → WellFormedRun w s ops2 →
      ∃ s2, run w s ops2 = some s2 ∧
        ∀ (b : Nat) (x : Obj), s.objs[b]? = some x → ∃ x2, s2.objs[b]? = some x2 ∧
          (x.alive = false → x2 = x) ∧
          (x.alive = true → x2.alive = false → x2.m_ref_counter = 0)) := by
  refine ⟨?_, ?_, ?_⟩
  · rw [release_of_alive ho hal, dec_mod h1 h2]
    have e : decide (o.m_ref_counter - 1 ≠ 0) = decide (o.m_ref_counter ≠ 1) :=
      decide_eq_decide.mpr (by omega)
    rw [e]
  · intro n ops s op hrun hb hwf
    obtain ⟨hc, hbs⟩ := run_coherent (init_coherent w n) hb hrun
    obtain ⟨s1, hs1, hd⟩ := step_defined hc hbs hwf
    refine ⟨s1, hs1, hd, fun h b x hop hg hx => ?_⟩
    subst hop
    obtain ⟨y, hy, haly, hy1, hy2⟩ := held_live hc hbs hg b rfl
    rw [hx] at hy
    cases hy
    refine ⟨haly, hy1, ?_⟩
    simp only [step] at hs1
    rw [intrusive_ptr.dtor_eq, hg, Option.some_bind] at hs1
    simp only [release] at hs1
    rw [release_of_alive hx haly, dec_mod hy1 hy2, Option.map_some'] at hs1
    have e : decide (x.m_ref_counter - 1 ≠ 0) = decide (x.m_ref_counter ≠ 1) :=
      decide_eq_decide.mpr (by omega)
    rw [e] at hs1
    cases hs1
    exact List.getElem?_set_self (List.getElem?_eq_some_iff.mp hx).1
  · intro n ops s ops2 hrun hb hb2 hwf
    obtain ⟨hc, _⟩ := run_coherent (init_coherent w n) hb hrun
    obtain ⟨s2, hs2⟩ := run_defined ops2 s hc hb2 hwf
    exact ⟨s2, hs2, run_ages hs2⟩

/-- C2 (amended), instance: releasing the last reference stores 0 and deletes
the object; after the first six operations of the sample program the destructor
of handle 3, the last owner of object 0, is defined and deletes object 0 with
its counter going from one to zero; and the whole sample program is defined. -/
theorem release_destroys_once_bounded_witness :
    (1 ≤ 1 ∧ 1 < 2 ^ 32) ∧
    intrusive_ptr_release 32 [{ m_ref_counter := 1, alive := true }] 0
        = some [{ m_ref_counter := 0, alive := false }] ∧
    (run 32 (init 2) (sampleOps.take 6) = some
        { objs := [{ m_ref_counter := 1, alive := true }, { m_ref_counter := 1, alive := true }],
          handles := [some (Ptr.addr 1), some Ptr.NULL, none, some (Ptr.addr 0), none, none] } ∧
      BoundedRun 32 (init 2) (sampleOps.take 6) ∧
      BoundedRun 32 (init 2) sampleOps ∧ WellFormedRun 32 (init 2) sampleOps) ∧
    (∃ s1, step 32
        { objs := [{ m_ref_counter := 1, alive := true }, { m_ref_counter := 1, alive := true }],
          handles := [some (Ptr.addr 1), some Ptr.NULL, none, some (Ptr.addr 0), none, none] }
        (Op.dtor 3) = some s1 ∧
      (∀ (b : Nat) (x : Obj),
        [({ m_ref_counter := 1, alive := true } : Obj), { m_ref_counter := 1, alive := true }][b]?
          = some x → ∃ x1, s1.objs[b]? = some x1 ∧
          (x.alive = false → x1 = x) ∧
          (x.alive = true → x1.alive = false →
            x.m_ref_counter = 1 ∧ x1.m_ref_counter = 0)) ∧
      s1.objs[0]? = some { m_ref_counter := 0, alive := false }) ∧
    (∃ s2, run 32 (init 2) sampleOps = some s2 ∧
      ∀ (b : Nat) (x : Obj), (init 2).objs[b]? = some x → ∃ x2, s2.objs[b]? = some x2 ∧
        (x.alive = false → x2 = x) ∧
        (x.alive = true → x2.alive = false → x2.m_ref_counter = 0)) :=
  ⟨⟨by decide, by decide⟩,
   (release_destroys_once_bounded 32 [{ m_ref_counter := 1, alive := true }] 0
      { m_ref_counter := 1, alive := true } rfl rfl (by decide) (by decide)).1,
   ⟨by decide, by decide, by decide, by decide⟩,
   (by
    obtain ⟨s1, h1, h2, h3⟩ :=
      (release_destroys_once_bounded 32 [{ m_ref_counter := 1, alive := true }] 0
        { m_ref_counter := 1, alive := true } rfl rfl (by decide) (by decide)).2.1
        2 (sampleOps.take 6)
        (State.mk [Obj.mk 1 true, Obj.mk 1 true]
          [some (Ptr.addr 1), some Ptr.NULL, none, some (Ptr.addr 0), none, none])
        (Op.dtor 3) (by decide) (by decide) (by decide)
    exact ⟨s1, h1, h2, (h3 3 0 { m_ref_counter := 1, alive := true } rfl (by decide)
      (by decide)).2.2⟩),
   (release_destroys_once_bounded 32 [{ m_ref_counter := 1, alive := true }] 0
      { m_ref_counter := 1, alive := true } rfl rfl (by decide) (by decide)).2.2
      2 [] (init 2) sampleOps rfl (by decide) (by decide) (by decide)⟩

/-! ## C22: the atomic variant under concurrency -/

theorem proj_cons (t : Nat) (e : Ev) (rest : List Ev) :
    proj t (e :: rest) = if e.thread = t then e :: proj t rest else proj t rest := by
  by_cases h : e.thread = t
  · simp [proj, List.filter_cons, h]
  · simp [proj, List.filter_cons, h]

theorem live_set_some {L : List (Option Nat)} {t x : Nat} (h : L[t]? = some none) :
    live (L.set t (some x)) = live L + 1 := by
  have hlt : t < L.length := by
    rcases Nat.lt_or_ge t L.length with h1 | h1
    · exact h1
    · rw [List.getElem?_eq_none_iff.mpr h1] at h; cases h
  have e := countP_set_add (fun v : Option Nat => v.isSome) L t (some x) hlt
  have e2 : L[t] = none := by
    rw [List.getElem?_eq_getElem hlt] at h
    exact Option.some.inj h
  rw [e2] at e
  simp only [Option.isSome_none, Option.isSome_some, if_true, Bool.false_eq_true, if_false,
    Nat.add_zero] at e
  exact e

theorem live_set_none {L : List (Option Nat)} {t x : Nat} (h : L[t]? = some (some x)) :
    live (L.set t none) + 1 = live L := by
  have hlt : t < L.length := by
    rcases Nat.lt_or_ge t L.length with h1 | h1
    · exact h1
    · rw [List.getElem?_eq_none_iff.mpr h1] at h; cases h
  have e := countP_set_add (fun v : Option Nat => v.isSome) L t none hlt
  have e2 : L[t] = some x := by
    rw [List.getElem?_eq_getElem hlt] at h
    exact Option.some.inj h
  rw [e2] at e
  simp only [Option.isSome_none, Option.isSome_some, if_true, Bool.false_eq_true, if_false,
    Nat.add_zero] at e
  exact e

theorem live_le (L : List (Option Nat)) : live L ≤ L.length :=
  List.countP_le_length _

theorem live_all_none {L : List (Option Nat)} (h : ∀ v ∈ L, v = none) : live L = 0 := by
  unfold live
  rw [List.countP_eq_zero]
  intro v hv
  rw [h v hv]
  simp

theorem getElem?_lt {α : Type} {l : List α} {i : Nat} {v : α} (h : l[i]? = some v) :
    i < l.length := by
  rcases Nat.lt_or_ge i l.length with h1 | h1
  · exact h1
  · rw [List.getElem?_eq_none_iff.mpr h1] at h; cases h

/-- Phases of the other threads are not affected by an event of thread `t0`. -/
theorem Phase.other {L L1 : List (Option Nat)} {e : Ev} {rest : List Ev} {t : Nat}
    (hne : e.thread ≠ t) (hL : L1[t]? = L[t]?) (h : Phase L (e :: rest) t) :
    Phase L1 rest t := by
  unfold Phase at h ⊢
  rw [proj_cons, if_neg hne] at h
  rw [hL]
  exact h

/-- The copy event of thread `t`. -/
theorem copy_step {w a N h1 : Nat} {s0 : State} {c : State × List (Option Nat)}
    (hh1 : h1 < s0.handles.length) (hg : s0.handles[h1]? = some (some (Ptr.addr a)))
    (ha : a < s0.objs.length)
    (hinv : ThreadsInv w a s0 N c) {t : Nat} {rest : List Ev} (ht : t < N)
    (hph : ∀ u, u < N → Phase c.2 (Ev.copy t :: rest) u) :
    ∃ c1, thread_step w h1 c (Ev.copy t) = some c1 ∧ ThreadsInv w a s0 N c1 ∧
      ∀ u, u < N → Phase c1.2 rest u := by
  obtain ⟨s, L⟩ := c
  obtain ⟨hlen, hge, hframe, hloc, hinj, hobjs, hrefs⟩ := hinv
  simp only at hlen hge hframe hloc hinj hobjs hrefs hph
  -- thread `t` is about to start
  have hpt : proj t rest = [Ev.use t, Ev.drop t] ∧ L[t]? = some none := by
    have h := hph t ht
    unfold Phase at h
    rw [proj_cons] at h
    simp only [Ev.thread, if_true, program, List.cons.injEq, true_and, reduceCtorEq, false_and,
      and_false, or_false, false_or] at h
    exact h
  have hgs : intrusive_ptr.get s h1 = some (Ptr.addr a) := by
    rw [intrusive_ptr.get_eq_some, hframe h1 hh1]; exact hg
  have hoa : s.objs[a]? = some { m_ref_counter := (1 + live L) % 2 ^ w, alive := true } := by
    rw [hobjs]; exact List.getElem?_set_self ha
  have hstep : intrusive_ptr.ctor_copy w s h1
      = some { objs := s0.objs.set a { m_ref_counter := (1 + live (L.set t (some s.handles.length)))
                                        % 2 ^ w, alive := true },
               handles := s.handles ++ [some (Ptr.addr a)] } := by
    rw [intrusive_ptr.ctor_copy_eq, hgs, Option.some_bind, intrusive_ptr.ctor_ptr_eq]
    simp only [acquire]
    rw [add_ref_of_alive hoa rfl, Option.map_some', hobjs, List.set_set, live_set_some hpt.2]
    simp only [Nat.add_mod_mod, Nat.mod_add_mod, Nat.add_assoc]
  refine ⟨(State.mk (s0.objs.set a { m_ref_counter :=
      (1 + live (L.set t (some s.handles.length))) % 2 ^ w, alive := true })
      (s.handles ++ [some (Ptr.addr a)]), L.set t (some s.handles.length)), ?_, ?_, ?_⟩
  · simp only [thread_step, hstep, Option.map_some']
  · refine ⟨?_, ?_, ?_, ?_, ?_, rfl, ?_⟩
    · simp only [List.length_set]; exact hlen
    · simp only [List.length_append, List.length_singleton]; omega
    · intro x hx
      simp only
      rw [List.getElem?_append_left (by omega)]
      exact hframe x hx
    · intro u x hu
      simp only at hu ⊢
      by_cases hut : u = t
      · subst hut
        rw [List.getElem?_set_self (by rw [hlen]; exact ht)] at hu
        simp only [Option.some.injEq] at hu
        subst hu
        refine ⟨hge, ?_⟩
        rw [intrusive_ptr.get_eq_some, List.getElem?_concat_length]
      · rw [List.getElem?_set_ne (Ne.symm hut)] at hu
        obtain ⟨h1', h2'⟩ := hloc u x hu
        refine ⟨h1', ?_⟩
        rw [intrusive_ptr.get_eq_some] at h2' ⊢
        rw [List.getElem?_append_left (getElem?_lt h2')]
        exact h2'
    · intro u v x hu hv
      simp only at hu hv
      have key : ∀ z y, z ≠ t → L[z]? = some (some y) → y ≠ s.handles.length := by
        intro z y _ hz
        have := getElem?_lt (intrusive_ptr.get_eq_some.mp (hloc z y hz).2)
        omega
      by_cases hut : u = t
      · by_cases hvt : v = t
        · rw [hut, hvt]
        · subst hut
          rw [List.getElem?_set_self (by rw [hlen]; exact ht)] at hu
          rw [List.getElem?_set_ne (Ne.symm hvt)] at hv
          simp only [Option.some.injEq] at hu
          exact absurd hu.symm (key v x hvt hv)
      · by_cases hvt : v = t
        · subst hvt
          rw [List.getElem?_set_self (by rw [hlen]; exact ht)] at hv
          rw [List.getElem?_set_ne (Ne.symm hut)] at hu
          simp only [Option.some.injEq] at hv
          exact absurd hv.symm (key u x hut hu)
        · rw [List.getElem?_set_ne (Ne.symm hut)] at hu
          rw [List.getElem?_set_ne (Ne.symm hvt)] at hv
          exact hinj u v x hu hv
    · intro b
      simp only
      rw [refs_push s _ (some (Ptr.addr a)) b, hrefs b, live_set_some hpt.2]
      by_cases hba : b = a
      · subst hba; simp only [if_true]; omega
      · have : ¬ (some (Ptr.addr a) = some (Ptr.addr b)) := by
          intro e; simp only [Option.some.injEq, Ptr.addr.injEq] at e; exact hba e.symm
        simp only [if_neg hba, if_neg this]
  · intro u hu
    by_cases hut : u = t
    · subst hut
      exact Or.inr (Or.inl ⟨hpt.1, s.handles.length,
        List.getElem?_set_self (by rw [hlen]; exact ht)⟩)
    · exact Phase.other (e := Ev.copy t) (fun e => hut e.symm)
        (List.getElem?_set_ne (Ne.symm hut)) (hph u hu)

/-- The use event of thread `t`. -/
theorem use_step {w a N h1 : Nat} {s0 : State} {c : State × List (Option Nat)}
    (ha : a < s0.objs.length)
    (hinv : ThreadsInv w a s0 N c) {t : Nat} {rest : List Ev} (ht : t < N)
    (hph : ∀ u, u < N → Phase c.2 (Ev.use t :: rest) u) :
    ∃ c1, thread_step w h1 c (Ev.use t) = some c1 ∧ ThreadsInv w a s0 N c1 ∧
      ∀ u, u < N → Phase c1.2 rest u := by
  obtain ⟨s, L⟩ := c
  have hinv0 := hinv
  obtain ⟨hlen, hge, hframe, hloc, hinj, hobjs, hrefs⟩ := hinv
  simp only at hlen hge hframe hloc hinj hobjs hrefs hph
  have hpt : proj t rest = [Ev.drop t] ∧ ∃ x, L[t]? = some (some x) := by
    have h := hph t ht
    unfold Phase at h
    rw [proj_cons] at h
    simp only [Ev.thread, if_true, program, List.cons.injEq, true_and, reduceCtorEq, false_and,
      and_false, or_false, false_or] at h
    exact h
  obtain ⟨hp, x, hx⟩ := hpt
  have hgx := (hloc t x hx).2
  have hoa : s.objs[a]? = some { m_ref_counter := (1 + live L) % 2 ^ w, alive := true } := by
    rw [hobjs]; exact List.getElem?_set_self ha
  refine ⟨(s, L), ?_, hinv0, ?_⟩
  · simp only [thread_step, hx, Option.join, Option.some_bind, id_eq,
      intrusive_ptr.operator_star, hgx, hoa]
    simp
  · intro u hu
    by_cases hut : u = t
    · subst hut
      exact Or.inr (Or.inr (Or.inl ⟨hp, x, hx⟩))
    · exact Phase.other (e := Ev.use t) (fun e => hut e.symm) rfl (hph u hu)

/-- The drop event of thread `t`. -/
theorem drop_step {w a N h1 : Nat} {s0 : State} {c : State × List (Option Nat)}
    (hN : N < 2 ^ w) (ha : a < s0.objs.length)
    (hinv : ThreadsInv w a s0 N c) {t : Nat} {rest : List Ev} (ht : t < N)
    (hph : ∀ u, u < N → Phase c.2 (Ev.drop t :: rest) u) :
    ∃ c1, thread_step w h1 c (Ev.drop t) = some c1 ∧ ThreadsInv w a s0 N c1 ∧
      ∀ u, u < N → Phase c1.2 rest u := by
  obtain ⟨s, L⟩ := c
  obtain ⟨hlen, hge, hframe, hloc, hinj, hobjs, hrefs⟩ := hinv
  simp only at hlen hge hframe hloc hinj hobjs hrefs hph
  have hpt : proj t rest = [] ∧ ∃ x, L[t]? = some (some x) := by
    have h := hph t ht
    unfold Phase at h
    rw [proj_cons] at h
    simp only [Ev.thread, if_true, program, List.cons.injEq, true_and, reduceCtorEq, false_and,
      and_false, or_false, false_or] at h
    exact h
  obtain ⟨hp, x, hx⟩ := hpt
  obtain ⟨hxge, hgx⟩ := hloc t x hx
  have hxlt : x < s.handles.length := getElem?_lt (intrusive_ptr.get_eq_some.mp hgx)
  have hlive := live_set_none hx
  have hle : live L ≤ N := by rw [← hlen]; exact live_le L
  have hoa : s.objs[a]? = some { m_ref_counter := (1 + live L) % 2 ^ w, alive := true } := by
    rw [hobjs]; exact List.getElem?_set_self ha
  have hcnt : ((1 + live L) % 2 ^ w + 2 ^ w - 1) % 2 ^ w = (1 + live (L.set t none)) % 2 ^ w := by
    rw [dec_mod_of_mod (by omega)]
    congr 1; omega
  have hnz : (1 + live (L.set t none)) % 2 ^ w ≠ 0 := by
    rw [Nat.mod_eq_of_lt (by omega)]; omega
  have hstep : intrusive_ptr.dtor w s x
      = some { objs := s0.objs.set a { m_ref_counter := (1 + live (L.set t none)) % 2 ^ w,
                                        alive := true },
               handles := s.handles.set x none } := by
    rw [intrusive_ptr.dtor_eq, hgx, Option.some_bind]
    simp only [release]
    rw [release_of_alive hoa rfl, Option.map_some', hobjs, List.set_set, hcnt]
    simp only [ne_eq, hnz, not_false_eq_true, decide_True]
  refine ⟨(State.mk (s0.objs.set a (Obj.mk ((1 + live (L.set t none)) % 2 ^ w) true))
      (s.handles.set x none), L.set t none), ?_, ?_, ?_⟩
  · simp only [thread_step, hx, Option.join, Option.some_bind, id_eq, hstep, Option.map_some']
  · refine ⟨?_, ?_, ?_, ?_, ?_, rfl, ?_⟩
    · simp only [List.length_set]; exact hlen
    · simp only [List.length_set]; exact hge
    · intro y hy
      simp only
      rw [List.getElem?_set_ne (by omega)]
      exact hframe y hy
    · intro u y hu
      simp only at hu ⊢
      by_cases hut : u = t
      · subst hut
        rw [List.getElem?_set_self (by rw [hlen]; exact ht)] at hu
        cases hu
      · rw [List.getElem?_set_ne (Ne.symm hut)] at hu
        obtain ⟨h1', h2'⟩ := hloc u y hu
        refine ⟨h1', ?_⟩
        have hyx : x ≠ y := fun e => hut (hinj u t y hu (e ▸ hx))
        rw [intrusive_ptr.get_eq_some] at h2' ⊢
        rw [List.getElem?_set_ne hyx]
        exact h2'
    · intro u v y hu hv
      simp only at hu hv
      by_cases hut : u = t
      · subst hut
        rw [List.getElem?_set_self (by rw [hlen]; exact ht)] at hu
        cases hu
      · by_cases hvt : v = t
        · subst hvt
          rw [List.getElem?_set_self (by rw [hlen]; exact ht)] at hv
          cases hv
        · rw [List.getElem?_set_ne (Ne.symm hut)] at hu
          rw [List.getElem?_set_ne (Ne.symm hvt)] at hv
          exact hinj u v y hu hv
    · intro b
      simp only
      have e := refs_set s (s0.objs.set a (Obj.mk ((1 + live (L.set t none)) % 2 ^ w) true))
        x none (some (Ptr.addr a)) b (intrusive_ptr.get_eq_some.mp hgx)
      rw [hrefs b] at e
      by_cases hba : b = a
      · subst hba
        simp only [if_true, reduceCtorEq, if_false, Nat.add_zero] at e ⊢
        omega
      · have : ¬ (some (Ptr.addr a) = some (Ptr.addr b)) := by
          intro e; simp only [Option.some.injEq, Ptr.addr.injEq] at e; exact hba e.symm
        simp only [if_neg hba, if_neg this, reduceCtorEq, if_false, Nat.add_zero] at e ⊢
        exact e
  · intro u hu
    by_cases hut : u = t
    · subst hut
      exact Or.inr (Or.inr (Or.inr ⟨hp, List.getElem?_set_self (by rw [hlen]; exact hu)⟩))
    · exact Phase.other (e := Ev.drop t) (fun e => hut e.symm)
        (List.getElem?_set_ne (Ne.symm hut)) (hph u hu)

/-- Every schedule in which each thread still has a suffix of its program to
execute runs to the end, keeps the invariant and leaves no local handle. -/
theorem run_threads_inv {w a N h1 : Nat} {s0 : State}
    (hN : N < 2 ^ w) (hh1 : h1 < s0.handles.length)
    (hg : s0.handles[h1]? = some (some (Ptr.addr a))) (ha : a < s0.objs.length) :
    ∀ (rest : List Ev) (c : State × List (Option Nat)), ThreadsInv w a s0 N c →
      (∀ e ∈ rest, e.thread < N) → (∀ u, u < N → Phase c.2 rest u) →
      ∃ c1, run_threads w h1 c rest = some c1 ∧ ThreadsInv w a s0 N c1 ∧
        ∀ u, u < N → c1.2[u]? = some none
  | [], c, hinv, _, hph => by
    refine ⟨c, rfl, hinv, fun u hu => ?_⟩
    have h := hph u hu
    unfold Phase at h
    simp only [proj, List.filter_nil, program, reduceCtorEq, false_and, false_or, true_and,
      List.nil_eq] at h
    exact h
  | e :: rest, c, hinv, hthr, hph => by
    have het : e.thread < N := hthr e (List.mem_cons_self _ _)
    have hstep : ∃ c1, thread_step w h1 c e = some c1 ∧ ThreadsInv w a s0 N c1 ∧
        ∀ u, u < N → Phase c1.2 rest u := by
      cases e with
      | copy t => exact copy_step hh1 hg ha hinv het hph
      | use t => exact use_step ha hinv het hph
      | drop t => exact drop_step hN ha hinv het hph
    obtain ⟨c1, hc1, hinv1, hph1⟩ := hstep
    obtain ⟨c2, hc2, hinv2, hend⟩ := run_threads_inv hN hh1 hg ha rest c1 hinv1
      (fun e he => hthr e (List.mem_cons_of_mem _ he)) hph1
    exact ⟨c2, by simp only [run_threads, hc1, Option.some_bind, hc2], hinv2, hend⟩

/-- C22: the atomic variant under concurrency.  The shared handle `h1` holds the
address `a` of a live object of counter 1; each of `N` threads (`N < 2 ^ w`, `w`
the width of the atomic counter) copies `h1` into a local handle, uses the
pointee through the local and drops the local.  For every interleaving of the
events of the threads the execution is defined (so every use finds the object
alive), and once all threads are done no local handle is left, the heap is
exactly the initial one (the object alive with counter 1, no other object
touched), every handle of the initial state is as it was, every address is held
by as many handles as before, and the destructor of `h1` then deletes the
object, its counter going from one to zero, and touches no other object. -/
theorem threads_restore_count (w N : Nat) (s : State) (h1 a : Nat) (sched : List Ev)
    (hw : 1 ≤ w) (hN : N < 2 ^ w)
    (hg : intrusive_ptr.get s h1 = some (Ptr.addr a))
    (ho : s.objs[a]? = some { m_ref_counter := 1, alive := true })
    (hs : Interleaving N sched) :
    ∃ s1, run_threads w h1 (s, List.replicate N none) sched
        = some (s1, List.replicate N none) ∧
      s1.objs = s.objs ∧
      s1.objs[a]? = some { m_ref_counter := 1, alive := true } ∧
      (∀ x, x < s.handles.length → s1.handles[x]? = s.handles[x]?) ∧
      intrusive_ptr.get s1 h1 = some (Ptr.addr a) ∧
      (∀ b, refs s1 b = refs s b) ∧
      ∃ s2, intrusive_ptr.dtor w s1 h1 = some s2 ∧
        s2.objs[a]? = some { m_ref_counter := 0, alive := false } ∧
        (∀ b, b ≠ a → s2.objs[b]? = s.objs[b]?) ∧
        intrusive_ptr.get s2 h1 = none := by
  have hpow : 1 < 2 ^ w := Nat.one_lt_two_pow (by omega)
  have ha : a < s.objs.length := getElem?_lt ho
  have hgs := intrusive_ptr.get_eq_some.mp hg
  have hh1 : h1 < s.handles.length := getElem?_lt hgs
  have hrep : ∀ (t : Nat) (x : Nat), (List.replicate N (none : Option Nat))[t]? ≠ some (some x) := by
    intro t x e
    have hm := List.getElem?_mem e
    rw [List.mem_replicate] at hm
    cases hm.2
  have hlive0 : live (List.replicate N (none : Option Nat)) = 0 :=
    live_all_none (fun v hv => (List.mem_replicate.mp hv).2)
  have hinv0 : ThreadsInv w a s N (s, List.replicate N none) := by
    refine ⟨List.length_replicate _ _, Nat.le_refl _, fun _ _ => rfl,
      fun t x e => absurd e (hrep t x), fun t _ x e => absurd e (hrep t x), ?_, fun b => ?_⟩
    · simp only [hlive0, Nat.add_zero, Nat.mod_eq_of_lt hpow]
      exact (set_of_getElem? ho).symm
    · simp only [hlive0, ite_self, Nat.add_zero]
  have hph0 : ∀ u, u < N → Phase (List.replicate N (none : Option Nat)) sched u := by
    intro u hu
    refine Or.inl ⟨hs.2 u hu, ?_⟩
    rw [List.getElem?_replicate, if_pos hu]
  obtain ⟨⟨s1, L1⟩, hrun, hinv1, hend⟩ :=
    run_threads_inv hN hh1 hgs ha sched (s, List.replicate N none) hinv0 hs.1 hph0
  obtain ⟨hlen, hge, hframe, hloc, hinj, hobjs, hrefs⟩ := hinv1
  simp only at hlen hge hframe hloc hinj hobjs hrefs hend
  have hL1 : L1 = List.replicate N none := by
    rw [List.eq_replicate_iff]
    refine ⟨hlen, fun v hv => ?_⟩
    obtain ⟨i, hi, e⟩ := List.mem_iff_getElem.mp hv
    have h2 := hend i (by rw [← hlen]; exact hi)
    rw [List.getElem?_eq_getElem hi, e] at h2
    exact Option.some.inj h2
  subst hL1
  rw [hlive0] at hobjs hrefs
  simp only [Nat.add_zero, Nat.mod_eq_of_lt hpow, ite_self] at hobjs hrefs
  have hobjs1 : s1.objs = s.objs := by rw [hobjs]; exact set_of_getElem? ho
  have ho1 : s1.objs[a]? = some { m_ref_counter := 1, alive := true } := by
    rw [hobjs1]; exact ho
  have hg1 : intrusive_ptr.get s1 h1 = some (Ptr.addr a) := by
    rw [intrusive_ptr.get_eq_some, hframe h1 hh1]; exact hgs
  refine ⟨s1, hrun, hobjs1, ho1, hframe, hg1, hrefs, ?_⟩
  have hz : (1 + 2 ^ w - 1) % 2 ^ w = 0 := by
    rw [Nat.add_sub_cancel_left]; exact Nat.mod_self _
  refine ⟨State.mk (s1.objs.set a (Obj.mk 0 false)) (s1.handles.set h1 none), ?_, ?_, ?_, ?_⟩
  · rw [intrusive_ptr.dtor_eq, hg1, Option.some_bind]
    simp only [release]
    rw [release_of_alive ho1 rfl, Option.map_some']
    simp only [hz, ne_eq, not_true_eq_false, decide_False]
  · simp only
    rw [hobjs1]
    exact List.getElem?_set_self ha
  · intro b hb
    simp only
    rw [hobjs1, List.getElem?_set_ne (Ne.symm hb)]
  · simp only [intrusive_ptr.get]
    rw [List.getElem?_set_self (by omega)]
    rfl

/-- C22, instance: two threads on the sole owner of an object, with a 64-bit
counter, both copying before either uses and drops: the execution is defined,
the counter is back to 1 with the object alive, and the destructor of the shared
handle then deletes the object. -/
theorem threads_restore_count_witness :
    (1 ≤ 64 ∧ 2 < 2 ^ 64 ∧ intrusive_ptr.get soleOwner 0 = some (Ptr.addr 0) ∧
      soleOwner.objs[0]? = some { m_ref_counter := 1, alive := true } ∧
      Interleaving 2 twoThreads) ∧
    ∃ s1, run_threads 64 0 (soleOwner, List.replicate 2 none) twoThreads
        = some (s1, List.replicate 2 none) ∧
      s1.objs = soleOwner.objs ∧
      s1.objs[0]? = some { m_ref_counter := 1, alive := true } ∧
      (∀ x, x < soleOwner.handles.length → s1.handles[x]? = soleOwner.handles[x]?) ∧
      intrusive_ptr.get s1 0 = some (Ptr.addr 0) ∧
      (∀ b, refs s1 b = refs soleOwner b) ∧
      ∃ s2, intrusive_ptr.dtor 64 s1 0 = some s2 ∧
        s2.objs[0]? = some { m_ref_counter := 0, alive := false } ∧
        (∀ b, b ≠ 0 → s2.objs[b]? = soleOwner.objs[b]?) ∧
        intrusive_ptr.get s2 0 = none :=
  ⟨⟨by decide, by decide, by decide, by decide, by decide⟩,
   threads_restore_count 64 2 soleOwner 0 0 twoThreads (by decide) (by decide) (by decide)
     (by decide) (by decide)⟩

end wstux
